import Mathlib

/-!
# Pagination engine of gophercloud: `pagination/pager.go`

A shallow embedding of `Pager.EachPage` and `Pager.AllPages` together with the
data they work on, and of the container listing page of
`openstack/objectstorage/v1/containers/results.go`, followed by theorems about
them.

Conventions of the embedding.

* A Go `error` value is an `Error`; the `nil` error is `none`.
* A Go function returning `(T, error)` whose `T` is meaningless on failure is an
  `Except Error T`; where the code builds both components itself (page methods,
  visitor callbacks, `AllPages`) the pair is kept as `T × Option Error`.
* A Go panic (a failed type assertion, `reflect.Value.Set` on the zero `Value`)
  is `Outcome.panic` with the message of the run-time error.
* The `for` loop of `EachPage` has no bound in the source; the embedding takes a
  number of loop iterations it may run (`fuel`) and answers `none` when that
  number is used up before the loop returns.
* The transport and the visitor act on the outside world.  The world is made
  explicit: a trace of `Event`s (every fetch and every visitor invocation, in
  the order they happen) and the state the visitor closure captures.
-/

namespace strings

/-- Go `strings.HasSuffix`: `s` ends with `suffix`. -/
def HasSuffix (s suffix : String) : Bool :=
  suffix.data.isSuffixOf s.data

/-- Go `strings.HasPrefix`: `s` begins with `start`. -/
def HasPrefix (s start : String) : Bool :=
  start.data.isPrefixOf s.data

/-- Go `strings.TrimPrefix`: `s` without the leading `start`, `s` itself when it
does not begin with `start`. -/
def TrimPrefix (s start : String) : String :=
  if HasPrefix s start then String.mk (s.data.drop start.data.length) else s

/-- Go `strings.Split` for a separator of one byte, on the bytes of the string:
the segments between the separators, one more than there are separators. -/
def Split (sep : UInt8) : List UInt8 → List (List UInt8)
  | [] => [[]]
  | c :: cs =>
    if c = sep then [] :: Split sep cs
    else
      match Split sep cs with
      | [] => [[c]]
      | seg :: segs => (c :: seg) :: segs

end strings

namespace pagination

/-- A Go `error` value: either a plain message (`errors.New`, `fmt.Errorf`, a
transport failure) or `gophercloud.ErrUnexpectedType` with its two fields. -/
inductive Error where
  | errorString (msg : String)
  | ErrUnexpectedType (Expected : String) (Actual : String)
  deriving DecidableEq, Repr

/-- A value of Go type `any` as a page body can hold it: what the JSON decoder
produces (`nil`, `bool`, `float64`, `string`, `[]any`, `map[string]any`), the raw
bytes of a non-JSON response (`[]byte`), and the `map[string][]any` that
`AllPages` builds with `reflect.MakeMap`.  Maps are association lists; ranging
over a map visits the entries in list order.  Go leaves the order of a `range`
over a map open and picks it anew for every `range`: the order of the list is
the order of the one `range` the code does over that map value, so a statement
about the program is one that holds for every order of the list, and two calls
that see the same map may see it listed in two orders.  The payload of a `float64` is not
inspected by any function here and is kept as an integer. -/
inductive Any where
  | nil
  | bool (b : Bool)
  | float64 (x : Int)
  | string (s : String)
  | bytes (b : List UInt8)
  | slice (xs : List Any)
  | object (kvs : List (String × Any))
  | objectOfSlices (kvs : List (String × List Any))

/-- What `fmt.Sprintf("%T", v)` prints for a body value. -/
def Any.typeName : Any → String
  | .nil => "<nil>"
  | .bool _ => "bool"
  | .float64 _ => "float64"
  | .string _ => "string"
  | .bytes _ => "[]uint8"
  | .slice _ => "[]interface \x7b\x7d"
  | .object _ => "map[string]interface \x7b\x7d"
  | .objectOfSlices _ => "map[string][]interface \x7b\x7d"

/-- Outcome of a Go call that may panic instead of returning. -/
inductive Outcome (α : Type) where
  | ret (a : α)
  | panic (msg : String)

/-- Go `http.Header`: header name to list of values. -/
abbrev Header := List (String × List String)

/-- Modelled from the spec: `PageResult` (declared in `pagination/http.go`), the
snapshot of one fetched page: decoded body, header map, integer status code. -/
structure PageResult where
  Body : Any
  Header : Header
  StatusCode : Int

/-- The fields of a concrete page struct: the embedded `PageResult` and, in
`extra`, everything the concrete type adds to it (zero value `Any.nil`). -/
structure PageData where
  PageResult : PageResult
  extra : Any

/-- A concrete Go type implementing the `Page` interface, as `reflect.TypeOf`
sees it: whether the struct has a field `SinglePageBase`, and its methods
`NextPageURL` and `IsEmpty` as functions of the receiver. -/
structure PageType where
  hasSinglePageBase : Bool
  NextPageURL : PageData → Outcome (String × Option Error)
  IsEmpty : PageData → Outcome (Bool × Option Error)

/-- A value of interface type `Page`: a concrete type and the value of that
type. -/
structure Page where
  pageType : PageType
  data : PageData

/-- The interface method `NextPageURL`. -/
def Page.NextPageURL (pg : Page) : Outcome (String × Option Error) :=
  pg.pageType.NextPageURL pg.data

/-- The interface method `IsEmpty`. -/
def Page.IsEmpty (pg : Page) : Outcome (Bool × Option Error) :=
  pg.pageType.IsEmpty pg.data

/-- The interface method `GetBody`: the body of the embedded `PageResult`. -/
def Page.GetBody (pg : Page) : Any :=
  pg.data.PageResult.Body

/-- One observable action of the pager: a request sent through the transport,
or an invocation of the visitor on a page. -/
inductive Event where
  | fetch (url : String)
  | visit (pg : Page)

/-- The URLs requested in a trace, oldest first. -/
def fetches : List Event → List String
  | [] => []
  | .fetch url :: tr => url :: fetches tr
  | .visit _ :: tr => fetches tr

/-- The pages handed to the visitor in a trace, oldest first. -/
def visits : List Event → List Page
  | [] => []
  | .fetch _ :: tr => visits tr
  | .visit pg :: tr => pg :: visits tr

/-- Modelled from the spec: an HTTP response of the transport, represented by
what `PageResultFrom` (declared in `pagination/http.go`) makes of it. -/
structure Response where
  decoded : Except Error PageResult

/-- Modelled from the spec: `PageResultFrom` wraps a raw response into a
`PageResult` or fails with a decode error. -/
def PageResultFrom (resp : Response) : Except Error PageResult :=
  resp.decoded

/-- Modelled from the spec: the transport collaborator behind
`*gophercloud.ServiceClient`.  Its answer to a request may depend on everything
that happened before (the trace), on the caller-supplied headers and on the
URL. -/
structure ServiceClient where
  respond : List Event → List (String × String) → String → Except Error Response

/-- Modelled from the spec: `Request` (declared in `pagination/http.go`),
"fetch the raw response for a given URL, with caller-supplied headers". -/
def Request (client : ServiceClient) (tr : List Event) (headers : List (String × String))
    (url : String) : Except Error Response :=
  client.respond tr headers url

/-- The struct `Pager`. -/
structure Pager where
  client : ServiceClient
  initialURL : String
  createPage : PageResult → Page
  firstPage : Option Page
  Err : Option Error
  Headers : List (String × String)

/-- The constructor `NewPager`: the remaining fields are zero. -/
def NewPager (client : ServiceClient) (initialURL : String) (createPage : PageResult → Page) :
    Pager :=
  ⟨client, initialURL, createPage, none, none, []⟩

/-- The method `WithPageCreator`. -/
def Pager.WithPageCreator (p : Pager) (createPage : PageResult → Page) : Pager :=
  ⟨p.client, p.initialURL, createPage, none, none, []⟩

/-- The method `fetchNextPage`: the request is recorded in the trace. -/
def Pager.fetchNextPage (p : Pager) (url : String) (tr : List Event) :
    Except Error Page × List Event :=
  match Request p.client tr p.Headers url with
  | .error err => (.error err, tr ++ [Event.fetch url])
  | .ok resp =>
    match PageResultFrom resp with
    | .error err => (.error err, tr ++ [Event.fetch url])
    | .ok remembered => (.ok (p.createPage remembered), tr ++ [Event.fetch url])

/-- The world a pager runs in: the trace of events so far and the state
captured by the visitor closure. -/
structure World (σ : Type) where
  trace : List Event
  st : σ

/-- A visitor `func(context.Context, Page) (bool, error)` closing over state of
type `σ`. -/
abbrev Handler (σ : Type) := Page → σ → Outcome (Bool × Option Error) × σ

/-- The `for` loop of `EachPage`, with the loop variables `p.firstPage` and
`currentURL` as arguments. -/
def Pager.eachPageLoop {σ : Type} (p : Pager) (handler : Handler σ) :
    Nat → Option Page → String → World σ → Option (Outcome (Option Error) × World σ)
  | 0, _, _, _ => none
  | fuel + 1, firstPage, currentURL, w =>
    let got : Except Error Page × List Event :=
      match firstPage with
      | some pg => (.ok pg, w.trace)
      | none => p.fetchNextPage currentURL w.trace
    match got with
    | (.error err, tr) => some (.ret (some err), ⟨tr, w.st⟩)
    | (.ok currentPage, tr) =>
      match currentPage.IsEmpty with
      | .panic msg => some (.panic msg, ⟨tr, w.st⟩)
      | .ret (_, some err) => some (.ret (some err), ⟨tr, w.st⟩)
      | .ret (true, none) => some (.ret none, ⟨tr, w.st⟩)
      | .ret (false, none) =>
        match handler currentPage w.st with
        | (.panic msg, s) => some (.panic msg, ⟨tr ++ [Event.visit currentPage], s⟩)
        | (.ret (_, some err), s) =>
          some (.ret (some err), ⟨tr ++ [Event.visit currentPage], s⟩)
        | (.ret (false, none), s) => some (.ret none, ⟨tr ++ [Event.visit currentPage], s⟩)
        | (.ret (true, none), s) =>
          match currentPage.NextPageURL with
          | .panic msg => some (.panic msg, ⟨tr ++ [Event.visit currentPage], s⟩)
          | .ret (_, some err) =>
            some (.ret (some err), ⟨tr ++ [Event.visit currentPage], s⟩)
          | .ret (url, none) =>
            if url = "" then some (.ret none, ⟨tr ++ [Event.visit currentPage], s⟩)
            else p.eachPageLoop handler fuel none url ⟨tr ++ [Event.visit currentPage], s⟩

/-- The method `EachPage`. -/
def Pager.EachPage {σ : Type} (fuel : Nat) (p : Pager) (handler : Handler σ) (w : World σ) :
    Option (Outcome (Option Error) × World σ) :=
  match p.Err with
  | some err => some (.ret (some err), w)
  | none => p.eachPageLoop handler fuel p.firstPage p.initialURL w

/-- Go `validHeaderFieldByte` (net/textproto): the bytes allowed in a header
field name, the `tchar` of RFC 7230. -/
def validHeaderFieldByte (c : Char) : Bool :=
  c.isAlphanum || "!#$%&*+-.^_|~".data.contains c || c = Char.ofNat 39 || c = Char.ofNat 96

/-- The casing loop of Go `canonicalMIMEHeaderKey`: upper case for the first
letter and for a letter after a dash, lower case elsewhere. -/
def canonicalCase : Bool → List Char → List Char
  | _, [] => []
  | upper, c :: cs =>
    let d := if upper && c.isLower then c.toUpper
             else if !upper && c.isUpper then c.toLower else c
    d :: canonicalCase (d = Char.ofNat 45) cs

/-- Go `textproto.CanonicalMIMEHeaderKey`: a key with a byte that is not valid
in a header field name is returned unchanged. -/
def CanonicalMIMEHeaderKey (s : String) : String :=
  if s.data.all validHeaderFieldByte then String.mk (canonicalCase true s.data) else s

/-- Appends `v` to the values stored under `key`, adding the entry when the map
has none. -/
def headerAppend (key v : String) : Header → Header
  | [] => [(key, [v])]
  | (k, vs) :: h => if k = key then (k, vs ++ [v]) :: h else (k, vs) :: headerAppend key v h

/-- Go `http.Header.Add`. -/
def Header.Add (h : Header) (key value : String) : Header :=
  headerAppend (CanonicalMIMEHeaderKey key) value h

/-- The state shared by `AllPages` and the visitor closures it passes to
`EachPage`: the local variables `key` and `pagesSlice`. -/
structure AggState where
  key : String
  pagesSlice : List Any

/-- The body of `for k, v := range b` in the `map[string]any` branch. -/
def collectField (st : AggState) (kv : String × Any) : AggState :=
  if !strings.HasSuffix kv.1 "links" then
    match kv.2 with
    | .slice vt => ⟨kv.1, st.pagesSlice ++ vt⟩
    | _ => st
  else st

/-- The message of the run-time panic of a failed type assertion `v.(T)` on a
value `v` of type `any`: it names the dynamic type of `v` (`nil` for the nil
interface) and the asserted type `T`. -/
def assertionFailure (v : Any) (asserted : String) : String :=
  "interface conversion: interface \x7b\x7d is "
    ++ (match v with
        | .nil => "nil"
        | _ => v.typeName)
    ++ ", not " ++ asserted

/-- The visitor of the `map[string]any` branch of `AllPages`.  The entries of
the body are visited in the order of the list, which stands for the order the
runtime picks for this one `range` over the map. -/
def objectHandler : Handler AggState := fun page st =>
  match page.GetBody with
  | .object b => (.ret (true, none), b.foldl collectField st)
  | v => (.panic (assertionFailure v "map[string]interface \x7b\x7d"), st)

/-- The visitor of the `[]byte` branch of `AllPages`. -/
def bytesHandler : Handler AggState := fun page st =>
  match page.GetBody with
  | .bytes b =>
    (.ret (true, none), ⟨st.key, (st.pagesSlice ++ [Any.bytes b]) ++ [Any.bytes [10]]⟩)
  | v => (.panic (assertionFailure v "[]uint8"), st)

/-- The visitor of the `[]any` branch of `AllPages`. -/
def sliceHandler : Handler AggState := fun page st =>
  match page.GetBody with
  | .slice b => (.ret (true, none), ⟨st.key, st.pagesSlice ++ b⟩)
  | v => (.panic (assertionFailure v "[]interface \x7b\x7d"), st)

/-- The loop `for _, slice := range pagesSlice` of the `[]byte` branch, with
the accumulator `b`. -/
def combineBytes : List Any → List UInt8 → Outcome (List UInt8)
  | [], b => .ret b
  | .bytes slice :: rest, b => combineBytes rest (b ++ slice)
  | v :: _, _ => .panic (assertionFailure v "[]uint8")

/-- The loop `for i, s := range pagesSlice` of the `[]any` branch, which stores
`reflect.ValueOf(s)` in element `i` of the new slice.  For a nil element (a JSON
`null`) `reflect.ValueOf` gives the zero `Value`, and `Set` panics on it. -/
def setElements : List Any → Outcome (List Any)
  | [] => .ret []
  | .nil :: _ => .panic "reflect: call of reflect.Value.Set on zero Value"
  | s :: rest =>
    match setElements rest with
    | .panic msg => .panic msg
    | .ret body => .ret (s :: body)

/-- The loop `for k, v := range p.Headers` over a fresh `http.Header`.  The
entries are visited in the order of the list, which stands for the order the
runtime picks for this one `range` over the map. -/
def buildHeader (headers : List (String × String)) : Header :=
  headers.foldl (fun h kv => Header.Add h kv.1 kv.2) []

/-- The tail of `AllPages`: a zero value of the first page's type whose `Body`
and `Header` fields are then set. -/
def newPage (pageType : PageType) (body : Any) (headers : List (String × String)) : Page :=
  ⟨pageType, ⟨⟨body, buildHeader headers, 0⟩, Any.nil⟩⟩

/-- The method `AllPages`. -/
def Pager.AllPages (fuel : Nat) (p : Pager) (tr : List Event) :
    Option (Outcome (Option Page × Option Error) × List Event) :=
  match p.Err with
  | some err => some (.ret (none, some err), tr)
  | none =>
    match p.fetchNextPage p.initialURL tr with
    | (.error err, tr1) => some (.ret (none, some err), tr1)
    | (.ok firstPage, tr1) =>
      if firstPage.pageType.hasSinglePageBase then some (.ret (some firstPage, none), tr1)
      else
        let p1 : Pager :=
          ⟨p.client, p.initialURL, p.createPage, some firstPage, p.Err, p.Headers⟩
        match firstPage.GetBody with
        | .object _ =>
          match p1.EachPage fuel objectHandler ⟨tr1, ⟨"", []⟩⟩ with
          | none => none
          | some (.panic msg, w) => some (.panic msg, w.trace)
          | some (.ret (some err), w) => some (.ret (none, some err), w.trace)
          | some (.ret none, w) =>
            some (.ret (some (newPage firstPage.pageType
              (.objectOfSlices [(w.st.key, w.st.pagesSlice)]) p.Headers), none), w.trace)
        | .bytes _ =>
          match p1.EachPage fuel bytesHandler ⟨tr1, ⟨"", []⟩⟩ with
          | none => none
          | some (.panic msg, w) => some (.panic msg, w.trace)
          | some (.ret (some err), w) => some (.ret (none, some err), w.trace)
          | some (.ret none, w) =>
            let pagesSlice :=
              if w.st.pagesSlice.length > 0 then w.st.pagesSlice.take (w.st.pagesSlice.length - 1)
              else w.st.pagesSlice
            match combineBytes pagesSlice [] with
            | .panic msg => some (.panic msg, w.trace)
            | .ret b => some (.ret (some (newPage firstPage.pageType (.bytes b) p.Headers), none),
                w.trace)
        | .slice _ =>
          match p1.EachPage fuel sliceHandler ⟨tr1, ⟨"", []⟩⟩ with
          | none => none
          | some (.panic msg, w) => some (.panic msg, w.trace)
          | some (.ret (some err), w) => some (.ret (none, some err), w.trace)
          | some (.ret none, w) =>
            match setElements w.st.pagesSlice with
            | .panic msg => some (.panic msg, w.trace)
            | .ret body =>
              some (.ret (some (newPage firstPage.pageType (.slice body) p.Headers), none),
                w.trace)
        | pb =>
          some (.ret (none, some (.ErrUnexpectedType "map[string]any/[]byte/[]any" pb.typeName)),
            tr1)

/-! ## Vocabulary of the statements -/

/-- The page reports `(false, nil)` from `IsEmpty`. -/
def Page.nonEmpty (pg : Page) : Bool :=
  match pg.IsEmpty with
  | .ret (false, none) => true
  | _ => false

/-- The page ends a walk without error: it is empty, or it is non-empty and its
next-page URL is the empty string. -/
def Terminal (pg : Page) : Prop :=
  pg.IsEmpty = .ret (true, none) ∨
    (pg.IsEmpty = .ret (false, none) ∧ pg.NextPageURL = .ret ("", none))

/-- With `pg` in hand at trace `tr`, the backend serves `rest` behind it: every
page but the last is non-empty and names a non-empty next URL whose fetch, issued
after the visitor has seen the page, yields the following page; the last page is
terminal. -/
def Walk (p : Pager) : List Event → Page → List Page → Prop
  | _, pg, [] => Terminal pg
  | tr, pg, q :: rest =>
    pg.IsEmpty = .ret (false, none) ∧
    ∃ next, pg.NextPageURL = .ret (next, none) ∧ next ≠ "" ∧
      (p.fetchNextPage next (tr ++ [Event.visit pg])).1 = .ok q ∧
      Walk p (tr ++ [Event.visit pg] ++ [Event.fetch next]) q rest

/-- The finite chain of pages `pages` is what the backend of `p` serves from
`url` on, starting at trace `tr`. -/
def ServesChain (p : Pager) (tr : List Event) (url : String) : List Page → Prop
  | [] => False
  | pg :: rest => (p.fetchNextPage url tr).1 = .ok pg ∧ Walk p (tr ++ [Event.fetch url]) pg rest

/-- The state of the visitor closure after it has been invoked on `pages` in
turn. -/
def feed {σ : Type} (handler : Handler σ) : List Page → σ → σ
  | [], s => s
  | pg :: pages, s => feed handler pages (handler pg s).2

/-- The visitor continues on each page of `pre` in turn and then returns
`(false, nil)` on `pg`. -/
def StopsOn {σ : Type} (handler : Handler σ) : List Page → Page → σ → Prop
  | [], pg, s => (handler pg s).1 = .ret (false, none)
  | q :: pre, pg, s =>
    (handler q s).1 = .ret (true, none) ∧ StopsOn handler pre pg (handler q s).2

/-- What a run of the loop leaves behind when it returns `nil` after having
handed exactly the pages `seen` to the visitor and issued `n` fetches. -/
def Ran {σ : Type} (handler : Handler σ) (w : World σ) (seen : List Page) (n : Nat)
    (res : Option (Outcome (Option Error) × World σ)) : Prop :=
  ∃ w2 : World σ, res = some (.ret none, w2) ∧
    visits w2.trace = visits w.trace ++ seen ∧
    (fetches w2.trace).length = (fetches w.trace).length + n ∧
    w2.st = feed handler seen w.st

/-- The trace after `n` successive calls of `AllPages` on the same Pager, each
call starting in the world the one before has left. -/
def allPagesTimes (fuel : Nat) (p : Pager) : Nat → List Event → Option (List Event)
  | 0, tr => some tr
  | n + 1, tr =>
    match p.AllPages fuel tr with
    | none => none
    | some (_, tr1) => allPagesTimes fuel p n tr1

/-- The list-valued fields of a keyed-object body whose name does not end in
`links`, in map order, each with its elements. -/
def Any.listFields : Any → List (String × List Any)
  | .object kvs => kvs.filterMap (fun kv =>
      if strings.HasSuffix kv.1 "links" then none
      else match kv.2 with
        | .slice xs => some (kv.1, xs)
        | _ => none)
  | _ => []

/-- The elements of the list fields of a keyed-object page, in map order. -/
def Page.items (pg : Page) : List Any :=
  (pg.GetBody.listFields.map Prod.snd).flatten

/-- The elements of a bare-array body. -/
def Any.elements : Any → List Any
  | .slice xs => xs
  | _ => []

/-- The byte sequences `bs` in order, one newline byte between successive ones
and none after the last. -/
def joinNewline : List (List UInt8) → List UInt8
  | [] => []
  | [b] => b
  | b :: c :: bs => b ++ [10] ++ joinNewline (c :: bs)

/-- What the visitor of the `[]byte` branch has put in `pagesSlice` after pages
with bodies `bs`: every body followed by a separator. -/
def separated : List (List UInt8) → List Any
  | [] => []
  | b :: bs => Any.bytes b :: Any.bytes [10] :: separated bs

/-! ## Example listings -/

/-- The first value stored under `key`, the empty string when there is none. -/
def headerFirst (key : String) : Header → String
  | [] => ""
  | (k, vs) :: h => if k = key then vs.headD "" else headerFirst key h

/-- Emptiness of an example page: no bytes, no elements, or no list field with
an element. -/
def exampleIsEmpty : Any → Bool
  | .bytes b => b.isEmpty
  | .slice xs => xs.isEmpty
  | .object kvs => kvs.all (fun kv => match kv.2 with
      | .slice (_ :: _) => false
      | _ => true)
  | _ => false

/-- An example page type of a multi-page listing: the next URL is the value of
the response header `Next`. -/
def examplePageType : PageType :=
  ⟨false, fun d => .ret (headerFirst "Next" d.PageResult.Header, none),
    fun d => .ret (exampleIsEmpty d.PageResult.Body, none)⟩

/-- An example page type that embeds `SinglePageBase`: there is never a next
page. -/
def exampleSinglePageType : PageType :=
  ⟨true, fun _ => .ret ("", none), fun d => .ret (exampleIsEmpty d.PageResult.Body, none)⟩

/-- Page-construction function of the example multi-page listing. -/
def examplePage (r : PageResult) : Page :=
  ⟨examplePageType, ⟨r, Any.nil⟩⟩

/-- Page-construction function of the example single-page listing. -/
def exampleSinglePage (r : PageResult) : Page :=
  ⟨exampleSinglePageType, ⟨r, Any.nil⟩⟩

/-- The answer of a deterministic backend that serves the responses of `table`,
keyed by URL, and fails for any other URL. -/
def serveTable : List (String × PageResult) → String → Except Error Response
  | [], _ => .error (.errorString "404")
  | (u, r) :: table, url => if u = url then .ok ⟨.ok r⟩ else serveTable table url

/-- A deterministic backend over a table of responses. -/
def tableClient (table : List (String × PageResult)) : ServiceClient :=
  ⟨fun _ _ url => serveTable table url⟩

/-- A response with the given body, status 200 and, when `next` is not empty, a
`Next` header naming the following page. -/
def exampleResult (body : Any) (next : String) : PageResult :=
  ⟨body, if next = "" then [] else [("Next", [next])], 200⟩

/-- A visitor that counts its invocations and always continues. -/
def countingHandler : Handler Nat :=
  fun _ n => (.ret (true, none), n + 1)

/-- A visitor that counts its invocations and stops on the `k`-th. -/
def stoppingHandler (k : Nat) : Handler Nat :=
  fun _ n => (.ret (decide (n + 1 < k), none), n + 1)

/-- The bytes of an ASCII text. -/
def ascii (s : String) : List UInt8 :=
  s.data.map (fun c => UInt8.ofNat c.toNat)

/-- Example: a keyed-object listing in three pages, `items` = `a`, `b`, then
`c`, then the empty terminator. -/
def itemsPager : Pager :=
  NewPager (tableClient
    [("/items",
        exampleResult (.object [("items", .slice [.string "a", .string "b"])]) "/items?2"),
     ("/items?2", exampleResult (.object [("items", .slice [.string "c"])]) "/items?3"),
     ("/items?3", exampleResult (.object [("items", .slice [])]) "")]) "/items" examplePage

/-- Example: a keyed-object listing whose first page is already the empty
terminator. -/
def noItemsPager : Pager :=
  NewPager (tableClient [("/items", exampleResult (.object [("items", .slice [])]) "")])
    "/items" examplePage

/-- Example: a byte-stream listing in two pages, `name1` and `name2`, each name
followed by a newline. -/
def namesPager : Pager :=
  NewPager (tableClient
    [("/c", exampleResult (.bytes (ascii "name1\n")) "/c?marker=name1"),
     ("/c?marker=name1", exampleResult (.bytes (ascii "name2\n")) "")]) "/c" examplePage

/-- Example: a bare-array listing in two pages followed by the empty
terminator. -/
def arrayPager : Pager :=
  NewPager (tableClient
    [("/a", exampleResult (.slice [.float64 1, .float64 2]) "/a?2"),
     ("/a?2", exampleResult (.slice [.float64 3]) "/a?3"),
     ("/a?3", exampleResult (.slice []) "")]) "/a" examplePage

/-- Example: a single-page listing. -/
def limitsPager : Pager :=
  NewPager
    (tableClient [("/limits", exampleResult (.object [("limits", .slice [.string "x"])]) "")])
    "/limits" exampleSinglePage

/-! ## Vocabulary of the statements: runs that end early -/

/-- The URL a page names as its successor; the empty string when `NextPageURL`
panics. -/
def Page.nextURL (pg : Page) : String :=
  match pg.NextPageURL with
  | .ret (url, _) => url
  | .panic _ => ""

/-- The visitor returns `(true, nil)` on each page of `pre` in turn, started in
state `s`. -/
def ContinuesOn {σ : Type} (handler : Handler σ) : List Page → σ → Prop
  | [], _ => True
  | q :: pre, s =>
    (handler q s).1 = .ret (true, none) ∧ ContinuesOn handler pre (handler q s).2

/-- Starting at trace `tr` with `url` to fetch, the backend serves the pages
`pre` one after the other, each non-empty and naming a non-empty next URL that is
fetched after the visitor has seen the page; the fetch that follows the last of
them answers `r`. -/
def ServesThen (p : Pager) : List Event → String → List Page → Except Error Page → Prop
  | tr, url, [], r => (p.fetchNextPage url tr).1 = r
  | tr, url, q :: pre, r =>
    (p.fetchNextPage url tr).1 = .ok q ∧ q.IsEmpty = .ret (false, none) ∧
    ∃ next, q.NextPageURL = .ret (next, none) ∧ next ≠ "" ∧
      ServesThen p (tr ++ [Event.fetch url] ++ [Event.visit q]) next pre r

/-- The events of a walk over the pages `pre`, the first of them fetched from
`url`: a fetch and a visit for every page. -/
def walkEvents : String → List Page → List Event
  | _, [] => []
  | url, q :: pre => Event.fetch url :: Event.visit q :: walkEvents q.nextURL pre

/-- The URL to fetch after a walk over the pages `pre` that started at `url`. -/
def lastURL : String → List Page → String
  | url, [] => url
  | _, q :: pre => lastURL q.nextURL pre

/-- A visitor that counts its invocations and, on the `k`-th, returns the error
`e` together with the continue flag `true`. -/
def failingHandler (k : Nat) (e : Error) : Handler Nat :=
  fun _ n => (.ret (true, if n + 1 = k then some e else none), n + 1)

/-- Example: a bare-array listing in three non-empty pages. -/
def lettersPager : Pager :=
  NewPager (tableClient [("/p1", exampleResult (.slice [.string "a"]) "/p2"),
    ("/p2", exampleResult (.slice [.string "b"]) "/p3"),
    ("/p3", exampleResult (.slice [.string "c"]) "")]) "/p1" examplePage

/-- An example page type whose `IsEmpty` fails on a body that is a JSON string
and otherwise counts the items as `examplePageType` does. -/
def checkedPageType : PageType :=
  ⟨false, fun d => .ret (headerFirst "Next" d.PageResult.Header, none),
    fun d =>
      match d.PageResult.Body with
      | .string _ => .ret (false, some (.errorString "unexpected body"))
      | b => .ret (exampleIsEmpty b, none)⟩

/-- Example: a bare-array listing whose second page is a JSON string. -/
def garbledPager : Pager :=
  NewPager (tableClient [("/g", exampleResult (.slice [.string "a"]) "/g?2"),
    ("/g?2", exampleResult (.string "oops") "")]) "/g"
    (fun r => ⟨checkedPageType, ⟨r, Any.nil⟩⟩)

/-- Example: a bare-array listing of one page that holds a JSON `null`. -/
def nullElementPager : Pager :=
  NewPager (tableClient [("/n", exampleResult (.slice [.float64 1, .nil]) "")]) "/n" examplePage

/-- Example: a listing whose first page links to a URL the backend does not
serve. -/
def brokenPager : Pager :=
  NewPager (tableClient [("/p1", exampleResult (.slice [.string "a"]) "/p2")]) "/p1" examplePage

/-- The events of `tr` alternate between fetches and visitor invocations;
`expectFetch` tells which of the two the first event has to be. -/
def alternates : Bool → List Event → Bool
  | _, [] => true
  | true, Event.fetch _ :: tr => alternates false tr
  | false, Event.visit _ :: tr => alternates true tr
  | _, _ => false

/-! ## Vocabulary of the statements: two runs compared -/

/-- Two runs of the loop agree: both use up their iterations, or both return the
same result, leave the same visitor state and add the same events. -/
def SameRun {σ : Type} (w1 w2 : World σ)
    (run1 run2 : Option (Outcome (Option Error) × World σ)) : Prop :=
  (run1 = none ∧ run2 = none) ∨
    ∃ res ext s,
      run1 = some (res, ⟨w1.trace ++ ext, s⟩) ∧ run2 = some (res, ⟨w2.trace ++ ext, s⟩)

/-! ## Vocabulary of the statements: the aggregation as a whole -/

/-- The three body shapes `AllPages` knows how to merge. -/
inductive Shape where
  | object
  | bytes
  | slice
  deriving DecidableEq, Repr

/-- The case of the type switch of `AllPages` a body selects; `none` for the
`default` case. -/
def Any.shape? : Any → Option Shape
  | .object _ => some .object
  | .bytes _ => some .bytes
  | .slice _ => some .slice
  | _ => none

/-- The visitor `AllPages` passes to `EachPage` in the branch of a shape. -/
def Shape.handler : Shape → Handler AggState
  | .object => objectHandler
  | .bytes => bytesHandler
  | .slice => sliceHandler

/-- The Go type the visitor of a shape asserts the body of a page to have, as
the run-time prints it. -/
def Shape.asserted : Shape → String
  | .object => "map[string]interface \x7b\x7d"
  | .bytes => "[]uint8"
  | .slice => "[]interface \x7b\x7d"

/-- What `AllPages` makes of the outcome of its call of `EachPage` in the branch
of shape `sh`: the statements after `err = p.EachPage(...)` up to the `return`
at the end. -/
def afterWalk (sh : Shape) (pageType : PageType) (headers : List (String × String)) :
    Option (Outcome (Option Error) × World AggState) →
      Option (Outcome (Option Page × Option Error) × List Event)
  | none => none
  | some (.panic msg, w) => some (.panic msg, w.trace)
  | some (.ret (some err), w) => some (.ret (none, some err), w.trace)
  | some (.ret none, w) =>
    match sh with
    | .object =>
      some (.ret (some (newPage pageType (.objectOfSlices [(w.st.key, w.st.pagesSlice)])
        headers), none), w.trace)
    | .bytes =>
      match combineBytes
          (if w.st.pagesSlice.length > 0 then w.st.pagesSlice.take (w.st.pagesSlice.length - 1)
           else w.st.pagesSlice) [] with
      | .panic msg => some (.panic msg, w.trace)
      | .ret b => some (.ret (some (newPage pageType (.bytes b) headers), none), w.trace)
    | .slice =>
      match setElements w.st.pagesSlice with
      | .panic msg => some (.panic msg, w.trace)
      | .ret body => some (.ret (some (newPage pageType (.slice body) headers), none), w.trace)

/-- The merge of the bare-array branch meets a nil element: the shape is the
bare array and one of the pages `pages` holds a nil element (a JSON `null`). -/
def HoldsNil (sh : Shape) (pages : List Page) : Prop :=
  sh = Shape.slice ∧ ∃ q ∈ pages, Any.nil ∈ q.GetBody.elements

/-- The outcome of the step after a served prefix makes the walk of `AllPages`
in the branch of shape `sh` fail with `e`: the fetch fails with `e`; or it
yields a page, of whatever type and body, whose `IsEmpty` returns the error `e`;
or it yields a non-empty page of shape `sh` (the visitor sees it before
`NextPageURL` is called) whose `NextPageURL` returns the error `e`. -/
def StepFails (sh : Shape) (e : Error) : Except Error Page → Prop
  | .error err => err = e
  | .ok pg =>
    (∃ b, pg.IsEmpty = .ret (b, some e)) ∨
      (pg.IsEmpty = .ret (false, none) ∧ pg.GetBody.shape? = some sh ∧
        ∃ url, pg.NextPageURL = .ret (url, some e))

/-! ## Container listings: `objectstorage/v1/containers/results.go` -/

/-- Go `http.Header.Get`: the first value stored under the canonical form of
`key`, the empty string when there is none. -/
def Header.Get (h : Header) (key : String) : String :=
  headerFirst (CanonicalMIMEHeaderKey key) h

/-- The struct `Container`; a name is kept as the bytes of the Go string. -/
structure Container where
  Bytes : Int
  Count : Int
  Name : List UInt8

/-- The struct `ContainerPage`: a page that embeds `pagination.MarkerPageBase`.
The functions below take a `ContainerPage` where the source takes a
`pagination.Page` and asserts `page.(ContainerPage)`. -/
structure ContainerPage where
  MarkerPageBase : PageData

/-- The function `ExtractInfo`. The JSON decoding behind `ExtractInto` is not
part of this file of the source; it is the parameter `extractInto`, which gives
the decoded containers and the error. -/
def ExtractInfo (extractInto : PageData → List Container × Option Error) (r : ContainerPage) :
    List Container × Option Error :=
  extractInto r.MarkerPageBase

/-- The function `ExtractNames`. -/
def ExtractNames (extractInto : PageData → List Container × Option Error)
    (page : ContainerPage) : Outcome (List (List UInt8) × Option Error) :=
  let ct := Header.Get page.MarkerPageBase.PageResult.Header "Content-Type"
  if strings.HasPrefix ct "application/json" then
    match ExtractInfo extractInto page with
    | (_, some err) => .ret ([], some err)
    | (parsed, none) => .ret (parsed.map Container.Name, none)
  else if strings.HasPrefix ct "text/plain" || ct = "" then
    match page.MarkerPageBase.PageResult.Body with
    | .bytes body =>
      .ret ((strings.Split 10 body).filter (fun name => name.length > 0), none)
    | v => .panic (assertionFailure v "[]uint8")
  else
    .ret ([], some (.errorString
      ("cannot extract names from response with content-type: [" ++ ct ++ "]")))

/-- The method `ContainerPage.IsEmpty`. -/
def ContainerPage.IsEmpty (extractInto : PageData → List Container × Option Error)
    (r : ContainerPage) : Outcome (Bool × Option Error) :=
  if r.MarkerPageBase.PageResult.StatusCode = 204 then .ret (true, none)
  else
    match ExtractNames extractInto r with
    | .panic msg => .panic msg
    | .ret (names, err) => .ret (names.length == 0, err)

/-- The method `ContainerPage.LastMarker`. -/
def ContainerPage.LastMarker (extractInto : PageData → List Container × Option Error)
    (r : ContainerPage) : Outcome (List UInt8 × Option Error) :=
  match ExtractNames extractInto r with
  | .panic msg => .panic msg
  | .ret (_, some err) => .ret ([], some err)
  | .ret (names, none) =>
    if names.length = 0 then .ret ([], none)
    else .ret (names.getLastD [], none)

/-- The page type `ContainerPage` as `AllPages` sees it. `NextPageURL` is the
method of the embedded `MarkerPageBase`, which is not part of this file of the
source and is a parameter. -/
def containerPageType (extractInto : PageData → List Container × Option Error)
    (nextPageURL : PageData → Outcome (String × Option Error)) : PageType :=
  ⟨false, nextPageURL, fun d => ContainerPage.IsEmpty extractInto ⟨d⟩⟩

/-- The names a text listing holds: the non-empty lines of the body. -/
def textNames (body : List UInt8) : List (List UInt8) :=
  (strings.Split 10 body).filter (fun name => name.length > 0)

/-- Example: a container listing answered with status 204 and a body that
decoded to `nil`. -/
def noContentPager : Pager :=
  NewPager (tableClient [("/v1/acct", ⟨Any.nil, [], 204⟩)]) "/v1/acct"
    (fun r =>
      ⟨containerPageType (fun _ => ([], none)) (fun _ => .ret ("", none)), ⟨r, Any.nil⟩⟩)

/-- The body of a single text response that lists the names `names`, each on a
line of its own. -/
def renderNames (names : List (List UInt8)) : List UInt8 :=
  (names.map (fun name => name ++ [10])).flatten

/-- The values a header map stores under exactly the key `key` (Go `h[key]`),
none when the key is absent. -/
def headerValues (key : String) : Header → List String
  | [] => []
  | (k, vs) :: h => if k = key then vs else headerValues key h

/-- Example: the two-page listing of names on a Pager configured with an
`Accept` header. -/
def acceptPager : Pager :=
  ⟨tableClient
    [("/c", exampleResult (.bytes (ascii "name1\n")) "/c?marker=name1"),
     ("/c?marker=name1", exampleResult (.bytes (ascii "name2\n")) "")], "/c", examplePage,
    none, none, [("Accept", "text/plain")]⟩

/-- Example: the same listing on a Pager configured with two headers whose
names differ in case only. -/
def mixedCasePager : Pager :=
  ⟨tableClient
    [("/c", exampleResult (.bytes (ascii "name1\n")) "/c?marker=name1"),
     ("/c?marker=name1", exampleResult (.bytes (ascii "name2\n")) "")], "/c", examplePage,
    none, none, [("content-type", "text/plain"), ("Content-Type", "application/json")]⟩

/-- An example page type of a linked listing whose link structure is
malformed: `NextPageURL` returns an error. -/
def malformedLinksPageType : PageType :=
  ⟨false, fun _ => .ret ("", some (.errorString "malformed links")),
    fun d => .ret (exampleIsEmpty d.PageResult.Body, none)⟩

/-- Example: a listing whose one non-empty page has malformed links. -/
def malformedLinksPager : Pager :=
  NewPager (tableClient [("/servers", exampleResult (.slice [.string "s1"]) "")]) "/servers"
    (fun r => ⟨malformedLinksPageType, ⟨r, Any.nil⟩⟩)

/-- Example: the three-page listing on a Pager whose sticky error is set. -/
def failedPager : Pager :=
  ⟨tableClient [("/p1", exampleResult (.slice [.string "a"]) "/p2"),
    ("/p2", exampleResult (.slice [.string "b"]) "/p3"),
    ("/p3", exampleResult (.slice [.string "c"]) "")], "/p1", examplePage, none,
    some (.errorString "bad URL"), []⟩

/-- The struct `GetResult`: of the embedded `gophercloud.HeaderResult` the
fields `Header` and `Err`, the two that `ExtractMetadata` reads. -/
structure GetResult where
  Header : Header
  Err : Option Error

/-- Go `m[key] = value` on a `map[string]string` kept as an association list:
the entry of the key is replaced, or added when the map has none. -/
def mapSet (key value : String) : List (String × String) → List (String × String)
  | [] => [(key, value)]
  | (k, v) :: m => if k = key then (k, value) :: m else (k, v) :: mapSet key value m

/-- The loop `for k, v := range r.Header` of `ExtractMetadata`, with the map
`metadata` built so far; `v[0]` panics for a header without values. -/
def collectMetadata : Header → List (String × String) → Outcome (List (String × String))
  | [], metadata => .ret metadata
  | (k, v) :: h, metadata =>
    if strings.HasPrefix k "X-Container-Meta-" then
      match v with
      | [] => .panic "index out of range [0] with length 0"
      | v0 :: _ =>
        collectMetadata h (mapSet (strings.TrimPrefix k "X-Container-Meta-") v0 metadata)
    else collectMetadata h metadata

/-- The method `GetResult.ExtractMetadata`; the `nil` map is `none`. -/
def GetResult.ExtractMetadata (r : GetResult) :
    Outcome (Option (List (String × String)) × Option Error) :=
  match r.Err with
  | some err => .ret (none, some err)
  | none =>
    match collectMetadata r.Header [] with
    | .panic msg => .panic msg
    | .ret metadata => .ret (some metadata, none)

/-- The entries `ExtractMetadata` makes of the headers `h`, in the order the
headers are ranged over: the name without `X-Container-Meta-` and the first
value. -/
def metadataEntries (h : Header) : List (String × String) :=
  (h.filter (fun kv => strings.HasPrefix kv.1 "X-Container-Meta-")).map
    (fun kv => (strings.TrimPrefix kv.1 "X-Container-Meta-", kv.2.headD ""))

/-- An example page type whose body cannot be decoded: `IsEmpty` returns an
error, and `NextPageURL` would panic if it were called. -/
def undecodablePageType : PageType :=
  ⟨false, fun _ => .panic "invalid memory address or nil pointer dereference",
    fun _ => .ret (true, some (.errorString "json: cannot unmarshal"))⟩

/-- Example: a listing whose first page cannot be decoded. -/
def undecodablePager : Pager :=
  NewPager (tableClient [("/servers", exampleResult (.object [("servers", .string "x")]) "")])
    "/servers" (fun r => ⟨undecodablePageType, ⟨r, Any.nil⟩⟩)

/-- Example: a byte-stream listing whose first page is empty. -/
def noNamesPager : Pager :=
  NewPager (tableClient [("/c", exampleResult (.bytes []) "")]) "/c" examplePage

/-- Example: a single-page listing whose body is a JSON string. -/
def versionPager : Pager :=
  NewPager (tableClient [("/v", exampleResult (.string "v2.1") "")]) "/v" exampleSinglePage

/-- Example: a container listing in two text pages, each answered with status
200. -/
def containersPager : Pager :=
  NewPager (tableClient
    [("/v1/acct", exampleResult (.bytes (ascii "c1\n")) "/v1/acct?marker=c1"),
     ("/v1/acct?marker=c1", exampleResult (.bytes (ascii "c2\n")) "")]) "/v1/acct"
    (fun r =>
      ⟨containerPageType (fun _ => ([], none))
        (fun d => .ret (headerFirst "Next" d.PageResult.Header, none)), ⟨r, Any.nil⟩⟩)

/-- Example: a keyed-object listing in two pages with differently named list
fields, both pages non-empty. -/
def renamedFieldPager : Pager :=
  NewPager (tableClient
    [("/r", exampleResult (.object [("servers", .slice [.string "a"])]) "/r?2"),
     ("/r?2", exampleResult (.object [("instances", .slice [.string "b"])]) "")]) "/r"
    examplePage

/-- Example: a keyed-object listing in two pages with differently named list
fields, the list of the second page being empty. -/
def renamedEmptyPager : Pager :=
  NewPager (tableClient
    [("/r", exampleResult (.object [("servers", .slice [.string "a"])]) "/r?2"),
     ("/r?2", exampleResult (.object [("instances", .slice [])]) "")]) "/r" examplePage

/-- Example: a listing whose first page is a bare array and whose second page is
a byte stream. -/
def mixedShapePager : Pager :=
  NewPager (tableClient [("/m", exampleResult (.slice [.string "a"]) "/m?2"),
    ("/m?2", exampleResult (.bytes (ascii "b\n")) "")]) "/m" examplePage



/-! ## Vocabulary of the statements: the same values listed in another order -/

/-- The same value of type `any`, the entries of a keyed object listed in
possibly another order: what two ranges over one map may see. -/
def SameEntries (x y : Any) : Prop :=
  match x with
  | .object a => ∃ b, y = .object b ∧ a.Perm b
  | _ => x = y

/-- The same page value: the same type and the same fields, the entries of a
keyed-object body listed in possibly another order and the header map storing
the same values under every key. -/
def SameValue (q1 q2 : Page) : Prop :=
  q1.pageType = q2.pageType ∧ SameEntries q1.GetBody q2.GetBody ∧
    (∀ key, headerValues key q1.data.PageResult.Header
      = headerValues key q2.data.PageResult.Header) ∧
    q1.data.PageResult.StatusCode = q2.data.PageResult.StatusCode ∧
    q1.data.extra = q2.data.extra

/-- The same page as far as the walk can tell: the same page value, on which
`IsEmpty` and `NextPageURL` answer alike. -/
def SamePage (q1 q2 : Page) : Prop :=
  SameValue q1 q2 ∧ q1.IsEmpty = q2.IsEmpty ∧ q1.NextPageURL = q2.NextPageURL

/-- Two fetches end alike: with the same error, or with pages related by `S`. -/
def FetchRel (S : Page → Page → Prop) : Except Error Page → Except Error Page → Prop
  | .error e1, .error e2 => e1 = e2
  | .ok q1, .ok q2 => S q1 q2
  | _, _ => False

/-- Two calls of `AllPages` end alike: with the same panic, with the same error
and no page, or with the same page value and no error. -/
def SameResult : Outcome (Option Page × Option Error) →
    Outcome (Option Page × Option Error) → Prop
  | .panic m1, .panic m2 => m1 = m2
  | .ret (some a, e1), .ret (some b, e2) => SameValue a b ∧ e1 = e2
  | .ret (none, e1), .ret (none, e2) => e1 = e2
  | _, _ => False

/-- Two receivers are copies of one Pager: they agree in every field, the
`Headers` map listed in possibly another order. -/
def SamePager (p q : Pager) : Prop :=
  p.client = q.client ∧ p.initialURL = q.initialURL ∧ p.createPage = q.createPage ∧
    p.firstPage = q.firstPage ∧ p.Err = q.Err ∧ p.Headers.Perm q.Headers

/-- Two runs of the loop agree up to what `S` and `R` allow: both use up their
iterations, or both return the same result, leave visitor states related by `R`,
fetch the same URLs in the same order and visit pages related by `S`. -/
def SimRun {σ : Type} (S : Page → Page → Prop) (R : σ → σ → Prop) (w1 w2 : World σ)
    (run1 run2 : Option (Outcome (Option Error) × World σ)) : Prop :=
  (run1 = none ∧ run2 = none) ∨
    ∃ res ext1 ext2 s1 s2,
      run1 = some (res, ⟨w1.trace ++ ext1, s1⟩) ∧ run2 = some (res, ⟨w2.trace ++ ext2, s2⟩) ∧
      R s1 s2 ∧ fetches ext1 = fetches ext2 ∧ List.Forall₂ S (visits ext1) (visits ext2)

/-- An example backend that serves one keyed-object page at `url`: the entries
of the decoded map are listed as `kvs` while nothing has happened yet and in the
reverse order afterwards. It answers every request for `url` with the same JSON
value; a second call ranges over the decoded map in another order. -/
def reorderingClient (url : String) (kvs : List (String × Any)) : ServiceClient :=
  ⟨fun tr _ u =>
    if u = url then
      .ok ⟨.ok (exampleResult (.object (if tr.isEmpty then kvs else kvs.reverse)) "")⟩
    else .error (.errorString "404")⟩

/-- Example: a listing of one page with one list field and one number field. -/
def countedPager : Pager :=
  NewPager (reorderingClient "/s" [("servers", .slice [.string "a"]), ("count", .float64 1)])
    "/s" examplePage

/-- Example: a listing of one page with two list fields. -/
def twoListsPager : Pager :=
  NewPager (reorderingClient "/s"
    [("volumes", .slice [.float64 1]), ("snapshots", .slice [.float64 2])]) "/s" examplePage

/-! ## The loop of `EachPage`, one step at a time -/

variable {σ : Type}

theorem fetchNextPage_snd (p : Pager) (url : String) (tr : List Event) :
    (p.fetchNextPage url tr).2 = tr ++ [Event.fetch url] := by
  unfold Pager.fetchNextPage
  cases Request p.client tr p.Headers url with
  | error e => rfl
  | ok resp =>
    cases h : PageResultFrom resp <;> simp [h]

theorem fetchNextPage_eq (p : Pager) (url : String) (tr : List Event) (r : Except Error Page)
    (h : (p.fetchNextPage url tr).1 = r) :
    p.fetchNextPage url tr = (r, tr ++ [Event.fetch url]) := by
  rw [← h, ← fetchNextPage_snd p url tr]

/-- Fetching does not look at the first-page cache or at the sticky error. -/
theorem fetchNextPage_congr (p q : Pager) (hc : p.client = q.client)
    (hh : p.Headers = q.Headers) (hp : p.createPage = q.createPage) (url : String)
    (tr : List Event) :
    p.fetchNextPage url tr = q.fetchNextPage url tr := by
  unfold Pager.fetchNextPage
  rw [hc, hh, hp]

/-- A failed fetch ends the loop with the error of the fetch. -/
theorem loop_fetch_error (p : Pager) (handler : Handler σ) (fuel : Nat) (url : String)
    (w : World σ) (e : Error) (h : (p.fetchNextPage url w.trace).1 = .error e) :
    p.eachPageLoop handler (fuel + 1) none url w
      = some (.ret (some e), ⟨w.trace ++ [Event.fetch url], w.st⟩) := by
  simp [Pager.eachPageLoop, fetchNextPage_eq p url w.trace _ h]

/-- A successful fetch puts the loop where a cached first page would. -/
theorem loop_fetch_ok (p : Pager) (handler : Handler σ) (fuel : Nat) (url url2 : String)
    (w : World σ) (pg : Page) (h : (p.fetchNextPage url w.trace).1 = .ok pg) :
    p.eachPageLoop handler fuel none url w
      = p.eachPageLoop handler fuel (some pg) url2 ⟨w.trace ++ [Event.fetch url], w.st⟩ := by
  cases fuel with
  | zero => rfl
  | succ n => simp [Pager.eachPageLoop, fetchNextPage_eq p url w.trace _ h]

/-- An empty page ends the loop before the visitor is called. -/
theorem loop_empty (p : Pager) (handler : Handler σ) (fuel : Nat) (url : String)
    (w : World σ) (pg : Page) (h : pg.IsEmpty = .ret (true, none)) :
    p.eachPageLoop handler (fuel + 1) (some pg) url w = some (.ret none, w) := by
  simp [Pager.eachPageLoop, h]

/-- The visitor answers `(false, nil)`: the loop ends after this invocation. -/
theorem loop_stop (p : Pager) (handler : Handler σ) (fuel : Nat) (url : String)
    (w : World σ) (pg : Page) (h : pg.IsEmpty = .ret (false, none))
    (hh : (handler pg w.st).1 = .ret (false, none)) :
    p.eachPageLoop handler (fuel + 1) (some pg) url w
      = some (.ret none, ⟨w.trace ++ [Event.visit pg], (handler pg w.st).2⟩) := by
  have e : handler pg w.st = (.ret (false, none), (handler pg w.st).2) := by rw [← hh]
  simp only [Pager.eachPageLoop, h]
  rw [e]

/-- The visitor continues on the last page of the listing. -/
theorem loop_last (p : Pager) (handler : Handler σ) (fuel : Nat) (url : String)
    (w : World σ) (pg : Page) (h : pg.IsEmpty = .ret (false, none))
    (hh : (handler pg w.st).1 = .ret (true, none)) (hn : pg.NextPageURL = .ret ("", none)) :
    p.eachPageLoop handler (fuel + 1) (some pg) url w
      = some (.ret none, ⟨w.trace ++ [Event.visit pg], (handler pg w.st).2⟩) := by
  have e : handler pg w.st = (.ret (true, none), (handler pg w.st).2) := by rw [← hh]
  simp only [Pager.eachPageLoop, h]
  rw [e]
  simp [hn]

/-- The visitor continues and the page names a next URL: the loop goes round. -/
theorem loop_next (p : Pager) (handler : Handler σ) (fuel : Nat) (url next : String)
    (w : World σ) (pg : Page) (h : pg.IsEmpty = .ret (false, none))
    (hh : (handler pg w.st).1 = .ret (true, none)) (hn : pg.NextPageURL = .ret (next, none))
    (hne : next ≠ "") :
    p.eachPageLoop handler (fuel + 1) (some pg) url w
      = p.eachPageLoop handler fuel none next
          ⟨w.trace ++ [Event.visit pg], (handler pg w.st).2⟩ := by
  have e : handler pg w.st = (.ret (true, none), (handler pg w.st).2) := by rw [← hh]
  simp only [Pager.eachPageLoop, h]
  rw [e]
  simp [hn, hne]

theorem visits_append (a b : List Event) : visits (a ++ b) = visits a ++ visits b := by
  induction a with
  | nil => rfl
  | cons e a ih => cases e <;> simp [visits, ih]

theorem fetches_append (a b : List Event) : fetches (a ++ b) = fetches a ++ fetches b := by
  induction a with
  | nil => rfl
  | cons e a ih => cases e <;> simp [fetches, ih]

theorem nonEmpty_of_isEmpty_false (pg : Page) (h : pg.IsEmpty = .ret (false, none)) :
    pg.nonEmpty = true := by
  simp [Page.nonEmpty, h]

theorem nonEmpty_of_isEmpty_true (pg : Page) (h : pg.IsEmpty = .ret (true, none)) :
    pg.nonEmpty = false := by
  simp [Page.nonEmpty, h]

/-- The loop, started with a page in hand, walks a served chain to its end when
the visitor continues on every non-empty page of it. -/
theorem loop_walk (p : Pager) (handler : Handler σ) :
    ∀ (rest : List Page) (pg : Page) (w : World σ) (fuel : Nat) (url : String),
      Walk p w.trace pg rest →
      (∀ q ∈ (pg :: rest).filter Page.nonEmpty, ∀ s, (handler q s).1 = .ret (true, none)) →
      rest.length < fuel →
      Ran handler w ((pg :: rest).filter Page.nonEmpty) rest.length
        (p.eachPageLoop handler fuel (some pg) url w) := by
  intro rest
  induction rest with
  | nil =>
    intro pg w fuel url hw hc hf
    obtain ⟨n, rfl⟩ : ∃ n, fuel = n + 1 := ⟨fuel - 1, by simp at hf; omega⟩
    rcases hw with he | ⟨he, hn⟩
    · refine ⟨w, loop_empty p handler n url w pg he, ?_, ?_, ?_⟩ <;>
        simp [nonEmpty_of_isEmpty_true pg he, feed]
    · have hne := nonEmpty_of_isEmpty_false pg he
      have hh := hc pg (by simp [hne]) w.st
      refine ⟨_, loop_last p handler n url w pg he hh hn, ?_, ?_, ?_⟩ <;>
        simp [hne, feed, visits_append, fetches_append, visits, fetches]
  | cons q rest ih =>
    intro pg w fuel url hw hc hf
    obtain ⟨n, rfl⟩ : ∃ n, fuel = n + 1 := ⟨fuel - 1, by simp at hf; omega⟩
    obtain ⟨he, next, hn, hnx, hfetch, hwalk⟩ := hw
    have hne := nonEmpty_of_isEmpty_false pg he
    have hh := hc pg (by simp [hne]) w.st
    rw [loop_next p handler n url next w pg he hh hn hnx,
      loop_fetch_ok p handler n next next _ q hfetch]
    have hc2 : ∀ r ∈ (q :: rest).filter Page.nonEmpty, ∀ s,
        (handler r s).1 = .ret (true, none) := by
      intro r hr s
      apply hc r _ s
      rw [List.filter_cons_of_pos hne]
      exact List.mem_cons_of_mem _ hr
    obtain ⟨w2, h1, h2, h3, h4⟩ := ih q ⟨_, _⟩ n next hwalk hc2 (by simp at hf; omega)
    refine ⟨w2, h1, ?_, ?_, ?_⟩
    · rw [h2]
      simp [List.filter_cons, hne, visits_append, visits]
    · rw [h3]
      simp [fetches_append, fetches]
      omega
    · rw [h4]
      simp [List.filter_cons, hne, feed]

/-- C1: on a Pager without sticky error and without cached first page, for a
finite chain of pages served from the initial URL (every page but the last
non-empty with a next URL, the last one empty or without next URL) and a visitor
that always returns `(true, nil)`, `EachPage` returns `nil` once the loop may run
one iteration a page; the visitor has been invoked on exactly the non-empty pages
of the chain, once each and in chain order, its state is the one these
invocations leave, and one fetch has been issued for every page of the chain. -/
theorem visits_whole_chain (p : Pager) (handler : Handler σ) (w : World σ)
    (pages : List Page) (fuel : Nat)
    (hErr : p.Err = none) (hFresh : p.firstPage = none)
    (hChain : ServesChain p w.trace p.initialURL pages)
    (hCont : ∀ pg s, (handler pg s).1 = .ret (true, none))
    (hFuel : pages.length ≤ fuel) :
    ∃ w2 : World σ, p.EachPage fuel handler w = some (.ret none, w2) ∧
      visits w2.trace = visits w.trace ++ pages.filter Page.nonEmpty ∧
      w2.st = feed handler (pages.filter Page.nonEmpty) w.st ∧
      (fetches w2.trace).length = (fetches w.trace).length + pages.length := by
  cases pages with
  | nil => exact absurd hChain (by simp [ServesChain])
  | cons pg rest =>
    obtain ⟨hfetch, hwalk⟩ := hChain
    obtain ⟨w2, h1, h2, h3, h4⟩ :=
      loop_walk p handler rest pg ⟨w.trace ++ [Event.fetch p.initialURL], w.st⟩ fuel
        p.initialURL hwalk (fun q _ s => hCont q s) (by simpa using hFuel)
    refine ⟨w2, ?_, ?_, h4, ?_⟩
    · simp only [Pager.EachPage, hErr, hFresh]
      rw [loop_fetch_ok p handler fuel p.initialURL p.initialURL w pg hfetch]
      exact h1
    · simpa [visits_append, visits] using h2
    · simp [fetches_append, fetches] at h3
      simp [h3]
      omega

/-- C1, at a listing answered by one non-empty page without a next link: the
visitor is invoked exactly once. -/
theorem visits_whole_chain_witness :
    ∃ w2 : World Nat,
      (NewPager (tableClient [("/routes", exampleResult (.slice [.string "r1"]) "")]) "/routes"
        examplePage).EachPage 1 countingHandler ⟨[], 0⟩ = some (.ret none, w2) ∧
      (visits w2.trace).length = 1 ∧ w2.st = 1 ∧ (fetches w2.trace).length = 1 := by
  obtain ⟨w2, h1, h2, h3, h4⟩ := visits_whole_chain
    (NewPager (tableClient [("/routes", exampleResult (.slice [.string "r1"]) "")]) "/routes"
      examplePage) countingHandler ⟨[], 0⟩
    [examplePage (exampleResult (.slice [.string "r1"]) "")] 1 rfl rfl
    ⟨rfl, Or.inr ⟨rfl, rfl⟩⟩ (fun _ _ => rfl) (Nat.le_refl 1)
  exact ⟨w2, h1, by rw [h2]; rfl, by rw [h3]; rfl, by rw [h4]; rfl⟩

/-- The loop, started with a page in hand, stops at the page on which the
visitor answers `(false, nil)`: nothing behind that page is fetched. -/
theorem loop_walk_stop (p : Pager) (handler : Handler σ) (pg : Page) (post : List Page)
    (hPost : post ≠ []) :
    ∀ (pre : List Page) (first : Page) (rest : List Page) (w : World σ) (fuel : Nat)
      (url : String),
      first :: rest = pre ++ pg :: post →
      Walk p w.trace first rest →
      StopsOn handler pre pg w.st →
      pre.length < fuel →
      Ran handler w (pre ++ [pg]) pre.length
        (p.eachPageLoop handler fuel (some first) url w) := by
  intro pre
  induction pre with
  | nil =>
    intro first rest w fuel url heq hw hs hf
    obtain ⟨n, rfl⟩ : ∃ n, fuel = n + 1 := ⟨fuel - 1, by simp at hf; omega⟩
    simp only [List.nil_append, List.cons.injEq] at heq
    obtain ⟨rfl, rfl⟩ := heq
    cases rest with
    | nil => exact absurd rfl hPost
    | cons r rest =>
      obtain ⟨he, -⟩ := hw
      refine ⟨_, loop_stop p handler n url w first he hs, ?_, ?_, ?_⟩ <;>
        simp [feed, visits_append, fetches_append, visits, fetches]
  | cons q pre ih =>
    intro first rest w fuel url heq hw hs hf
    obtain ⟨n, rfl⟩ : ∃ n, fuel = n + 1 := ⟨fuel - 1, by simp at hf; omega⟩
    simp only [List.cons_append, List.cons.injEq] at heq
    obtain ⟨rfl, rfl⟩ := heq
    obtain ⟨r, rest, hr⟩ : ∃ r rest, pre ++ pg :: post = r :: rest := by
      cases pre with
      | nil => exact ⟨pg, post, rfl⟩
      | cons a pre => exact ⟨a, pre ++ pg :: post, rfl⟩
    rw [hr] at hw
    obtain ⟨he, next, hn, hnx, hfetch, hwalk⟩ := hw
    obtain ⟨hh, hs2⟩ := hs
    rw [loop_next p handler n url next w first he hh hn hnx,
      loop_fetch_ok p handler n next next _ r hfetch]
    obtain ⟨w2, h1, h2, h3, h4⟩ :=
      ih r rest ⟨_, _⟩ n next hr.symm hwalk hs2 (by simp at hf; omega)
    refine ⟨w2, h1, ?_, ?_, ?_⟩
    · rw [h2]
      simp [visits_append, visits]
    · rw [h3]
      simp [fetches_append, fetches]
      omega
    · rw [h4]
      simp [feed]

/-- C2: on a fresh Pager, for a served chain of `N` pages split as `pre`, the
`K`-th page `pg` and a non-empty remainder `post` (so `K = pre.length + 1 < N`),
if the visitor continues on the pages of `pre` and returns `(false, nil)` on
`pg`, then `EachPage` returns `nil`, the visitor has been invoked on exactly the
first `K` pages and the transport has been asked for exactly `K` pages: no page
of `post` is fetched. -/
theorem early_stop_honored (p : Pager) (handler : Handler σ) (w : World σ)
    (pre : List Page) (pg : Page) (post : List Page) (fuel : Nat)
    (hErr : p.Err = none) (hFresh : p.firstPage = none)
    (hChain : ServesChain p w.trace p.initialURL (pre ++ pg :: post))
    (hPost : post ≠ [])
    (hStop : StopsOn handler pre pg w.st)
    (hFuel : pre.length + 1 ≤ fuel) :
    ∃ w2 : World σ, p.EachPage fuel handler w = some (.ret none, w2) ∧
      visits w2.trace = visits w.trace ++ (pre ++ [pg]) ∧
      (visits w2.trace).length = (visits w.trace).length + (pre.length + 1) ∧
      (fetches w2.trace).length = (fetches w.trace).length + (pre.length + 1) := by
  obtain ⟨first, rest, hfr⟩ : ∃ first rest, pre ++ pg :: post = first :: rest := by
    cases pre with
    | nil => exact ⟨pg, post, rfl⟩
    | cons a pre => exact ⟨a, pre ++ pg :: post, rfl⟩
  rw [hfr] at hChain
  obtain ⟨hfetch, hwalk⟩ := hChain
  obtain ⟨w2, h1, h2, h3, -⟩ :=
    loop_walk_stop p handler pg post hPost pre first rest
      ⟨w.trace ++ [Event.fetch p.initialURL], w.st⟩ fuel p.initialURL hfr.symm hwalk hStop
      (by omega)
  refine ⟨w2, ?_, ?_, ?_, ?_⟩
  · simp only [Pager.EachPage, hErr, hFresh]
    rw [loop_fetch_ok p handler fuel p.initialURL p.initialURL w first hfetch]
    exact h1
  · simpa [visits_append, visits] using h2
  · simp [visits_append, visits] at h2
    simp [h2]
  · simp [fetches_append, fetches] at h3
    simp [h3]
    omega

/-- C2, at a chain of three non-empty pages whose visitor stops on the second:
two invocations, two fetches, the third page is never asked for. -/
theorem early_stop_honored_witness :
    ∃ w2 : World Nat,
      (NewPager (tableClient [("/p1", exampleResult (.slice [.string "a"]) "/p2"),
          ("/p2", exampleResult (.slice [.string "b"]) "/p3"),
          ("/p3", exampleResult (.slice [.string "c"]) "")]) "/p1"
        examplePage).EachPage 2 (stoppingHandler 2) ⟨[], 0⟩ = some (.ret none, w2) ∧
      (visits w2.trace).length = 2 ∧ fetches w2.trace = ["/p1", "/p2"] := by
  obtain ⟨w2, h1, -, h3, h4⟩ := early_stop_honored
    (NewPager (tableClient [("/p1", exampleResult (.slice [.string "a"]) "/p2"),
          ("/p2", exampleResult (.slice [.string "b"]) "/p3"),
          ("/p3", exampleResult (.slice [.string "c"]) "")]) "/p1" examplePage)
    (stoppingHandler 2) ⟨[], 0⟩
    [examplePage (exampleResult (.slice [.string "a"]) "/p2")]
    (examplePage (exampleResult (.slice [.string "b"]) "/p3"))
    [examplePage (exampleResult (.slice [.string "c"]) "")] 2 rfl rfl
    ⟨rfl, rfl, "/p2", rfl, by decide, rfl, rfl, "/p3", rfl, by decide, rfl,
      Or.inr ⟨rfl, rfl⟩⟩
    (by simp) ⟨rfl, rfl⟩ (Nat.le_refl 2)
  have e : (NewPager (tableClient [("/p1", exampleResult (.slice [.string "a"]) "/p2"),
          ("/p2", exampleResult (.slice [.string "b"]) "/p3"),
          ("/p3", exampleResult (.slice [.string "c"]) "")]) "/p1"
        examplePage).EachPage 2 (stoppingHandler 2) ⟨[], 0⟩
      = some (.ret none,
          ⟨[.fetch "/p1", .visit (examplePage (exampleResult (.slice [.string "a"]) "/p2")),
            .fetch "/p2", .visit (examplePage (exampleResult (.slice [.string "b"]) "/p3"))],
            2⟩) := rfl
  rw [e] at h1
  simp only [Option.some.injEq, Prod.mk.injEq, true_and] at h1
  subst h1
  exact ⟨_, e, by simpa using h3, rfl⟩

/-- C3: a Pager whose sticky error `Err` is `e` returns exactly `e` from
`EachPage` and `(nil, e)` from `AllPages`, and both leave the world as it was: no
fetch and no visitor invocation, whatever the initial URL, the cached first page,
the backend, the visitor and the number of loop iterations allowed are. -/
theorem sticky_error_short_circuit (p : Pager) (e : Error) (hErr : p.Err = some e)
    (fuel : Nat) (handler : Handler σ) (w : World σ) (tr : List Event) :
    p.EachPage fuel handler w = some (.ret (some e), w) ∧
      p.AllPages fuel tr = some (.ret (none, some e), tr) := by
  simp [Pager.EachPage, Pager.AllPages, hErr]

/-- C3, at a Pager over a working one-page listing whose sticky error is set. -/
theorem sticky_error_short_circuit_witness :
    (Pager.mk (tableClient [("/routes", exampleResult (.slice [.string "r1"]) "")]) "/routes"
        examplePage none (some (.errorString "bad URL")) []).EachPage 5 countingHandler ⟨[], 0⟩
      = some (.ret (some (.errorString "bad URL")), ⟨[], 0⟩) ∧
    (Pager.mk (tableClient [("/routes", exampleResult (.slice [.string "r1"]) "")]) "/routes"
        examplePage none (some (.errorString "bad URL")) []).AllPages 5 []
      = some (.ret (none, some (.errorString "bad URL")), []) :=
  sticky_error_short_circuit _ (.errorString "bad URL") rfl 5 countingHandler ⟨[], 0⟩ []

/-- C8: on a Pager without sticky error whose first fetched page is not of a
single-page type and whose body is none of `map[string]any`, `[]byte`, `[]any`,
`AllPages` returns no page and the `ErrUnexpectedType` whose `Expected` is
`"map[string]any/[]byte/[]any"` and whose `Actual` is the `%T` name of the body;
the only event of the call is the fetch of the initial URL. -/
theorem unexpected_body_type (p : Pager) (tr : List Event) (pg : Page) (fuel : Nat)
    (hErr : p.Err = none)
    (hFetch : (p.fetchNextPage p.initialURL tr).1 = .ok pg)
    (hMulti : pg.pageType.hasSinglePageBase = false)
    (hObject : ∀ kvs, pg.GetBody ≠ .object kvs)
    (hBytes : ∀ b, pg.GetBody ≠ .bytes b)
    (hSlice : ∀ xs, pg.GetBody ≠ .slice xs) :
    p.AllPages fuel tr
      = some (.ret (none, some (.ErrUnexpectedType "map[string]any/[]byte/[]any"
          pg.GetBody.typeName)), tr ++ [Event.fetch p.initialURL]) := by
  simp only [Pager.AllPages, hErr, fetchNextPage_eq p p.initialURL tr _ hFetch, hMulti]
  cases hb : pg.GetBody with
  | object kvs => exact absurd hb (hObject kvs)
  | bytes b => exact absurd hb (hBytes b)
  | slice xs => exact absurd hb (hSlice xs)
  | _ => simp

/-- C8, at a listing whose first response decodes to a JSON string. -/
theorem unexpected_body_type_witness :
    (NewPager (tableClient [("/v", exampleResult (.string "v2.1") "")]) "/v"
        examplePage).AllPages 3 []
      = some (.ret (none, some (.ErrUnexpectedType "map[string]any/[]byte/[]any" "string")),
          [Event.fetch "/v"]) :=
  unexpected_body_type
    (NewPager (tableClient [("/v", exampleResult (.string "v2.1") "")]) "/v" examplePage) []
    (examplePage (exampleResult (.string "v2.1") "")) 3 rfl rfl rfl
    (fun _ h => by cases h) (fun _ h => by cases h) (fun _ h => by cases h)

/-- C9: on a Pager without sticky error whose transport answers the initial URL
with a response that decodes to `r`, and whose page type embeds `SinglePageBase`,
one call of `AllPages` issues exactly one fetch, of the initial URL, and returns
exactly the page the construction function builds from `r`: body, headers and
status code are those of that page, nothing is replaced by the Pager's headers. -/
theorem single_page_verbatim (p : Pager) (tr : List Event) (resp : Response) (r : PageResult)
    (fuel : Nat)
    (hErr : p.Err = none)
    (hRequest : Request p.client tr p.Headers p.initialURL = .ok resp)
    (hDecode : PageResultFrom resp = .ok r)
    (hSingle : (p.createPage r).pageType.hasSinglePageBase = true) :
    p.AllPages fuel tr
      = some (.ret (some (p.createPage r), none), tr ++ [Event.fetch p.initialURL]) := by
  simp [Pager.AllPages, hErr, Pager.fetchNextPage, hRequest, hDecode, hSingle]

/-- C9, at a single-page listing whose Pager carries an extra header: the page
comes back with the headers and status code of the response. -/
theorem single_page_verbatim_witness :
    (Pager.mk (tableClient [("/limits", ⟨.object [("limits", .slice [.string "x"])],
          [("Content-Type", ["application/json"])], 200⟩)]) "/limits"
        exampleSinglePage none none [("Accept", "text/plain")]).AllPages 0 []
      = some (.ret (some (exampleSinglePage ⟨.object [("limits", .slice [.string "x"])],
          [("Content-Type", ["application/json"])], 200⟩), none), [Event.fetch "/limits"]) :=
  single_page_verbatim
    (Pager.mk (tableClient [("/limits", ⟨.object [("limits", .slice [.string "x"])],
          [("Content-Type", ["application/json"])], 200⟩)]) "/limits"
        exampleSinglePage none none [("Accept", "text/plain")]) []
    ⟨.ok ⟨.object [("limits", .slice [.string "x"])],
          [("Content-Type", ["application/json"])], 200⟩⟩ _ 0 rfl rfl rfl rfl

/-! ## `AllPages`: the walk behind the aggregation -/

theorem Walk_congr (p q : Pager)
    (h : ∀ url tr, p.fetchNextPage url tr = q.fetchNextPage url tr) :
    ∀ (rest : List Page) (tr : List Event) (pg : Page),
      Walk p tr pg rest → Walk q tr pg rest := by
  intro rest
  induction rest with
  | nil => intro tr pg hw; exact hw
  | cons r rest ih =>
    intro tr pg hw
    obtain ⟨he, next, hn, hnx, hfetch, hwalk⟩ := hw
    exact ⟨he, next, hn, hnx, by rw [← h]; exact hfetch, ih _ _ hwalk⟩

/-- The call of `EachPage` inside `AllPages`: the cached first page is consumed
without a fetch and the rest of the served chain is walked. -/
theorem aggregate_walk (p : Pager) (tr : List Event) (pg : Page) (rest : List Page)
    (fuel : Nat) (handler : Handler AggState)
    (hChain : ServesChain p tr p.initialURL (pg :: rest))
    (hCont : ∀ q ∈ (pg :: rest).filter Page.nonEmpty, ∀ s,
      (handler q s).1 = .ret (true, none))
    (hFuel : rest.length < fuel) :
    Ran handler ⟨tr ++ [Event.fetch p.initialURL], ⟨"", []⟩⟩
      ((pg :: rest).filter Page.nonEmpty) rest.length
      ((Pager.mk p.client p.initialURL p.createPage (some pg) none p.Headers).EachPage fuel
        handler ⟨tr ++ [Event.fetch p.initialURL], ⟨"", []⟩⟩) := by
  have hw := Walk_congr p (Pager.mk p.client p.initialURL p.createPage (some pg) none p.Headers)
    (fun url tr => fetchNextPage_congr _ _ rfl rfl rfl url tr) rest _ pg hChain.2
  exact loop_walk _ handler rest pg ⟨tr ++ [Event.fetch p.initialURL], ⟨"", []⟩⟩ fuel
    p.initialURL hw hCont hFuel

/-! ## `AllPages`: what the three visitors accumulate -/

theorem foldl_collectField (kvs : List (String × Any)) :
    ∀ st : AggState, kvs.foldl collectField st
      = (Any.object kvs).listFields.foldl (fun st f => ⟨f.1, st.pagesSlice ++ f.2⟩) st := by
  induction kvs with
  | nil => intro st; rfl
  | cons kv kvs ih =>
    intro st
    simp only [List.foldl_cons, Any.listFields, List.filterMap_cons] at ih ⊢
    rw [ih]
    unfold collectField
    cases hs : strings.HasSuffix kv.1 "links"
    · cases hv : kv.2 <;> simp
    · simp

theorem feed_objectHandler (k : String) :
    ∀ (pages : List Page) (st : AggState),
      (∀ q ∈ pages, ∃ l, q.GetBody.listFields = [(k, l)]) → pages ≠ [] →
      feed objectHandler pages st = ⟨k, st.pagesSlice ++ (pages.map Page.items).flatten⟩ := by
  intro pages
  induction pages with
  | nil => intro st _ hne; exact absurd rfl hne
  | cons q pages ih =>
    intro st hq _
    obtain ⟨l, hl⟩ := hq q (List.mem_cons_self _ _)
    have hstep : (objectHandler q st).2 = ⟨k, st.pagesSlice ++ l⟩ := by
      unfold objectHandler
      cases hb : q.GetBody with
      | object kvs =>
        rw [hb] at hl
        simp [foldl_collectField, hl]
      | _ => rw [hb] at hl; simp [Any.listFields] at hl
    have hitems : q.items = l := by simp [Page.items, hl]
    simp only [feed, hstep]
    cases pages with
    | nil => simp [feed, hitems]
    | cons r pages =>
      rw [ih _ (fun q2 h2 => hq q2 (List.mem_cons_of_mem _ h2)) (by simp)]
      simp [hitems, List.append_assoc]

theorem objectHandler_continues (k : String) (q : Page) (l : List Any)
    (h : q.GetBody.listFields = [(k, l)]) (s : AggState) :
    (objectHandler q s).1 = .ret (true, none) := by
  unfold objectHandler
  cases hb : q.GetBody with
  | object kvs => rfl
  | _ => rw [hb] at h; simp [Any.listFields] at h

theorem feed_bytesHandler :
    ∀ (pages : List Page) (bs : List (List UInt8)) (st : AggState),
      pages.map Page.GetBody = bs.map Any.bytes →
      feed bytesHandler pages st = ⟨st.key, st.pagesSlice ++ separated bs⟩ := by
  intro pages
  induction pages with
  | nil =>
    intro bs st h
    cases bs with
    | nil => simp [feed, separated]
    | cons b bs => simp at h
  | cons q pages ih =>
    intro bs st h
    cases bs with
    | nil => simp at h
    | cons b bs =>
      simp only [List.map_cons, List.cons.injEq] at h
      have hstep : (bytesHandler q st).2
          = ⟨st.key, (st.pagesSlice ++ [Any.bytes b]) ++ [Any.bytes [10]]⟩ := by
        simp [bytesHandler, h.1]
      simp only [feed, hstep]
      rw [ih bs _ h.2]
      simp [separated]

theorem feed_sliceHandler :
    ∀ (pages : List Page) (st : AggState),
      (∀ q ∈ pages, ∃ xs, q.GetBody = .slice xs) →
      feed sliceHandler pages st
        = ⟨st.key, st.pagesSlice ++ (pages.map (fun q => q.GetBody.elements)).flatten⟩ := by
  intro pages
  induction pages with
  | nil => intro st _; simp [feed]
  | cons q pages ih =>
    intro st h
    obtain ⟨xs, hx⟩ := h q (List.mem_cons_self _ _)
    have hstep : (sliceHandler q st).2 = ⟨st.key, st.pagesSlice ++ xs⟩ := by
      simp [sliceHandler, hx]
    simp only [feed, hstep]
    rw [ih _ (fun q2 h2 => h q2 (List.mem_cons_of_mem _ h2))]
    simp [hx, Any.elements, List.append_assoc]

/-- Storing the elements one by one succeeds when none of them is nil. -/
theorem setElements_of_not_mem :
    ∀ xs : List Any, Any.nil ∉ xs → setElements xs = .ret xs := by
  intro xs
  induction xs with
  | nil => intro _; rfl
  | cons x xs ih =>
    intro h
    have hx : x ≠ Any.nil := fun e => h (e ▸ List.mem_cons_self _ _)
    have hxs : Any.nil ∉ xs := fun m => h (List.mem_cons_of_mem _ m)
    cases x <;> first | exact absurd rfl hx | simp [setElements, ih hxs]

/-- Storing the elements one by one panics when one of them is nil. -/
theorem setElements_of_mem :
    ∀ xs : List Any, Any.nil ∈ xs →
      setElements xs = .panic "reflect: call of reflect.Value.Set on zero Value" := by
  intro xs
  induction xs with
  | nil => intro h; simp at h
  | cons x xs ih =>
    intro h
    cases x with
    | nil => rfl
    | _ =>
      have hxs : Any.nil ∈ xs := by simpa using h
      simp [setElements, ih hxs]

theorem slice_of_shape (q : Page) (h : q.GetBody.shape? = some Shape.slice) :
    ∃ xs, q.GetBody = .slice xs := by
  cases hb : q.GetBody <;> rw [hb] at h <;> simp [Any.shape?] at h
  exact ⟨_, rfl⟩

theorem mem_elements_flatten (pages : List Page) :
    Any.nil ∈ (pages.map (fun q => q.GetBody.elements)).flatten
      ↔ ∃ q ∈ pages, Any.nil ∈ q.GetBody.elements := by
  simp [List.mem_flatten]

theorem combineBytes_separated :
    ∀ (bs : List (List UInt8)) (acc : List UInt8),
      combineBytes ((separated bs).take ((separated bs).length - 1)) acc
        = .ret (acc ++ joinNewline bs) := by
  intro bs
  induction bs with
  | nil => intro acc; simp [separated, combineBytes, joinNewline]
  | cons b bs ih =>
    intro acc
    cases bs with
    | nil => simp [separated, combineBytes, joinNewline]
    | cons c bs =>
      have ih2 := ih ((acc ++ b) ++ [10])
      simp only [separated, List.length_cons] at ih2 ⊢
      simp only [Nat.add_sub_cancel] at ih2 ⊢
      simp only [List.take_succ_cons, combineBytes] at ih2 ⊢
      rw [ih2]
      simp [joinNewline, List.append_assoc]

/-! ## `AllPages`: the three merge branches -/

/-- The `map[string]any` branch on a served chain whose visited pages all have
the one list field `k`. -/
theorem object_branch_chain (p : Pager) (tr : List Event) (pg : Page) (rest : List Page)
    (k : String) (fuel : Nat)
    (hErr : p.Err = none)
    (hChain : ServesChain p tr p.initialURL (pg :: rest))
    (hMulti : pg.pageType.hasSinglePageBase = false)
    (hFirst : pg.nonEmpty = true)
    (hField : ∀ q ∈ (pg :: rest).filter Page.nonEmpty, ∃ l, q.GetBody.listFields = [(k, l)])
    (hFuel : rest.length < fuel) :
    ∃ tr2, p.AllPages fuel tr
      = some (.ret (some (newPage pg.pageType (.objectOfSlices
          [(k, (((pg :: rest).filter Page.nonEmpty).map Page.items).flatten)]) p.Headers), none),
          tr2) := by
  obtain ⟨w2, h1, -, -, h4⟩ := aggregate_walk p tr pg rest fuel objectHandler hChain
    (fun q hq s => by
      obtain ⟨l, hl⟩ := hField q hq
      exact objectHandler_continues k q l hl s) hFuel
  have hne : (pg :: rest).filter Page.nonEmpty ≠ [] := by
    rw [List.filter_cons_of_pos hFirst]
    simp
  rw [feed_objectHandler k _ _ hField hne] at h4
  obtain ⟨l0, hl0⟩ := hField pg (by rw [List.filter_cons_of_pos hFirst]; simp)
  obtain ⟨kvs, hb⟩ : ∃ kvs, pg.GetBody = .object kvs := by
    cases hb : pg.GetBody with
    | object kvs => exact ⟨kvs, rfl⟩
    | _ => rw [hb] at hl0; simp [Any.listFields] at hl0
  refine ⟨w2.trace, ?_⟩
  simp only [Pager.AllPages, hErr, fetchNextPage_eq p p.initialURL tr _ hChain.1, hMulti, hb]
  simp only [h1, h4]
  simp

/-- The `[]byte` branch on a served chain whose visited pages have the bodies
`bs`. -/
theorem bytes_branch_chain (p : Pager) (tr : List Event) (pg : Page) (rest : List Page)
    (b0 : List UInt8) (bs : List (List UInt8)) (fuel : Nat)
    (hErr : p.Err = none)
    (hChain : ServesChain p tr p.initialURL (pg :: rest))
    (hMulti : pg.pageType.hasSinglePageBase = false)
    (hFirst : pg.GetBody = .bytes b0)
    (hBodies : ((pg :: rest).filter Page.nonEmpty).map Page.GetBody = bs.map Any.bytes)
    (hFuel : rest.length < fuel) :
    ∃ tr2, p.AllPages fuel tr
      = some (.ret (some (newPage pg.pageType (.bytes (joinNewline bs)) p.Headers), none),
          tr2) := by
  obtain ⟨w2, h1, -, -, h4⟩ := aggregate_walk p tr pg rest fuel bytesHandler hChain
    (fun q hq s => by
      have hmem : q.GetBody ∈ bs.map Any.bytes := by
        rw [← hBodies]
        exact List.mem_map_of_mem _ hq
      obtain ⟨b, -, hb⟩ := List.mem_map.1 hmem
      simp [bytesHandler, ← hb]) hFuel
  rw [feed_bytesHandler _ bs _ hBodies] at h4
  refine ⟨w2.trace, ?_⟩
  simp only [Pager.AllPages, hErr, fetchNextPage_eq p p.initialURL tr _ hChain.1, hMulti, hFirst]
  simp only [h1, h4, List.nil_append]
  have hc := combineBytes_separated bs []
  by_cases hlen : (separated bs).length > 0
  · simp [hlen, hc]
  · have hnil : separated bs = [] := by
      cases hs : separated bs with
      | nil => rfl
      | cons a l => simp [hs] at hlen
    cases bs with
    | nil => simp [separated, combineBytes, joinNewline]
    | cons b bs => simp [separated] at hnil

/-- The `[]any` branch on a served chain of bare-array pages. -/
theorem slice_branch_chain (p : Pager) (tr : List Event) (pg : Page) (rest : List Page)
    (fuel : Nat)
    (hErr : p.Err = none)
    (hChain : ServesChain p tr p.initialURL (pg :: rest))
    (hMulti : pg.pageType.hasSinglePageBase = false)
    (hBodies : ∀ q ∈ pg :: rest, ∃ xs, q.GetBody = .slice xs)
    (hFuel : rest.length < fuel) :
    ∃ tr2, p.AllPages fuel tr
      = (match setElements
            (((pg :: rest).filter Page.nonEmpty).map (fun q => q.GetBody.elements)).flatten with
        | .panic msg => some (.panic msg, tr2)
        | .ret body =>
          some (.ret (some (newPage pg.pageType (.slice body) p.Headers), none), tr2)) := by
  have hvis : ∀ q ∈ (pg :: rest).filter Page.nonEmpty, ∃ xs, q.GetBody = .slice xs :=
    fun q hq => hBodies q (List.mem_of_mem_filter hq)
  obtain ⟨w2, h1, -, -, h4⟩ := aggregate_walk p tr pg rest fuel sliceHandler hChain
    (fun q hq s => by
      obtain ⟨xs, hx⟩ := hvis q hq
      simp [sliceHandler, hx]) hFuel
  rw [feed_sliceHandler _ _ hvis] at h4
  obtain ⟨xs0, hb⟩ := hBodies pg (List.mem_cons_self _ _)
  refine ⟨w2.trace, ?_⟩
  simp only [Pager.AllPages, hErr, fetchNextPage_eq p p.initialURL tr _ hChain.1, hMulti, hb]
  simp only [h1, h4]
  simp

/-- C4, as amended: for a served chain of keyed-object pages of a
non-single-page type whose first page is non-empty and in which every page has
exactly one list-valued field whose name does not end in `links`, named `k` on
every page, `AllPages` returns without error a page whose body is the one-entry
mapping from `k` to the concatenation, in page order and in-page order, of the `k`
lists of the non-empty pages. -/
theorem keyed_object_aggregate (p : Pager) (tr : List Event) (pg : Page) (rest : List Page)
    (k : String) (fuel : Nat)
    (hErr : p.Err = none)
    (hChain : ServesChain p tr p.initialURL (pg :: rest))
    (hMulti : pg.pageType.hasSinglePageBase = false)
    (hFirst : pg.nonEmpty = true)
    (hField : ∀ q ∈ pg :: rest, ∃ l, q.GetBody.listFields = [(k, l)])
    (hFuel : rest.length < fuel) :
    ∃ page tr2, p.AllPages fuel tr = some (.ret (some page, none), tr2) ∧
      page.GetBody = .objectOfSlices
        [(k, (((pg :: rest).filter Page.nonEmpty).map Page.items).flatten)] := by
  obtain ⟨tr2, h⟩ := object_branch_chain p tr pg rest k fuel hErr hChain hMulti hFirst
    (fun q hq => hField q (List.mem_of_mem_filter hq)) hFuel
  exact ⟨_, tr2, h, rfl⟩

/-- C4, as amended, at the pages `items: [a, b]`, `items: [c]`, `items: []`: the
aggregate body is `items: [a, b, c]`. -/
theorem keyed_object_aggregate_witness :
    ∃ page tr2, itemsPager.AllPages 3 [] = some (.ret (some page, none), tr2) ∧
      page.GetBody = .objectOfSlices [("items", [.string "a", .string "b", .string "c"])] := by
  obtain ⟨page, tr2, h1, h2⟩ := keyed_object_aggregate itemsPager []
    (examplePage (exampleResult (.object [("items", .slice [.string "a", .string "b"])])
      "/items?2"))
    [examplePage (exampleResult (.object [("items", .slice [.string "c"])]) "/items?3"),
     examplePage (exampleResult (.object [("items", .slice [])]) "")]
    "items" 3 rfl
    ⟨rfl, rfl, "/items?2", rfl, by decide, rfl, rfl, "/items?3", rfl, by decide, rfl,
      Or.inl rfl⟩
    rfl rfl
    (by
      intro q hq
      simp only [List.mem_cons, List.mem_singleton, List.not_mem_nil, or_false] at hq
      rcases hq with rfl | rfl | rfl
      · exact ⟨_, rfl⟩
      · exact ⟨_, rfl⟩
      · exact ⟨_, rfl⟩)
    (by decide)
  exact ⟨page, tr2, h1, h2⟩

/-- C4 as stated fails when the first page of the chain is empty: the served
chain is the single page `items: []`, it has the one list field `items`, and the
body `AllPages` returns maps the empty string, not `items`, to the empty list. -/
theorem empty_first_page_loses_key :
    ServesChain noItemsPager [] noItemsPager.initialURL
        [examplePage (exampleResult (.object [("items", .slice [])]) "")] ∧
      (examplePage (exampleResult (.object [("items", .slice [])]) "")).GetBody.listFields
        = [("items", [])] ∧
      ∃ page tr2, noItemsPager.AllPages 1 [] = some (.ret (some page, none), tr2) ∧
        page.GetBody = .objectOfSlices [("", [])] ∧
        page.GetBody ≠ .objectOfSlices [("items", [])] := by
  refine ⟨⟨rfl, Or.inl rfl⟩, rfl, _, _, rfl, rfl, ?_⟩
  intro h
  simp [newPage, Page.GetBody] at h

/-- C5, as amended: for a served two-page byte-stream listing of a
non-single-page type whose page bodies are the bytes `"name1\n"` and
`"name2\n"`, both pages non-empty, `AllPages` returns a page whose body is
exactly the bytes `"name1\n\nname2\n"`: both bodies unchanged, with one newline
byte inserted between them. -/
theorem two_names_aggregate (p : Pager) (tr : List Event) (pg1 pg2 : Page) (fuel : Nat)
    (hErr : p.Err = none)
    (hChain : ServesChain p tr p.initialURL [pg1, pg2])
    (hMulti : pg1.pageType.hasSinglePageBase = false)
    (hBody1 : pg1.GetBody = .bytes (ascii "name1\n"))
    (hBody2 : pg2.GetBody = .bytes (ascii "name2\n"))
    (hNonEmpty : pg2.nonEmpty = true)
    (hFuel : 2 ≤ fuel) :
    ∃ page tr2, p.AllPages fuel tr = some (.ret (some page, none), tr2) ∧
      page.GetBody = .bytes (ascii "name1\n\nname2\n") := by
  have h1 : pg1.nonEmpty = true := nonEmpty_of_isEmpty_false pg1 hChain.2.1
  obtain ⟨tr2, h⟩ := bytes_branch_chain p tr pg1 [pg2] (ascii "name1\n")
    [ascii "name1\n", ascii "name2\n"] fuel hErr hChain hMulti hBody1
    (by simp [List.filter_cons, h1, hNonEmpty, hBody1, hBody2]) (by simpa using hFuel)
  exact ⟨_, tr2, h, by simp [newPage, Page.GetBody, joinNewline, ascii]⟩

/-- C5, as amended, at the example listing of two names. -/
theorem two_names_aggregate_witness :
    ∃ page tr2, namesPager.AllPages 2 [] = some (.ret (some page, none), tr2) ∧
      page.GetBody = .bytes (ascii "name1\n\nname2\n") :=
  two_names_aggregate namesPager []
    (examplePage (exampleResult (.bytes (ascii "name1\n")) "/c?marker=name1"))
    (examplePage (exampleResult (.bytes (ascii "name2\n")) "")) 2 rfl
    ⟨rfl, rfl, "/c?marker=name1", rfl, by decide, rfl, Or.inr ⟨rfl, rfl⟩⟩
    rfl rfl rfl rfl (Nat.le_refl 2)

/-- C5 as stated fails: for the two-page listing with bodies `"name1\n"` and
`"name2\n"` the body `AllPages` returns has 13 bytes, `"name1\n\nname2\n"`, and
is not the 11 bytes `"name1\nname2"`. -/
theorem two_names_join_keeps_newlines :
    ∃ page tr2, namesPager.AllPages 2 [] = some (.ret (some page, none), tr2) ∧
      page.GetBody = .bytes [110, 97, 109, 101, 49, 10, 10, 110, 97, 109, 101, 50, 10] ∧
      page.GetBody ≠ .bytes (ascii "name1\nname2") := by
  refine ⟨_, _, rfl, rfl, ?_⟩
  intro h
  simp only [newPage, Page.GetBody, Any.bytes.injEq] at h
  exact absurd (congrArg List.length h) (by decide)

/-- C6: for a served chain of byte-stream pages of a non-single-page type, all
non-empty, with bodies `b1`, ..., `bn`, `AllPages` returns without error a page
whose body is `b1 ++ [0x0A] ++ b2 ++ ... ++ [0x0A] ++ bn`: the bodies in order,
unchanged, one newline byte between successive bodies and none after the last. -/
theorem byte_stream_aggregate (p : Pager) (tr : List Event) (pages : List Page)
    (bs : List (List UInt8)) (fuel : Nat)
    (hErr : p.Err = none)
    (hChain : ServesChain p tr p.initialURL pages)
    (hMulti : ∀ q ∈ pages, q.pageType.hasSinglePageBase = false)
    (hNonEmpty : ∀ q ∈ pages, q.nonEmpty = true)
    (hBodies : pages.map Page.GetBody = bs.map Any.bytes)
    (hFuel : pages.length ≤ fuel) :
    ∃ page tr2, p.AllPages fuel tr = some (.ret (some page, none), tr2) ∧
      page.GetBody = .bytes (joinNewline bs) := by
  cases pages with
  | nil => exact absurd hChain (by simp [ServesChain])
  | cons pg rest =>
    cases bs with
    | nil => simp at hBodies
    | cons b0 bs =>
      have hall : (pg :: rest).filter Page.nonEmpty = pg :: rest :=
        List.filter_eq_self.2 hNonEmpty
      obtain ⟨tr2, h⟩ := bytes_branch_chain p tr pg rest b0 (b0 :: bs) fuel hErr hChain
        (hMulti pg (List.mem_cons_self _ _)) (by simpa using (List.cons.inj hBodies).1)
        (by rw [hall]; exact hBodies) (by simpa using hFuel)
      exact ⟨_, tr2, h, rfl⟩

/-- C6, at a chain of three pages with bodies `ab`, `c` and `de`. -/
theorem byte_stream_aggregate_witness :
    ∃ page tr2,
      (NewPager (tableClient [("/o", exampleResult (.bytes [97, 98]) "/o?2"),
          ("/o?2", exampleResult (.bytes [99]) "/o?3"),
          ("/o?3", exampleResult (.bytes [100, 101]) "")]) "/o" examplePage).AllPages 3 []
        = some (.ret (some page, none), tr2) ∧
      page.GetBody = .bytes [97, 98, 10, 99, 10, 100, 101] := by
  obtain ⟨page, tr2, h1, h2⟩ := byte_stream_aggregate
    (NewPager (tableClient [("/o", exampleResult (.bytes [97, 98]) "/o?2"),
          ("/o?2", exampleResult (.bytes [99]) "/o?3"),
          ("/o?3", exampleResult (.bytes [100, 101]) "")]) "/o" examplePage) []
    [examplePage (exampleResult (.bytes [97, 98]) "/o?2"),
     examplePage (exampleResult (.bytes [99]) "/o?3"),
     examplePage (exampleResult (.bytes [100, 101]) "")]
    [[97, 98], [99], [100, 101]] 3 rfl
    ⟨rfl, rfl, "/o?2", rfl, by decide, rfl, rfl, "/o?3", rfl, by decide, rfl,
      Or.inr ⟨rfl, rfl⟩⟩
    (by
      intro q hq
      simp only [List.mem_cons, List.mem_singleton, List.not_mem_nil, or_false] at hq
      rcases hq with rfl | rfl | rfl <;> rfl)
    (by
      intro q hq
      simp only [List.mem_cons, List.mem_singleton, List.not_mem_nil, or_false] at hq
      rcases hq with rfl | rfl | rfl <;> rfl)
    rfl (Nat.le_refl 3)
  exact ⟨page, tr2, h1, h2⟩

/-- C7: for a served chain of bare-array pages of a non-single-page type on a
Pager without sticky error. When no element of a visited page (a non-empty page
of the chain; these are all the pages before an empty one) is nil, `AllPages`
returns without error a page whose body is the flat list of the elements of the
visited pages, in page order and in the order inside each page, and its length
is the sum of the lengths of the visited pages. When an element of a visited
page is nil (a JSON `null`), `AllPages` returns nothing: after the walk it
panics in `reflect.Value.Set`. -/
theorem bare_array_aggregate_unless_null (p : Pager) (tr : List Event) (pages : List Page)
    (fuel : Nat)
    (hErr : p.Err = none)
    (hChain : ServesChain p tr p.initialURL pages)
    (hMulti : ∀ q ∈ pages, q.pageType.hasSinglePageBase = false)
    (hBodies : ∀ q ∈ pages, ∃ xs, q.GetBody = .slice xs)
    (hFuel : pages.length ≤ fuel) :
    ((∀ q ∈ pages.filter Page.nonEmpty, Any.nil ∉ q.GetBody.elements) →
      ∃ page tr2, p.AllPages fuel tr = some (.ret (some page, none), tr2) ∧
        page.GetBody
          = .slice ((pages.filter Page.nonEmpty).map (fun q => q.GetBody.elements)).flatten ∧
        page.GetBody.elements.length
          = ((pages.filter Page.nonEmpty).map (fun q => q.GetBody.elements.length)).sum) ∧
      ((∃ q ∈ pages.filter Page.nonEmpty, Any.nil ∈ q.GetBody.elements) →
        ∃ tr2, p.AllPages fuel tr
          = some (.panic "reflect: call of reflect.Value.Set on zero Value", tr2)) := by
  cases pages with
  | nil => exact absurd hChain (by simp [ServesChain])
  | cons pg rest =>
    obtain ⟨tr2, h⟩ := slice_branch_chain p tr pg rest fuel hErr hChain
      (hMulti pg (List.mem_cons_self _ _)) hBodies (by simpa using hFuel)
    constructor
    · intro hNoNil
      have hn : Any.nil ∉ (((pg :: rest).filter Page.nonEmpty).map
          (fun q => q.GetBody.elements)).flatten := by
        rw [mem_elements_flatten]
        rintro ⟨q, hq, hm⟩
        exact hNoNil q hq hm
      rw [setElements_of_not_mem _ hn] at h
      refine ⟨_, tr2, h, rfl, ?_⟩
      simp [newPage, Page.GetBody, Any.elements, List.length_flatten, Function.comp_def]
    · intro hNil
      rw [setElements_of_mem _ ((mem_elements_flatten _).2 hNil)] at h
      exact ⟨tr2, h⟩

/-- C7, at the pages `[1, 2]`, `[3]`, `[]`, whose aggregate is `[1, 2, 3]`, and
at the single page `[1, null]`, on which `AllPages` panics. -/
theorem bare_array_aggregate_unless_null_witness :
    (∃ page tr2, arrayPager.AllPages 3 [] = some (.ret (some page, none), tr2) ∧
        page.GetBody = .slice [.float64 1, .float64 2, .float64 3] ∧
        page.GetBody.elements.length = 3) ∧
      ∃ tr2, nullElementPager.AllPages 1 []
        = some (.panic "reflect: call of reflect.Value.Set on zero Value", tr2) := by
  constructor
  · obtain ⟨page, tr2, h1, h2, h3⟩ := (bare_array_aggregate_unless_null arrayPager []
      [examplePage (exampleResult (.slice [.float64 1, .float64 2]) "/a?2"),
       examplePage (exampleResult (.slice [.float64 3]) "/a?3"),
       examplePage (exampleResult (.slice []) "")] 3 rfl
      ⟨rfl, rfl, "/a?2", rfl, by decide, rfl, rfl, "/a?3", rfl, by decide, rfl, Or.inl rfl⟩
      (by
        intro q hq
        simp only [List.mem_cons, List.mem_singleton, List.not_mem_nil, or_false] at hq
        rcases hq with rfl | rfl | rfl <;> rfl)
      (by
        intro q hq
        simp only [List.mem_cons, List.mem_singleton, List.not_mem_nil, or_false] at hq
        rcases hq with rfl | rfl | rfl <;> exact ⟨_, rfl⟩)
      (Nat.le_refl 3)).1
      (by
        intro q hq
        have hq2 := List.mem_of_mem_filter hq
        simp only [List.mem_cons, List.mem_singleton, List.not_mem_nil, or_false] at hq2
        rcases hq2 with rfl | rfl | rfl <;>
          simp [Page.GetBody, examplePage, exampleResult, Any.elements])
    exact ⟨page, tr2, h1, h2, h3⟩
  · exact (bare_array_aggregate_unless_null nullElementPager []
      [examplePage (exampleResult (.slice [.float64 1, .nil]) "")] 1 rfl
      ⟨rfl, Or.inr ⟨rfl, rfl⟩⟩
      (by
        intro q hq
        simp only [List.mem_singleton] at hq
        subst hq
        rfl)
      (by
        intro q hq
        simp only [List.mem_singleton] at hq
        subst hq
        exact ⟨_, rfl⟩)
      (Nat.le_refl 1)).2
      ⟨examplePage (exampleResult (.slice [.float64 1, .nil]) ""),
        by
          have hne : (examplePage (exampleResult (.slice [.float64 1, .nil]) "")).nonEmpty
              = true := rfl
          simp [List.filter_cons, hne],
        by simp [Page.GetBody, examplePage, exampleResult, Any.elements]⟩

/-- A page that comes out of `fetchNextPage` was built by the page-construction
function. -/
theorem fetchNextPage_ok_created (p : Pager) (url : String) (tr : List Event) (pg : Page)
    (h : (p.fetchNextPage url tr).1 = .ok pg) : ∃ r, pg = p.createPage r := by
  unfold Pager.fetchNextPage at h
  cases hq : Request p.client tr p.Headers url with
  | error e => simp [hq] at h
  | ok resp =>
    cases hd : PageResultFrom resp with
    | error e => simp [hq, hd] at h
    | ok r =>
      simp [hq, hd] at h
      exact ⟨r, h.symm⟩

/-- One call of `AllPages` on a Pager without sticky error whose pages are of a
single-page type adds the fetch of the initial URL to the trace and nothing
else. -/
theorem single_page_call_trace (p : Pager) (fuel : Nat) (hErr : p.Err = none)
    (hSingle : ∀ r, (p.createPage r).pageType.hasSinglePageBase = true) (tr : List Event) :
    ∃ res, p.AllPages fuel tr = some (res, tr ++ [Event.fetch p.initialURL]) := by
  cases h : (p.fetchNextPage p.initialURL tr).1 with
  | error e =>
    exact ⟨.ret (none, some e), by simp [Pager.AllPages, hErr, fetchNextPage_eq p _ tr _ h]⟩
  | ok pg =>
    obtain ⟨r, rfl⟩ := fetchNextPage_ok_created p _ tr pg h
    exact ⟨.ret (some (p.createPage r), none),
      by simp [Pager.AllPages, hErr, fetchNextPage_eq p _ tr _ h, hSingle r]⟩

/-- C10, as amended: for a resource type using the single-page variant, every
call of `AllPages` on a Pager without sticky error issues exactly one fetch, so
after `n` calls on the same Pager the transport has been asked exactly `n` times
(one fetch a call, not one fetch a Pager), and the visitor never runs. -/
theorem repeated_single_page_calls (p : Pager) (fuel : Nat) (hErr : p.Err = none)
    (hSingle : ∀ r, (p.createPage r).pageType.hasSinglePageBase = true) :
    ∀ (n : Nat) (tr : List Event), ∃ tr2, allPagesTimes fuel p n tr = some tr2 ∧
      (fetches tr2).length = (fetches tr).length + n ∧ visits tr2 = visits tr := by
  intro n
  induction n with
  | zero => intro tr; exact ⟨tr, rfl, rfl, rfl⟩
  | succ n ih =>
    intro tr
    obtain ⟨res, h⟩ := single_page_call_trace p fuel hErr hSingle tr
    obtain ⟨tr2, h1, h2, h3⟩ := ih (tr ++ [Event.fetch p.initialURL])
    refine ⟨tr2, ?_, ?_, ?_⟩
    · simp only [allPagesTimes, h]
      exact h1
    · rw [h2]
      simp [fetches_append, fetches]
      omega
    · rw [h3]
      simp [visits_append, visits]

/-- C10, as amended, at three calls on the example single-page listing. -/
theorem repeated_single_page_calls_witness :
    ∃ tr2, allPagesTimes 0 limitsPager 3 [] = some tr2 ∧
      (fetches tr2).length = 3 ∧ visits tr2 = [] := by
  obtain ⟨tr2, h1, h2, h3⟩ :=
    repeated_single_page_calls limitsPager 0 rfl (fun _ => rfl) 3 []
  exact ⟨tr2, h1, by simpa [fetches] using h2, by simpa [visits] using h3⟩

/-- C10 as stated fails: two calls of `AllPages` on the same single-page Pager
fetch the initial URL twice, so the fetch count is 2 and not at most 1. -/
theorem second_call_fetches_again :
    allPagesTimes 0 limitsPager 2 [] = some [Event.fetch "/limits", Event.fetch "/limits"] ∧
      ¬ (fetches [Event.fetch "/limits", Event.fetch "/limits"]).length ≤ 1 :=
  ⟨rfl, by decide⟩

/-! ## Walking a served prefix of a listing -/

theorem continuesOn_of_forall (handler : Handler σ) :
    ∀ (pre : List Page) (s : σ),
      (∀ q ∈ pre, ∀ t, (handler q t).1 = .ret (true, none)) →
      ContinuesOn handler pre s := by
  intro pre
  induction pre with
  | nil => intro s _; trivial
  | cons q pre ih =>
    intro s h
    exact ⟨h q (List.mem_cons_self _ _) s,
      ih _ (fun r hr t => h r (List.mem_cons_of_mem _ hr) t)⟩

theorem visits_walkEvents : ∀ (pre : List Page) (url : String),
    visits (walkEvents url pre) = pre := by
  intro pre
  induction pre with
  | nil => intro url; rfl
  | cons q pre ih => intro url; simp [walkEvents, visits, ih]

theorem fetches_walkEvents : ∀ (pre : List Page) (url : String),
    fetches (walkEvents url pre) ++ [lastURL url pre] = url :: pre.map Page.nextURL := by
  intro pre
  induction pre with
  | nil => intro url; rfl
  | cons q pre ih => intro url; simp [walkEvents, fetches, lastURL, ih]

theorem length_fetches_walkEvents : ∀ (pre : List Page) (url : String),
    (fetches (walkEvents url pre)).length = pre.length := by
  intro pre
  induction pre with
  | nil => intro url; rfl
  | cons q pre ih => intro url; simp [walkEvents, fetches, ih]

/-- The loop walks a served prefix on which the visitor continues: it arrives,
with the iterations it has left, at the fetch that follows the prefix. -/
theorem loop_advance (p : Pager) (handler : Handler σ) (r : Except Error Page) :
    ∀ (pre : List Page) (url : String) (w : World σ),
      ServesThen p w.trace url pre r → ContinuesOn handler pre w.st →
      (∀ fuel, p.eachPageLoop handler (fuel + pre.length) none url w
          = p.eachPageLoop handler fuel none (lastURL url pre)
              ⟨w.trace ++ walkEvents url pre, feed handler pre w.st⟩) ∧
        (p.fetchNextPage (lastURL url pre) (w.trace ++ walkEvents url pre)).1 = r := by
  intro pre
  induction pre with
  | nil =>
    intro url w hs _
    exact ⟨fun fuel => by simp [walkEvents, lastURL, feed],
      by simpa [walkEvents, lastURL] using hs⟩
  | cons q pre ih =>
    intro url w hs hc
    obtain ⟨hfetch, he, next, hn, hnx, hrest⟩ := hs
    obtain ⟨hh, hc2⟩ := hc
    have hnext : q.nextURL = next := by simp [Page.nextURL, hn]
    obtain ⟨h1, h2⟩ := ih next
      ⟨w.trace ++ [Event.fetch url] ++ [Event.visit q], (handler q w.st).2⟩ hrest hc2
    refine ⟨fun fuel => ?_, ?_⟩
    · have e : fuel + (q :: pre).length = (fuel + pre.length) + 1 := by simp; omega
      rw [e, loop_fetch_ok p handler _ url url w q hfetch,
        loop_next p handler _ url next ⟨w.trace ++ [Event.fetch url], w.st⟩ q he hh hn hnx, h1]
      simp [walkEvents, lastURL, feed, hnext]
    · simpa [walkEvents, lastURL, hnext] using h2

/-- The visitor answers with an error: the loop ends with that error, whatever
the continue flag is. -/
theorem loop_visit_error (p : Pager) (handler : Handler σ) (fuel : Nat) (url : String)
    (w : World σ) (pg : Page) (b : Bool) (e : Error) (h : pg.IsEmpty = .ret (false, none))
    (hh : (handler pg w.st).1 = .ret (b, some e)) :
    p.eachPageLoop handler (fuel + 1) (some pg) url w
      = some (.ret (some e), ⟨w.trace ++ [Event.visit pg], (handler pg w.st).2⟩) := by
  have e2 : handler pg w.st = (.ret (b, some e), (handler pg w.st).2) := by rw [← hh]
  simp only [Pager.eachPageLoop, h]
  rw [e2]
  cases b <;> rfl

/-- `EachPage` on a fresh Pager walks a served prefix on which the visitor
continues and arrives at the fetch that follows it with an iteration to spare. -/
theorem EachPage_arrive (p : Pager) (handler : Handler σ) (w : World σ) (pre : List Page)
    (r : Except Error Page) (fuel : Nat)
    (hErr : p.Err = none) (hFresh : p.firstPage = none)
    (hServed : ServesThen p w.trace p.initialURL pre r)
    (hCont : ContinuesOn handler pre w.st)
    (hFuel : pre.length < fuel) :
    ∃ n, p.EachPage fuel handler w
        = p.eachPageLoop handler (n + 1) none (lastURL p.initialURL pre)
            ⟨w.trace ++ walkEvents p.initialURL pre, feed handler pre w.st⟩ ∧
      (p.fetchNextPage (lastURL p.initialURL pre) (w.trace ++ walkEvents p.initialURL pre)).1
        = r := by
  obtain ⟨h1, h2⟩ := loop_advance p handler r pre p.initialURL w hServed hCont
  refine ⟨fuel - pre.length - 1, ?_, h2⟩
  have e : fuel = (fuel - pre.length - 1 + 1) + pre.length := by omega
  simp only [Pager.EachPage, hErr, hFresh]
  conv_lhs => rw [e]
  exact h1 _

theorem fetches_after_walk (tr : List Event) (url : String) (pre : List Page) :
    fetches (tr ++ walkEvents url pre ++ [Event.fetch (lastURL url pre)])
      = fetches tr ++ url :: pre.map Page.nextURL := by
  rw [List.append_assoc, fetches_append, fetches_append, ← fetches_walkEvents pre url]
  simp [fetches]

/-- C13: on a fresh Pager without sticky error, when the pages `pre` have been
served and visited (the visitor continuing on each) and the page fetched next
reports `IsEmpty` = `(true, nil)`, `EachPage` returns `nil`; the visitor has been
invoked on the pages of `pre` only, not on the empty page, and the fetch of the
empty page is the last one. With `pre` empty (the first page is empty) the
visitor is not invoked at all and exactly one fetch is issued. -/
theorem empty_page_ends_iteration (p : Pager) (handler : Handler σ) (w : World σ)
    (pre : List Page) (pg : Page) (fuel : Nat)
    (hErr : p.Err = none) (hFresh : p.firstPage = none)
    (hServed : ServesThen p w.trace p.initialURL pre (.ok pg))
    (hCont : ContinuesOn handler pre w.st)
    (hEmpty : pg.IsEmpty = .ret (true, none))
    (hFuel : pre.length < fuel) :
    ∃ w2 : World σ, p.EachPage fuel handler w = some (.ret none, w2) ∧
      visits w2.trace = visits w.trace ++ pre ∧
      fetches w2.trace = fetches w.trace ++ p.initialURL :: pre.map Page.nextURL ∧
      w2.st = feed handler pre w.st := by
  obtain ⟨n, h1, h2⟩ := EachPage_arrive p handler w pre _ fuel hErr hFresh hServed hCont hFuel
  refine ⟨⟨w.trace ++ walkEvents p.initialURL pre ++ [Event.fetch (lastURL p.initialURL pre)],
    feed handler pre w.st⟩, ?_, ?_, fetches_after_walk w.trace p.initialURL pre, rfl⟩
  · rw [h1, loop_fetch_ok p handler _ _ "" _ pg h2, loop_empty p handler n _ _ pg hEmpty]
  · simp [visits_append, visits, visits_walkEvents]

/-- C13, at a listing whose first page is empty: no invocation, one fetch. -/
theorem empty_page_ends_iteration_witness :
    ∃ w2 : World Nat,
      noItemsPager.EachPage 1 countingHandler ⟨[], 0⟩ = some (.ret none, w2) ∧
      visits w2.trace = [] ∧ fetches w2.trace = ["/items"] ∧ w2.st = 0 := by
  obtain ⟨w2, h1, h2, h3, h4⟩ := empty_page_ends_iteration noItemsPager countingHandler
    ⟨[], 0⟩ []
    (examplePage (exampleResult (.object [("items", .slice [])]) "")) 1 rfl rfl rfl trivial rfl
    (by decide)
  exact ⟨w2, h1, h2, h3, h4⟩

/-- C15: on a fresh Pager without sticky error, when the pages `pre` have been
served and visited (the visitor continuing on each) and the visitor returns the
error `e` on the non-empty page `pg` fetched next, the `K`-th page with
`K = pre.length + 1`, whatever the continue flag `b` it returns with it,
`EachPage` returns exactly `e`; the visitor has been invoked on the first `K`
pages and not again, and the `K` fetches of these pages are the only ones. -/
theorem visitor_error_propagates (p : Pager) (handler : Handler σ) (w : World σ)
    (pre : List Page) (pg : Page) (b : Bool) (e : Error) (fuel : Nat)
    (hErr : p.Err = none) (hFresh : p.firstPage = none)
    (hServed : ServesThen p w.trace p.initialURL pre (.ok pg))
    (hCont : ContinuesOn handler pre w.st)
    (hNonEmpty : pg.IsEmpty = .ret (false, none))
    (hFails : (handler pg (feed handler pre w.st)).1 = .ret (b, some e))
    (hFuel : pre.length < fuel) :
    ∃ w2 : World σ, p.EachPage fuel handler w = some (.ret (some e), w2) ∧
      visits w2.trace = visits w.trace ++ pre ++ [pg] ∧
      fetches w2.trace = fetches w.trace ++ p.initialURL :: pre.map Page.nextURL := by
  obtain ⟨n, h1, h2⟩ := EachPage_arrive p handler w pre _ fuel hErr hFresh hServed hCont hFuel
  refine ⟨⟨w.trace ++ walkEvents p.initialURL pre ++ [Event.fetch (lastURL p.initialURL pre)]
    ++ [Event.visit pg], (handler pg (feed handler pre w.st)).2⟩, ?_, ?_, ?_⟩
  · rw [h1, loop_fetch_ok p handler _ _ "" _ pg h2,
      loop_visit_error p handler n _ _ pg b e hNonEmpty hFails]
  · simp [visits_append, visits, visits_walkEvents]
  · rw [fetches_append, fetches_after_walk]
    simp [fetches]

/-- C16: on a fresh Pager without sticky error, when the `K - 1` pages `pre`
have been served and visited (the visitor continuing on each) and the fetch that
follows, the `K`-th, fails with `e`, `EachPage` returns exactly `e`; the visitor
has been invoked on exactly the pages of `pre` and exactly `K` fetches have been
attempted, the failed one being the last. -/
theorem fetch_error_propagates (p : Pager) (handler : Handler σ) (w : World σ)
    (pre : List Page) (e : Error) (fuel : Nat)
    (hErr : p.Err = none) (hFresh : p.firstPage = none)
    (hServed : ServesThen p w.trace p.initialURL pre (.error e))
    (hCont : ContinuesOn handler pre w.st)
    (hFuel : pre.length < fuel) :
    ∃ w2 : World σ, p.EachPage fuel handler w = some (.ret (some e), w2) ∧
      visits w2.trace = visits w.trace ++ pre ∧
      fetches w2.trace = fetches w.trace ++ p.initialURL :: pre.map Page.nextURL ∧
      (fetches w2.trace).length = (fetches w.trace).length + (pre.length + 1) := by
  obtain ⟨n, h1, h2⟩ := EachPage_arrive p handler w pre _ fuel hErr hFresh hServed hCont hFuel
  have hf := fetches_after_walk w.trace p.initialURL pre
  refine ⟨⟨w.trace ++ walkEvents p.initialURL pre ++ [Event.fetch (lastURL p.initialURL pre)],
    feed handler pre w.st⟩, ?_, ?_, ?_, ?_⟩
  · rw [h1, loop_fetch_error p handler n _ _ e h2]
  · simp [visits_append, visits, visits_walkEvents]
  · simpa [List.append_assoc] using hf
  · simp only [← List.append_assoc] at hf ⊢
    rw [hf]
    simp

/-- C15, at a three-page listing whose visitor fails on the second page while
asking to continue: the error comes back after two invocations and two
fetches. -/
theorem visitor_error_propagates_witness :
    ∃ w2 : World Nat,
      lettersPager.EachPage 3 (failingHandler 2 (.errorString "boom")) ⟨[], 0⟩
        = some (.ret (some (.errorString "boom")), w2) ∧
      (visits w2.trace).length = 2 ∧ fetches w2.trace = ["/p1", "/p2"] := by
  obtain ⟨w2, h1, h2, h3⟩ := visitor_error_propagates lettersPager
    (failingHandler 2 (.errorString "boom")) ⟨[], 0⟩
    [examplePage (exampleResult (.slice [.string "a"]) "/p2")]
    (examplePage (exampleResult (.slice [.string "b"]) "/p3")) true (.errorString "boom") 3
    rfl rfl ⟨rfl, rfl, "/p2", rfl, by decide, rfl⟩ ⟨rfl, trivial⟩ rfl rfl (by decide)
  exact ⟨w2, h1, by rw [h2]; rfl, h3⟩

/-- C16, at a listing whose second fetch fails: the error of the transport comes
back after one invocation and two fetch attempts. -/
theorem fetch_error_propagates_witness :
    ∃ w2 : World Nat,
      brokenPager.EachPage 2 countingHandler ⟨[], 0⟩
        = some (.ret (some (.errorString "404")), w2) ∧
      (visits w2.trace).length = 1 ∧ fetches w2.trace = ["/p1", "/p2"] := by
  obtain ⟨w2, h1, h2, h3, -⟩ := fetch_error_propagates brokenPager countingHandler ⟨[], 0⟩
    [examplePage (exampleResult (.slice [.string "a"]) "/p2")] (.errorString "404") 2
    rfl rfl ⟨rfl, rfl, "/p2", rfl, by decide, rfl⟩ ⟨rfl, trivial⟩ (by decide)
  exact ⟨w2, h1, by rw [h2]; rfl, h3⟩

/-! ## Fetches and visitor invocations alternate -/

/-- One round of the loop with a page in hand: the events it adds alternate,
given that the events of every shorter run that starts with a fetch do. -/
theorem loop_some_alternates (p : Pager) (handler : Handler σ) (n : Nat)
    (ih : ∀ (url : String) (w : World σ) res w2,
      p.eachPageLoop handler n none url w = some (res, w2) →
      ∃ ext, w2.trace = w.trace ++ ext ∧ alternates true ext = true)
    (pg : Page) (url : String) (w : World σ) (res : Outcome (Option Error)) (w2 : World σ)
    (h : p.eachPageLoop handler (n + 1) (some pg) url w = some (res, w2)) :
    ∃ ext, w2.trace = w.trace ++ ext ∧ alternates false ext = true := by
  simp only [Pager.eachPageLoop] at h
  split at h
  · simp only [Option.some.injEq, Prod.mk.injEq] at h
    exact ⟨[], by rw [← h.2]; simp, rfl⟩
  · simp only [Option.some.injEq, Prod.mk.injEq] at h
    exact ⟨[], by rw [← h.2]; simp, rfl⟩
  · simp only [Option.some.injEq, Prod.mk.injEq] at h
    exact ⟨[], by rw [← h.2]; simp, rfl⟩
  · split at h
    · simp only [Option.some.injEq, Prod.mk.injEq] at h
      exact ⟨[Event.visit pg], by rw [← h.2], rfl⟩
    · simp only [Option.some.injEq, Prod.mk.injEq] at h
      exact ⟨[Event.visit pg], by rw [← h.2], rfl⟩
    · simp only [Option.some.injEq, Prod.mk.injEq] at h
      exact ⟨[Event.visit pg], by rw [← h.2], rfl⟩
    · split at h
      · simp only [Option.some.injEq, Prod.mk.injEq] at h
        exact ⟨[Event.visit pg], by rw [← h.2], rfl⟩
      · simp only [Option.some.injEq, Prod.mk.injEq] at h
        exact ⟨[Event.visit pg], by rw [← h.2], rfl⟩
      · split at h
        · simp only [Option.some.injEq, Prod.mk.injEq] at h
          exact ⟨[Event.visit pg], by rw [← h.2], rfl⟩
        · obtain ⟨ext, h1, h2⟩ := ih _ _ _ _ h
          exact ⟨Event.visit pg :: ext, by rw [h1]; simp, by simpa [alternates] using h2⟩

/-- The events a run of the loop adds to the trace alternate, beginning with a
fetch unless the first page is cached. -/
theorem loop_alternates (p : Pager) (handler : Handler σ) :
    ∀ (fuel : Nat) (url : String) (w : World σ) res w2,
      p.eachPageLoop handler fuel none url w = some (res, w2) →
      ∃ ext, w2.trace = w.trace ++ ext ∧ alternates true ext = true := by
  intro fuel
  induction fuel with
  | zero => intro url w res w2 h; simp [Pager.eachPageLoop] at h
  | succ n ih =>
    intro url w res w2 h
    cases hf : (p.fetchNextPage url w.trace).1 with
    | error e =>
      rw [loop_fetch_error p handler n url w e hf] at h
      simp only [Option.some.injEq, Prod.mk.injEq] at h
      exact ⟨[Event.fetch url], by rw [← h.2], rfl⟩
    | ok pg =>
      rw [loop_fetch_ok p handler (n + 1) url url w pg hf] at h
      obtain ⟨ext, h1, h2⟩ := loop_some_alternates p handler n ih pg url _ res w2 h
      exact ⟨Event.fetch url :: ext, by rw [h1]; simp, by simpa [alternates] using h2⟩

/-- In an alternating sequence the fetches never run ahead of the visitor by
more than one: counted up to any visit, up to any fetch, and at the end. -/
theorem alternates_counts :
    ∀ (ext : List Event) (expectFetch : Bool), alternates expectFetch ext = true →
      (∀ a pg c, ext = a ++ Event.visit pg :: c →
        (fetches a).length + (if expectFetch then 0 else 1) = (visits a).length + 1) ∧
      (∀ a url c, ext = a ++ Event.fetch url :: c →
        (fetches a).length + (if expectFetch then 0 else 1) = (visits a).length) ∧
      ((fetches ext).length + (if expectFetch then 0 else 1) = (visits ext).length ∨
        (fetches ext).length + (if expectFetch then 0 else 1) = (visits ext).length + 1) := by
  intro ext
  induction ext with
  | nil =>
    intro b _
    refine ⟨fun a pg c h => by simp at h, fun a url c h => by simp at h, ?_⟩
    cases b <;> simp [fetches, visits]
  | cons ev ext ih =>
    intro b h
    cases ev with
    | fetch u =>
      cases b with
      | false => simp [alternates] at h
      | true =>
        obtain ⟨i1, i2, i3⟩ := ih false (by simpa [alternates] using h)
        refine ⟨?_, ?_, ?_⟩
        · intro a pg c hs
          cases a with
          | nil => simp at hs
          | cons x a =>
            simp only [List.cons_append, List.cons.injEq] at hs
            obtain ⟨rfl, hs⟩ := hs
            have := i1 a pg c hs
            simp [fetches, visits] at this ⊢
            omega
        · intro a url c hs
          cases a with
          | nil => simp [fetches, visits]
          | cons x a =>
            simp only [List.cons_append, List.cons.injEq] at hs
            obtain ⟨rfl, hs⟩ := hs
            have := i2 a url c hs
            simp [fetches, visits] at this ⊢
            omega
        · simp [fetches, visits] at i3 ⊢
          omega
    | visit q =>
      cases b with
      | true => simp [alternates] at h
      | false =>
        obtain ⟨i1, i2, i3⟩ := ih true (by simpa [alternates] using h)
        refine ⟨?_, ?_, ?_⟩
        · intro a pg c hs
          cases a with
          | nil => simp [fetches, visits]
          | cons x a =>
            simp only [List.cons_append, List.cons.injEq] at hs
            obtain ⟨rfl, hs⟩ := hs
            have := i1 a pg c hs
            simp [fetches, visits] at this ⊢
            omega
        · intro a url c hs
          cases a with
          | nil => simp at hs
          | cons x a =>
            simp only [List.cons_append, List.cons.injEq] at hs
            obtain ⟨rfl, hs⟩ := hs
            have := i2 a url c hs
            simp [fetches, visits] at this ⊢
            omega
        · simp [fetches, visits] at i3 ⊢
          omega

/-- C19: in every run of `EachPage` on a Pager without cached first page that
returns, the events added to the trace are fetches and visitor invocations in
strict alternation, beginning with a fetch: when the visitor is invoked for the
`k`-th time exactly `k` fetches have been issued (one more than the invocations
before it), a fetch is issued only when the visitor has returned from as many
invocations as there were fetches before, and at return the number of fetches is
the number of invocations or one more. -/
theorem fetches_and_visits_alternate (p : Pager) (handler : Handler σ) (fuel : Nat)
    (w w2 : World σ) (res : Outcome (Option Error))
    (hFresh : p.firstPage = none)
    (hRun : p.EachPage fuel handler w = some (res, w2)) :
    ∃ ext, w2.trace = w.trace ++ ext ∧ alternates true ext = true ∧
      (∀ a pg c, ext = a ++ Event.visit pg :: c →
        (fetches a).length = (visits a).length + 1) ∧
      (∀ a url c, ext = a ++ Event.fetch url :: c → (fetches a).length = (visits a).length) ∧
      ((fetches ext).length = (visits ext).length ∨
        (fetches ext).length = (visits ext).length + 1) := by
  have key : ∃ ext, w2.trace = w.trace ++ ext ∧ alternates true ext = true := by
    unfold Pager.EachPage at hRun
    cases hE : p.Err with
    | some e =>
      simp only [hE, Option.some.injEq, Prod.mk.injEq] at hRun
      exact ⟨[], by rw [← hRun.2]; simp, rfl⟩
    | none =>
      simp only [hE, hFresh] at hRun
      exact loop_alternates p handler fuel _ w res w2 hRun
  obtain ⟨ext, h1, h2⟩ := key
  obtain ⟨i1, i2, i3⟩ := alternates_counts ext true h2
  exact ⟨ext, h1, h2, by simpa using i1, by simpa using i2, by simpa using i3⟩

/-- C19, at the walk over the three-page listing: fetch and visit take turns,
three fetches and three invocations. -/
theorem fetches_and_visits_alternate_witness :
    ∃ ext, ext = [Event.fetch "/p1",
        Event.visit (examplePage (exampleResult (.slice [.string "a"]) "/p2")),
        Event.fetch "/p2", Event.visit (examplePage (exampleResult (.slice [.string "b"]) "/p3")),
        Event.fetch "/p3", Event.visit (examplePage (exampleResult (.slice [.string "c"]) ""))] ∧
      alternates true ext = true ∧
      ((fetches ext).length = (visits ext).length ∨
        (fetches ext).length = (visits ext).length + 1) := by
  obtain ⟨ext, h1, h2, -, -, h5⟩ := fetches_and_visits_alternate lettersPager countingHandler 3
    ⟨[], 0⟩ ⟨[Event.fetch "/p1",
        Event.visit (examplePage (exampleResult (.slice [.string "a"]) "/p2")),
        Event.fetch "/p2", Event.visit (examplePage (exampleResult (.slice [.string "b"]) "/p3")),
        Event.fetch "/p3", Event.visit (examplePage (exampleResult (.slice [.string "c"]) ""))],
      3⟩ (.ret none) rfl rfl
  simp only [List.nil_append] at h1
  exact ⟨ext, h1.symm, h2, h5⟩

/-! ## Determinism of the walk -/

theorem sameRun_done (w1 w2 : World σ) (res : Outcome (Option Error)) (ext : List Event) (s : σ) :
    SameRun w1 w2 (some (res, ⟨w1.trace ++ ext, s⟩)) (some (res, ⟨w2.trace ++ ext, s⟩)) :=
  Or.inr ⟨res, ext, s, rfl, rfl⟩

theorem sameRun_shift (w1 w2 : World σ) (pre : List Event) (s : σ)
    (run1 run2 : Option (Outcome (Option Error) × World σ))
    (h : SameRun ⟨w1.trace ++ pre, s⟩ ⟨w2.trace ++ pre, s⟩ run1 run2) :
    SameRun w1 w2 run1 run2 := by
  rcases h with h | ⟨res, ext, t, h1, h2⟩
  · exact Or.inl h
  · exact Or.inr ⟨res, pre ++ ext, t, by simpa [List.append_assoc] using h1,
      by simpa [List.append_assoc] using h2⟩

/-- One round of the loop with the same page in hand and the same visitor
state, given that shorter runs from a fetch agree. -/
theorem loop_some_sameRun (p1 p2 : Pager) (handler : Handler σ) (n : Nat)
    (ih : ∀ (url : String) (w1 w2 : World σ), w1.st = w2.st →
      SameRun w1 w2 (p1.eachPageLoop handler n none url w1)
        (p2.eachPageLoop handler n none url w2))
    (pg : Page) (url : String) (w1 w2 : World σ) (hst : w1.st = w2.st) :
    SameRun w1 w2 (p1.eachPageLoop handler (n + 1) (some pg) url w1)
      (p2.eachPageLoop handler (n + 1) (some pg) url w2) := by
  simp only [Pager.eachPageLoop, hst]
  split
  · simpa using sameRun_done w1 w2 _ [] w2.st
  · simpa using sameRun_done w1 w2 _ [] w2.st
  · simpa using sameRun_done w1 w2 _ [] w2.st
  · split
    · exact sameRun_done w1 w2 _ _ _
    · exact sameRun_done w1 w2 _ _ _
    · exact sameRun_done w1 w2 _ _ _
    · split
      · exact sameRun_done w1 w2 _ _ _
      · exact sameRun_done w1 w2 _ _ _
      · split
        · exact sameRun_done w1 w2 _ _ _
        · exact sameRun_shift w1 w2 [Event.visit pg] _ _ _ (ih _ _ _ rfl)

/-- Against backends that answer alike whatever has happened before, the loop
is a function of the URL and the visitor state alone. -/
theorem loop_sameRun (p1 p2 : Pager) (handler : Handler σ)
    (hSame : ∀ tr1 tr2 url, (p1.fetchNextPage url tr1).1 = (p2.fetchNextPage url tr2).1) :
    ∀ (fuel : Nat) (url : String) (w1 w2 : World σ), w1.st = w2.st →
      SameRun w1 w2 (p1.eachPageLoop handler fuel none url w1)
        (p2.eachPageLoop handler fuel none url w2) := by
  intro fuel
  induction fuel with
  | zero => intro url w1 w2 _; exact Or.inl ⟨rfl, rfl⟩
  | succ n ih =>
    intro url w1 w2 hst
    cases hf : (p1.fetchNextPage url w1.trace).1 with
    | error e =>
      rw [loop_fetch_error p1 handler n url w1 e hf,
        loop_fetch_error p2 handler n url w2 e (by rw [← hSame w1.trace w2.trace url, hf]), hst]
      exact sameRun_done w1 w2 _ _ _
    | ok pg =>
      rw [loop_fetch_ok p1 handler (n + 1) url url w1 pg hf,
        loop_fetch_ok p2 handler (n + 1) url url w2 pg
          (by rw [← hSame w1.trace w2.trace url, hf]), hst]
      exact sameRun_shift w1 w2 [Event.fetch url] _ _ _
        (loop_some_sameRun p1 p2 handler n ih pg url _ _ rfl)

/-- C18: two Pagers freshly constructed with the same initial URL and the same
page-construction function, over clients that answer every request alike
whatever has happened before (one deterministic backend), run with the same
visitor from the same visitor state, agree: both runs of `EachPage` use up their
iterations, or both return the same result, leave the same visitor state and add
the same events to their traces, hence visit the same pages in the same order and
fetch the same URLs in the same order. -/
theorem EachPage_is_deterministic (c1 c2 : ServiceClient) (url : String)
    (createPage : PageResult → Page) (handler : Handler σ) (fuel : Nat) (w1 w2 : World σ)
    (hBackend : ∀ tr1 tr2 headers u, c1.respond tr1 headers u = c2.respond tr2 headers u)
    (hState : w1.st = w2.st) :
    (((NewPager c1 url createPage).EachPage fuel handler w1 = none ∧
        (NewPager c2 url createPage).EachPage fuel handler w2 = none) ∨
      ∃ res ext s,
        (NewPager c1 url createPage).EachPage fuel handler w1
          = some (res, ⟨w1.trace ++ ext, s⟩) ∧
        (NewPager c2 url createPage).EachPage fuel handler w2
          = some (res, ⟨w2.trace ++ ext, s⟩)) := by
  have h := loop_sameRun (NewPager c1 url createPage) (NewPager c2 url createPage) handler
    (fun tr1 tr2 u => by
      simp only [Pager.fetchNextPage, Request, NewPager, hBackend tr1 tr2 [] u]
      cases hr : c2.respond tr2 [] u with
      | error e => rfl
      | ok resp => cases hd : PageResultFrom resp <;> simp [hd])
    fuel url w1 w2 hState
  exact h

/-- C18, at two runs over the three-page listing, the second one started when
the first has already left its events in the trace. -/
theorem EachPage_is_deterministic_witness :
    ∃ res ext s,
      lettersPager.EachPage 3 countingHandler ⟨[], 0⟩ = some (res, ⟨[] ++ ext, s⟩) ∧
      lettersPager.EachPage 3 countingHandler ⟨[Event.fetch "/p1"], 0⟩
        = some (res, ⟨[Event.fetch "/p1"] ++ ext, s⟩) ∧
      fetches ext = ["/p1", "/p2", "/p3"] := by
  have e1 : lettersPager.EachPage 3 countingHandler ⟨[], 0⟩
      = some (.ret none, ⟨[Event.fetch "/p1",
        Event.visit (examplePage (exampleResult (.slice [.string "a"]) "/p2")),
        Event.fetch "/p2", Event.visit (examplePage (exampleResult (.slice [.string "b"]) "/p3")),
        Event.fetch "/p3", Event.visit (examplePage (exampleResult (.slice [.string "c"]) ""))],
        3⟩) := rfl
  rcases EachPage_is_deterministic
    (tableClient [("/p1", exampleResult (.slice [.string "a"]) "/p2"),
      ("/p2", exampleResult (.slice [.string "b"]) "/p3"),
      ("/p3", exampleResult (.slice [.string "c"]) "")])
    (tableClient [("/p1", exampleResult (.slice [.string "a"]) "/p2"),
      ("/p2", exampleResult (.slice [.string "b"]) "/p3"),
      ("/p3", exampleResult (.slice [.string "c"]) "")])
    "/p1" examplePage countingHandler 3 ⟨[], 0⟩ ⟨[Event.fetch "/p1"], 0⟩
    (fun _ _ _ _ => rfl) rfl with h | ⟨res, ext, s, h1, h2⟩
  · exact absurd (e1.symm.trans h.1) (by simp)
  · have h3 := e1.symm.trans h1
    simp only [Option.some.injEq, Prod.mk.injEq, World.mk.injEq, List.nil_append] at h3
    obtain ⟨-, h4, -⟩ := h3
    exact ⟨res, ext, s, h1, h2, by rw [← h4]; rfl⟩

/-! ## `AllPages` as a walk followed by a merge -/

/-- The loop uses its Pager only to fetch. -/
theorem loop_congr (p q : Pager) (handler : Handler σ)
    (h : ∀ url tr, p.fetchNextPage url tr = q.fetchNextPage url tr) :
    ∀ (fuel : Nat) (fp : Option Page) (url : String) (w : World σ),
      p.eachPageLoop handler fuel fp url w = q.eachPageLoop handler fuel fp url w := by
  intro fuel
  induction fuel with
  | zero => intro fp url w; rfl
  | succ n ih => intro fp url w; simp only [Pager.eachPageLoop, h, ih]

theorem shape_handler_continues (sh : Shape) (q : Page) (h : q.GetBody.shape? = some sh)
    (s : AggState) : (sh.handler q s).1 = .ret (true, none) := by
  cases hb : q.GetBody <;> rw [hb] at h <;> simp [Any.shape?] at h <;> subst h <;>
    simp [Shape.handler, objectHandler, bytesHandler, sliceHandler, hb]

/-- With a first page of a recognized shape and not of a single-page type,
`AllPages` is the walk `EachPage` would do on the fresh Pager, run with the
visitor of that shape from the empty accumulator, followed by the merge. -/
theorem AllPages_eq_afterWalk (p : Pager) (tr : List Event) (pg : Page) (sh : Shape)
    (fuel : Nat)
    (hErr : p.Err = none)
    (hFetch : (p.fetchNextPage p.initialURL tr).1 = .ok pg)
    (hMulti : pg.pageType.hasSinglePageBase = false)
    (hShape : pg.GetBody.shape? = some sh) :
    p.AllPages fuel tr
      = afterWalk sh pg.pageType p.Headers
          (p.eachPageLoop sh.handler fuel none p.initialURL ⟨tr, ⟨"", []⟩⟩) := by
  have hloop : ∀ handler : Handler AggState,
      (Pager.mk p.client p.initialURL p.createPage (some pg) none p.Headers).EachPage fuel
          handler ⟨tr ++ [Event.fetch p.initialURL], ⟨"", []⟩⟩
        = p.eachPageLoop handler fuel none p.initialURL ⟨tr, ⟨"", []⟩⟩ := by
    intro handler
    rw [loop_fetch_ok p handler fuel p.initialURL p.initialURL ⟨tr, ⟨"", []⟩⟩ pg hFetch]
    simp only [Pager.EachPage]
    exact loop_congr (Pager.mk p.client p.initialURL p.createPage (some pg) none p.Headers) p
      handler (fun url tr => fetchNextPage_congr _ _ rfl rfl rfl url tr) _ _ _ _
  simp only [Pager.AllPages, hErr, fetchNextPage_eq p p.initialURL tr _ hFetch, hMulti]
  cases hb : pg.GetBody <;> rw [hb] at hShape <;> simp [Any.shape?] at hShape <;> subst hShape <;>
    simp only [hloop, Shape.handler, afterWalk, Bool.false_eq_true, if_false]

/-- `IsEmpty` answers with an error: the loop ends with that error before the
visitor is called. -/
theorem loop_isEmpty_error (p : Pager) (handler : Handler σ) (fuel : Nat) (url : String)
    (w : World σ) (pg : Page) (b : Bool) (e : Error) (h : pg.IsEmpty = .ret (b, some e)) :
    p.eachPageLoop handler (fuel + 1) (some pg) url w = some (.ret (some e), w) := by
  simp only [Pager.eachPageLoop, h]

/-- `NextPageURL` answers with an error: the loop ends with that error after the
visitor has seen the page. -/
theorem loop_next_error (p : Pager) (handler : Handler σ) (fuel : Nat) (url next : String)
    (w : World σ) (pg : Page) (e : Error) (h : pg.IsEmpty = .ret (false, none))
    (hh : (handler pg w.st).1 = .ret (true, none))
    (hn : pg.NextPageURL = .ret (next, some e)) :
    p.eachPageLoop handler (fuel + 1) (some pg) url w
      = some (.ret (some e), ⟨w.trace ++ [Event.visit pg], (handler pg w.st).2⟩) := by
  have e2 : handler pg w.st = (.ret (true, none), (handler pg w.st).2) := by rw [← hh]
  simp only [Pager.eachPageLoop, h]
  rw [e2]
  simp [hn]

/-- `AllPages` returns a page or an error, never both and never neither. -/
theorem afterWalk_not_both (sh : Shape) (pageType : PageType) (headers : List (String × String))
    (x : Option (Outcome (Option Error) × World AggState)) (page : Option Page)
    (err : Option Error) (tr2 : List Event)
    (h : afterWalk sh pageType headers x = some (.ret (page, err), tr2)) :
    (∃ body, page = some (newPage pageType body headers) ∧ err = none) ∨
      (page = none ∧ ∃ e, err = some e) := by
  unfold afterWalk at h
  split at h
  · simp at h
  · simp at h
  · simp only [Option.some.injEq, Prod.mk.injEq, Outcome.ret.injEq] at h
    exact Or.inr ⟨h.1.1.symm, _, h.1.2.symm⟩
  · split at h
    · simp only [Option.some.injEq, Prod.mk.injEq, Outcome.ret.injEq] at h
      exact Or.inl ⟨_, h.1.1.symm, h.1.2.symm⟩
    · split at h
      · simp at h
      · simp only [Option.some.injEq, Prod.mk.injEq, Outcome.ret.injEq] at h
        exact Or.inl ⟨_, h.1.1.symm, h.1.2.symm⟩
    · split at h
      · simp at h
      · simp only [Option.some.injEq, Prod.mk.injEq, Outcome.ret.injEq] at h
        exact Or.inl ⟨_, h.1.1.symm, h.1.2.symm⟩

/-- A first page of an unrecognized shape: the `default` case of the switch. -/
theorem AllPages_unrecognized (p : Pager) (tr : List Event) (pg : Page) (fuel : Nat)
    (hErr : p.Err = none)
    (hFetch : (p.fetchNextPage p.initialURL tr).1 = .ok pg)
    (hMulti : pg.pageType.hasSinglePageBase = false)
    (hShape : pg.GetBody.shape? = none) :
    p.AllPages fuel tr
      = some (.ret (none, some (.ErrUnexpectedType "map[string]any/[]byte/[]any"
          pg.GetBody.typeName)), tr ++ [Event.fetch p.initialURL]) := by
  simp only [Pager.AllPages, hErr, fetchNextPage_eq p p.initialURL tr _ hFetch, hMulti]
  cases hb : pg.GetBody <;> rw [hb] at hShape <;> simp [Any.shape?] at hShape <;> simp

/-- What a returning call of `AllPages` on a Pager without sticky error can give
back: the error of the first fetch, the first page itself when it is of a
single-page type, or else either a page built by `newPage` from the first page's
type and the Pager's headers, or an error and no page. -/
theorem AllPages_result_cases (p : Pager) (tr tr2 : List Event) (fuel : Nat)
    (page : Option Page) (err : Option Error)
    (hErr : p.Err = none)
    (hRun : p.AllPages fuel tr = some (.ret (page, err), tr2)) :
    (page = none ∧ ∃ e, err = some e) ∨
      ∃ pg, (p.fetchNextPage p.initialURL tr).1 = .ok pg ∧ err = none ∧
        ((pg.pageType.hasSinglePageBase = true ∧ page = some pg) ∨
          (pg.pageType.hasSinglePageBase = false ∧
            ∃ body, page = some (newPage pg.pageType body p.Headers))) := by
  cases hf : (p.fetchNextPage p.initialURL tr).1 with
  | error e =>
    simp only [Pager.AllPages, hErr, fetchNextPage_eq p p.initialURL tr _ hf, Option.some.injEq,
      Prod.mk.injEq, Outcome.ret.injEq] at hRun
    exact Or.inl ⟨hRun.1.1.symm, e, hRun.1.2.symm⟩
  | ok pg =>
    cases hs : pg.pageType.hasSinglePageBase with
    | true =>
      simp only [Pager.AllPages, hErr, fetchNextPage_eq p p.initialURL tr _ hf, hs, if_true,
        Option.some.injEq, Prod.mk.injEq, Outcome.ret.injEq] at hRun
      exact Or.inr ⟨pg, rfl, hRun.1.2.symm, Or.inl ⟨hs, hRun.1.1.symm⟩⟩
    | false =>
      cases hsh : pg.GetBody.shape? with
      | none =>
        rw [AllPages_unrecognized p tr pg fuel hErr hf hs hsh] at hRun
        simp only [Option.some.injEq, Prod.mk.injEq, Outcome.ret.injEq] at hRun
        exact Or.inl ⟨hRun.1.1.symm, _, hRun.1.2.symm⟩
      | some sh =>
        rw [AllPages_eq_afterWalk p tr pg sh fuel hErr hf hs hsh] at hRun
        rcases afterWalk_not_both sh _ _ _ page err tr2 hRun with ⟨body, h1, h2⟩ | h
        · exact Or.inr ⟨pg, rfl, h2, Or.inr ⟨hs, body, h1⟩⟩
        · exact Or.inl h

theorem feed_append (handler : Handler σ) :
    ∀ (a b : List Page) (s : σ),
      feed handler (a ++ b) s = feed handler b (feed handler a s) := by
  intro a
  induction a with
  | nil => intro b s; rfl
  | cons q a ih => intro b s; simp [feed, ih]

theorem combineBytes_guarded (bs : List (List UInt8)) :
    combineBytes
        (if (separated bs).length > 0 then (separated bs).take ((separated bs).length - 1)
         else separated bs) []
      = .ret (joinNewline bs) := by
  have hc := combineBytes_separated bs []
  by_cases hlen : (separated bs).length > 0
  · simp [hlen, hc]
  · cases bs with
    | nil => simp [separated, combineBytes, joinNewline]
    | cons b bs => simp [separated] at hlen

theorem exists_bytes_bodies :
    ∀ pages : List Page, (∀ q ∈ pages, q.GetBody.shape? = some Shape.bytes) →
      ∃ bs : List (List UInt8), pages.map Page.GetBody = bs.map Any.bytes := by
  intro pages
  induction pages with
  | nil => intro _; exact ⟨[], rfl⟩
  | cons q pages ih =>
    intro h
    obtain ⟨bs, hbs⟩ := ih (fun r hr => h r (List.mem_cons_of_mem _ hr))
    have hq := h q (List.mem_cons_self _ _)
    cases hb : q.GetBody <;> rw [hb] at hq <;> simp [Any.shape?] at hq
    rename_i b
    exact ⟨b :: bs, by simp [hb, hbs]⟩

/-- After a walk that returned `nil` having visited pages of one shape, the
merge succeeds, unless it is the merge of bare arrays and meets a nil element. -/
theorem afterWalk_of_pages (sh : Shape) (pageType : PageType)
    (headers : List (String × String)) (pages : List Page) (t : List Event)
    (hShape : ∀ q ∈ pages, q.GetBody.shape? = some sh)
    (hNoNil : ¬ HoldsNil sh pages) :
    ∃ page, afterWalk sh pageType headers
        (some (.ret none, ⟨t, feed sh.handler pages ⟨"", []⟩⟩))
      = some (.ret (some page, none), t) := by
  cases sh with
  | object => exact ⟨_, rfl⟩
  | slice =>
    have hn : Any.nil ∉ (pages.map (fun q => q.GetBody.elements)).flatten := by
      rw [mem_elements_flatten]
      exact fun h => hNoNil ⟨rfl, h⟩
    refine ⟨newPage pageType
      (.slice (pages.map (fun q => q.GetBody.elements)).flatten) headers, ?_⟩
    simp only [afterWalk, Shape.handler,
      feed_sliceHandler pages _ (fun q hq => slice_of_shape q (hShape q hq)), List.nil_append,
      setElements_of_not_mem _ hn]
  | bytes =>
    obtain ⟨bs, hbs⟩ := exists_bytes_bodies pages hShape
    refine ⟨newPage pageType (.bytes (joinNewline bs)) headers, ?_⟩
    simp only [afterWalk, Shape.handler, feed_bytesHandler pages bs _ hbs, List.nil_append,
      combineBytes_guarded]

/-- After a walk that returned `nil` having visited bare-array pages one of
which holds a nil element, the merge panics in `reflect.Value.Set`. -/
theorem afterWalk_holds_nil (sh : Shape) (pageType : PageType)
    (headers : List (String × String)) (pages : List Page) (t : List Event)
    (hShape : ∀ q ∈ pages, q.GetBody.shape? = some sh)
    (hNil : HoldsNil sh pages) :
    afterWalk sh pageType headers (some (.ret none, ⟨t, feed sh.handler pages ⟨"", []⟩⟩))
      = some (.panic "reflect: call of reflect.Value.Set on zero Value", t) := by
  obtain ⟨rfl, hq⟩ := hNil
  have hn : Any.nil ∈ (pages.map (fun q => q.GetBody.elements)).flatten :=
    (mem_elements_flatten pages).2 hq
  simp only [afterWalk, Shape.handler,
    feed_sliceHandler pages _ (fun q hq => slice_of_shape q (hShape q hq)), List.nil_append,
    setElements_of_mem _ hn]

/-- The first fetch of a served prefix yields its first page, or the page that
follows it when the prefix is empty. -/
theorem servesThen_first (p : Pager) (tr : List Event) (url : String) (pre : List Page)
    (last : Page) (h : ServesThen p tr url pre (.ok last)) :
    (p.fetchNextPage url tr).1 = .ok (pre.headD last) := by
  cases pre with
  | nil => exact h
  | cons q pre => exact h.1

/-- C11: on a Pager without sticky error, for a served chain of `N` non-empty
pages (the pages `pre` followed by `last`, `N = pre.length + 1`), all of one
recognized body shape and of a non-single-page type, the last one naming the
empty next URL, one call of `AllPages` comes to an end having issued exactly `N`
fetches: the initial URL, once, for the first page (which the walk takes from the
first-page cache instead of fetching it again) and then the next URL of every
page but the last, once each and in chain order; every page has been visited
once. The call returns a page without error, unless the pages are bare arrays
and one of them holds a nil element: then it panics, after the `N` fetches. -/
theorem aggregation_fetches_each_page_once (p : Pager) (tr : List Event) (pre : List Page)
    (last : Page) (sh : Shape) (fuel : Nat)
    (hErr : p.Err = none)
    (hServed : ServesThen p tr p.initialURL pre (.ok last))
    (hLast : last.IsEmpty = .ret (false, none))
    (hEnd : last.NextPageURL = .ret ("", none))
    (hShape : ∀ q ∈ pre ++ [last], q.GetBody.shape? = some sh)
    (hMulti : ∀ q ∈ pre ++ [last], q.pageType.hasSinglePageBase = false)
    (hFuel : pre.length < fuel) :
    ∃ out tr2, p.AllPages fuel tr = some (out, tr2) ∧
      fetches tr2 = fetches tr ++ p.initialURL :: pre.map Page.nextURL ∧
      (fetches tr2).length = (fetches tr).length + (pre.length + 1) ∧
      visits tr2 = visits tr ++ pre ++ [last] ∧
      (¬ HoldsNil sh (pre ++ [last]) → ∃ page, out = .ret (some page, none)) ∧
      (HoldsNil sh (pre ++ [last]) →
        out = .panic "reflect: call of reflect.Value.Set on zero Value") := by
  have hmem : pre.headD last ∈ pre ++ [last] := by cases pre <;> simp
  have hc : ContinuesOn sh.handler pre (⟨"", []⟩ : AggState) :=
    continuesOn_of_forall _ pre _
      (fun q hq t => shape_handler_continues sh q (hShape q (List.mem_append_left _ hq)) t)
  obtain ⟨h1, h2⟩ :=
    loop_advance p sh.handler _ pre p.initialURL ⟨tr, ⟨"", []⟩⟩ hServed hc
  have e : fuel = (fuel - pre.length - 1 + 1) + pre.length := by omega
  have hf := fetches_after_walk tr p.initialURL pre
  have hrun : p.AllPages fuel tr
      = afterWalk sh (pre.headD last).pageType p.Headers
          (some (.ret none,
            ⟨tr ++ walkEvents p.initialURL pre ++ [Event.fetch (lastURL p.initialURL pre)]
              ++ [Event.visit last], feed sh.handler (pre ++ [last]) ⟨"", []⟩⟩)) := by
    rw [AllPages_eq_afterWalk p tr _ sh fuel hErr (servesThen_first p tr _ pre last hServed)
      (hMulti _ hmem) (hShape _ hmem)]
    conv_lhs => rw [e]
    rw [h1, loop_fetch_ok p sh.handler _ _ "" _ last h2,
      loop_last p sh.handler _ _ _ last hLast
        (shape_handler_continues sh last (hShape last (by simp)) _) hEnd]
    rw [feed_append]
    rfl
  have hfetch : fetches (tr ++ walkEvents p.initialURL pre
      ++ [Event.fetch (lastURL p.initialURL pre)] ++ [Event.visit last])
      = fetches tr ++ p.initialURL :: pre.map Page.nextURL := by
    rw [fetches_append, hf]
    simp [fetches]
  have hvisit : visits (tr ++ walkEvents p.initialURL pre
      ++ [Event.fetch (lastURL p.initialURL pre)] ++ [Event.visit last])
      = visits tr ++ pre ++ [last] := by
    simp [visits_append, visits, visits_walkEvents]
  by_cases hN : HoldsNil sh (pre ++ [last])
  · refine ⟨_, _, ?_, hfetch, by rw [hfetch]; simp, hvisit, fun h => absurd hN h, fun _ => rfl⟩
    rw [hrun]
    exact afterWalk_holds_nil sh _ p.Headers (pre ++ [last]) _ hShape hN
  · obtain ⟨page, hpage⟩ := afterWalk_of_pages sh (pre.headD last).pageType p.Headers
      (pre ++ [last])
      (tr ++ walkEvents p.initialURL pre ++ [Event.fetch (lastURL p.initialURL pre)]
        ++ [Event.visit last]) hShape hN
    refine ⟨_, _, ?_, hfetch, by rw [hfetch]; simp, hvisit, fun _ => ⟨page, rfl⟩,
      fun h => absurd h hN⟩
    rw [hrun]
    exact hpage

/-- C11, at the three-page listing: three fetches, one for each page. -/
theorem aggregation_fetches_each_page_once_witness :
    ∃ page tr2, lettersPager.AllPages 3 [] = some (.ret (some page, none), tr2) ∧
      fetches tr2 = ["/p1", "/p2", "/p3"] ∧ (visits tr2).length = 3 := by
  obtain ⟨out, tr2, h1, h2, -, h4, h5, -⟩ := aggregation_fetches_each_page_once lettersPager []
    [examplePage (exampleResult (.slice [.string "a"]) "/p2"),
     examplePage (exampleResult (.slice [.string "b"]) "/p3")]
    (examplePage (exampleResult (.slice [.string "c"]) "")) Shape.slice 3 rfl
    ⟨rfl, rfl, "/p2", rfl, by decide, rfl, rfl, "/p3", rfl, by decide, rfl⟩ rfl rfl
    (by
      intro q hq
      simp only [List.cons_append, List.nil_append, List.mem_cons, List.mem_singleton,
        List.not_mem_nil, or_false] at hq
      rcases hq with rfl | rfl | rfl <;> rfl)
    (by
      intro q hq
      simp only [List.cons_append, List.nil_append, List.mem_cons, List.mem_singleton,
        List.not_mem_nil, or_false] at hq
      rcases hq with rfl | rfl | rfl <;> rfl)
    (by decide)
  obtain ⟨page, rfl⟩ := h5 (by
    rintro ⟨-, q, hq, hm⟩
    simp only [List.cons_append, List.nil_append, List.mem_cons, List.mem_singleton,
      List.not_mem_nil, or_false] at hq
    rcases hq with rfl | rfl | rfl <;>
      simp [Page.GetBody, examplePage, exampleResult, Any.elements] at hm)
  exact ⟨page, tr2, h1, h2, by rw [h4]; rfl⟩

/-- The walk behind `AllPages` in the branch of shape `sh` ends with the error
of a failing step that follows a served prefix of pages of that shape. -/
theorem loop_step_fails (p : Pager) (sh : Shape) (e : Error) (visited : List Page)
    (r : Except Error Page) (url : String) (w : World AggState) (fuel : Nat)
    (hServed : ServesThen p w.trace url visited r)
    (hShape : ∀ q ∈ visited, q.GetBody.shape? = some sh)
    (hFails : StepFails sh e r)
    (hFuel : visited.length < fuel) :
    ∃ w2, p.eachPageLoop sh.handler fuel none url w = some (.ret (some e), w2) := by
  have hc : ContinuesOn sh.handler visited w.st :=
    continuesOn_of_forall _ visited _ (fun q hq t => shape_handler_continues sh q (hShape q hq) t)
  obtain ⟨h1, h2⟩ := loop_advance p sh.handler r visited url w hServed hc
  have e2 : fuel = (fuel - visited.length - 1 + 1) + visited.length := by omega
  rw [e2, h1]
  cases r with
  | error err =>
    simp only [StepFails] at hFails
    subst hFails
    exact ⟨_, loop_fetch_error p sh.handler _ _ _ err h2⟩
  | ok pg =>
    rw [loop_fetch_ok p sh.handler _ _ "" _ pg h2]
    rcases hFails with ⟨b, hb⟩ | ⟨hne, hsh, next, hn⟩
    · exact ⟨_, loop_isEmpty_error p sh.handler _ _ _ pg b e hb⟩
    · exact ⟨_, loop_next_error p sh.handler _ _ next _ pg e hne
        (shape_handler_continues sh pg hsh _) hn⟩

/-- C17: on a Pager without sticky error whose first page is of a
non-single-page type and has a body of the recognized shape `sh`, if after a
served prefix `visited` of the listing, whose pages the visitor of that shape
accepts, a step of the walk fails with `e` (the fetch of the next page fails; or
`IsEmpty` of the page fetched next, whatever its type and body, returns the
error; or that page is non-empty, of shape `sh`, and its `NextPageURL` returns
the error), `AllPages` returns no page together with exactly `e`, whatever has
been accumulated from `visited`; and whatever a call of `AllPages` on this Pager
returns, it is either a page without error or an error without page. -/
theorem walk_failure_aborts_aggregation (p : Pager) (tr : List Event) (visited : List Page)
    (r : Except Error Page) (sh : Shape) (e : Error) (fuel : Nat)
    (hErr : p.Err = none)
    (hServed : ServesThen p tr p.initialURL visited r)
    (hFirst : ∀ pg, (p.fetchNextPage p.initialURL tr).1 = .ok pg →
      pg.pageType.hasSinglePageBase = false ∧ pg.GetBody.shape? = some sh)
    (hShape : ∀ q ∈ visited, q.GetBody.shape? = some sh)
    (hFails : StepFails sh e r)
    (hFuel : visited.length < fuel) :
    (∃ tr2, p.AllPages fuel tr = some (.ret (none, some e), tr2)) ∧
      ∀ fuel0 tr0 tr3 page err, p.AllPages fuel0 tr0 = some (.ret (page, err), tr3) →
        (page = none ∧ err ≠ none) ∨ (page ≠ none ∧ err = none) := by
  refine ⟨?_, ?_⟩
  · obtain ⟨w2, hw⟩ :=
      loop_step_fails p sh e visited r p.initialURL ⟨tr, ⟨"", []⟩⟩ fuel hServed hShape hFails
        hFuel
    have hfirst : ∀ pg, (p.fetchNextPage p.initialURL tr).1 = .ok pg →
        ∃ tr2, p.AllPages fuel tr = some (.ret (none, some e), tr2) := by
      intro pg hf
      obtain ⟨hm, hs⟩ := hFirst pg hf
      exact ⟨w2.trace, by rw [AllPages_eq_afterWalk p tr pg sh fuel hErr hf hm hs, hw]; rfl⟩
    cases visited with
    | cons q rest => exact hfirst q hServed.1
    | nil =>
      cases r with
      | ok pg => exact hfirst pg hServed
      | error err =>
        simp only [StepFails] at hFails
        subst hFails
        exact ⟨tr ++ [Event.fetch p.initialURL], by
          simp only [Pager.AllPages, hErr, fetchNextPage_eq p p.initialURL tr _ hServed]⟩
  · intro fuel0 tr0 tr3 page err h
    rcases AllPages_result_cases p tr0 tr3 fuel0 page err hErr h with ⟨h1, e2, h2⟩ |
      ⟨pg, -, h2, ⟨-, h3⟩ | ⟨-, body, h3⟩⟩
    · exact Or.inl ⟨h1, by simp [h2]⟩
    · exact Or.inr ⟨by simp [h3], h2⟩
    · exact Or.inr ⟨by simp [h3], h2⟩

/-- C17, at the listing whose second fetch fails, and at the listing whose
second page is a JSON string on which `IsEmpty` fails: the page already visited
is dropped and the error comes back alone. -/
theorem walk_failure_aborts_aggregation_witness :
    (∃ tr2, brokenPager.AllPages 2 []
        = some (.ret (none, some (.errorString "404")), tr2)) ∧
      ∃ tr2, garbledPager.AllPages 2 []
        = some (.ret (none, some (.errorString "unexpected body")), tr2) := by
  constructor
  · exact (walk_failure_aborts_aggregation brokenPager []
      [examplePage (exampleResult (.slice [.string "a"]) "/p2")] (.error (.errorString "404"))
      Shape.slice (.errorString "404") 2 rfl ⟨rfl, rfl, "/p2", rfl, by decide, rfl⟩
      (by
        intro pg hf
        have e1 : pg = examplePage (exampleResult (.slice [.string "a"]) "/p2") :=
          (Except.ok.inj hf).symm
        subst e1
        exact ⟨rfl, rfl⟩)
      (by intro q hq; simp only [List.mem_singleton] at hq; subst hq; rfl)
      rfl (by decide)).1
  · exact (walk_failure_aborts_aggregation garbledPager []
      [⟨checkedPageType, ⟨exampleResult (.slice [.string "a"]) "/g?2", Any.nil⟩⟩]
      (.ok ⟨checkedPageType, ⟨exampleResult (.string "oops") "", Any.nil⟩⟩)
      Shape.slice (.errorString "unexpected body") 2 rfl
      ⟨rfl, rfl, "/g?2", rfl, by decide, rfl⟩
      (by
        intro pg hf
        have e1 : pg = ⟨checkedPageType, ⟨exampleResult (.slice [.string "a"]) "/g?2",
            Any.nil⟩⟩ := (Except.ok.inj hf).symm
        subst e1
        exact ⟨rfl, rfl⟩)
      (by intro q hq; simp only [List.mem_singleton] at hq; subst hq; rfl)
      (Or.inl ⟨false, rfl⟩) (by decide)).1

/-- C14, as amended: on a Pager without sticky error whose first fetched page
reports `IsEmpty` = `(true, nil)` and is of a single-page type or has a body of
one of the three recognized shapes, `AllPages` returns a page and no error; the
fetch of that page is the only event of the call, the visitor is never run. -/
theorem empty_listing_aggregates (p : Pager) (tr : List Event) (pg : Page) (fuel : Nat)
    (hErr : p.Err = none)
    (hFetch : (p.fetchNextPage p.initialURL tr).1 = .ok pg)
    (hEmpty : pg.IsEmpty = .ret (true, none))
    (hKnown : pg.pageType.hasSinglePageBase = true ∨ ∃ sh, pg.GetBody.shape? = some sh)
    (hFuel : 0 < fuel) :
    ∃ page, p.AllPages fuel tr
      = some (.ret (some page, none), tr ++ [Event.fetch p.initialURL]) := by
  cases hs : pg.pageType.hasSinglePageBase with
  | true =>
    exact ⟨pg, by simp [Pager.AllPages, hErr, fetchNextPage_eq p _ tr _ hFetch, hs]⟩
  | false =>
    rcases hKnown with h | ⟨sh, hsh⟩
    · rw [hs] at h; cases h
    · obtain ⟨n, rfl⟩ : ∃ n, fuel = n + 1 := ⟨fuel - 1, by omega⟩
      obtain ⟨page, hpage⟩ := afterWalk_of_pages sh pg.pageType p.Headers []
        (tr ++ [Event.fetch p.initialURL]) (by simp)
        (by rintro ⟨-, q, hq, -⟩; simp at hq)
      refine ⟨page, ?_⟩
      rw [AllPages_eq_afterWalk p tr pg sh _ hErr hFetch hs hsh,
        loop_fetch_ok p sh.handler _ _ "" _ pg hFetch, loop_empty p sh.handler n _ _ pg hEmpty]
      exact hpage

/-- C14, as amended, at the keyed-object listing whose first page is empty. -/
theorem empty_listing_aggregates_witness :
    ∃ page, noItemsPager.AllPages 1 [] = some (.ret (some page, none), [Event.fetch "/items"]) :=
  empty_listing_aggregates noItemsPager []
    (examplePage (exampleResult (.object [("items", .slice [])]) "")) 1 rfl rfl rfl
    (Or.inr ⟨Shape.object, rfl⟩) (by decide)

/-- C14 as stated fails: the first page of this container listing reports
`IsEmpty` = `(true, nil)` (status 204), its body is `nil`, of no recognized
shape, and `AllPages` returns the unexpected-type error instead of a page. -/
theorem empty_page_of_unknown_shape_fails :
    (∃ pg, (noContentPager.fetchNextPage "/v1/acct" []).1 = .ok pg ∧
        pg.IsEmpty = .ret (true, none) ∧ pg.GetBody = Any.nil) ∧
      noContentPager.AllPages 1 []
        = some (.ret (none, some (.ErrUnexpectedType "map[string]any/[]byte/[]any" "<nil>")),
            [Event.fetch "/v1/acct"]) :=
  ⟨⟨_, rfl, rfl, rfl⟩, rfl⟩

/-! ## Names in text listings -/

theorem Split_ne_nil (sep : UInt8) : ∀ s : List UInt8, strings.Split sep s ≠ [] := by
  intro s
  induction s with
  | nil => simp [strings.Split]
  | cons c cs ih =>
    unfold strings.Split
    by_cases h : c = sep
    · simp [h]
    · simp only [h, if_false]
      cases hs : strings.Split sep cs with
      | nil => simp
      | cons seg segs => simp

/-- Splitting at a separator splits the two sides independently. -/
theorem Split_append_sep (sep : UInt8) (b : List UInt8) :
    ∀ a : List UInt8,
      strings.Split sep (a ++ sep :: b) = strings.Split sep a ++ strings.Split sep b := by
  intro a
  induction a with
  | nil => simp [strings.Split]
  | cons c cs ih =>
    by_cases h : c = sep
    · simp [strings.Split, h, ih]
    · have e : ∀ t : List UInt8, strings.Split sep (c :: t)
          = match strings.Split sep t with
            | [] => [[c]]
            | seg :: segs => (c :: seg) :: segs := by
        intro t
        simp [strings.Split, h]
      rw [List.cons_append, e, e, ih]
      cases hs : strings.Split sep cs with
      | nil => exact absurd hs (Split_ne_nil sep cs)
      | cons seg segs => simp

theorem Split_segments (sep : UInt8) :
    ∀ (s : List UInt8), ∀ seg ∈ strings.Split sep s, sep ∉ seg := by
  intro s
  induction s with
  | nil => simp [strings.Split]
  | cons c cs ih =>
    intro seg hseg
    unfold strings.Split at hseg
    by_cases h : c = sep
    · simp only [h, if_true, List.mem_cons] at hseg
      rcases hseg with rfl | hseg
      · simp
      · exact ih seg hseg
    · simp only [h, if_false] at hseg
      cases hs : strings.Split sep cs with
      | nil => exact absurd hs (Split_ne_nil sep cs)
      | cons seg0 segs =>
        rw [hs] at hseg ih
        simp only [List.mem_cons] at hseg
        rcases hseg with rfl | hseg
        · intro hmem
          simp only [List.mem_cons] at hmem
          rcases hmem with hm | hm
          · exact h hm.symm
          · exact ih seg0 (List.mem_cons_self _ _) hm
        · exact ih seg (List.mem_cons_of_mem _ hseg)

theorem Split_of_not_mem (sep : UInt8) :
    ∀ (s : List UInt8), sep ∉ s → strings.Split sep s = [s] := by
  intro s
  induction s with
  | nil => intro _; rfl
  | cons c cs ih =>
    intro h
    simp only [List.mem_cons, not_or] at h
    have hc : ¬ c = sep := fun e => h.1 e.symm
    simp [strings.Split, hc, ih h.2]

theorem textNames_append_newline (a b : List UInt8) :
    textNames (a ++ 10 :: b) = textNames a ++ textNames b := by
  simp [textNames, Split_append_sep]

/-- Names are transparent to the join of `AllPages`. -/
theorem textNames_joinNewline :
    ∀ bs : List (List UInt8), textNames (joinNewline bs) = (bs.map textNames).flatten := by
  intro bs
  induction bs with
  | nil => simp [joinNewline, textNames, strings.Split]
  | cons b bs ih =>
    cases bs with
    | nil => simp [joinNewline]
    | cons c bs =>
      simp only [joinNewline, List.append_assoc, List.singleton_append,
        textNames_append_newline, ih]
      simp

/-- A name of a text listing is not empty and holds no newline. -/
theorem textNames_spec (body name : List UInt8) (h : name ∈ textNames body) :
    name ≠ [] ∧ (10 : UInt8) ∉ name := by
  simp only [textNames, List.mem_filter, decide_eq_true_eq] at h
  refine ⟨?_, Split_segments 10 body name h.1⟩
  intro e
  rw [e] at h
  simp at h

theorem textNames_renderNames :
    ∀ names : List (List UInt8), (∀ name ∈ names, name ≠ [] ∧ (10 : UInt8) ∉ name) →
      textNames (renderNames names) = names := by
  intro names
  induction names with
  | nil => intro _; simp [renderNames, textNames, strings.Split]
  | cons n names ih =>
    intro h
    obtain ⟨hne, hnl⟩ := h n (List.mem_cons_self _ _)
    have hn : textNames n = [n] := by
      simp only [textNames, Split_of_not_mem 10 n hnl]
      cases n with
      | nil => exact absurd rfl hne
      | cons c cs => simp
    have hr : renderNames (n :: names) = n ++ 10 :: renderNames names := by
      simp [renderNames]
    rw [hr, textNames_append_newline, hn, ih (fun m hm => h m (List.mem_cons_of_mem _ hm))]
    rfl

theorem not_json_of_text (ct : String)
    (h : ct = "" ∨ strings.HasPrefix ct "text/plain" = true) :
    strings.HasPrefix ct "application/json" = false := by
  rcases h with rfl | h
  · rfl
  · have e1 : "text/plain".data = ['t', 'e', 'x', 't', '/', 'p', 'l', 'a', 'i', 'n'] := rfl
    have e2 : "application/json".data
        = ['a', 'p', 'p', 'l', 'i', 'c', 'a', 't', 'i', 'o', 'n', '/', 'j', 's', 'o', 'n'] := rfl
    simp only [strings.HasPrefix, e1, e2] at h ⊢
    cases hd : ct.data with
    | nil => rw [hd] at h; simp [List.isPrefixOf] at h
    | cons c cs =>
      rw [hd] at h
      simp only [List.isPrefixOf, Bool.and_eq_true, beq_iff_eq] at h
      simp [List.isPrefixOf, ← h.1]

/-- `ExtractNames` on a page with a byte-stream body whose `Content-Type` is
absent or begins with `text/plain`. -/
theorem ExtractNames_text (extractInto : PageData → List Container × Option Error)
    (page : ContainerPage) (body : List UInt8)
    (hBody : page.MarkerPageBase.PageResult.Body = .bytes body)
    (hText : Header.Get page.MarkerPageBase.PageResult.Header "Content-Type" = "" ∨
      strings.HasPrefix (Header.Get page.MarkerPageBase.PageResult.Header "Content-Type")
        "text/plain" = true) :
    ExtractNames extractInto page = .ret (textNames body, none) := by
  have hj := not_json_of_text _ hText
  unfold ExtractNames
  simp only [hj, Bool.false_eq_true, if_false, hBody]
  rcases hText with h | h
  · simp [h, textNames]
  · simp [h, textNames]

/-- C20: for a served chain of byte-stream pages of a non-single-page type whose
visited (non-empty) pages have the bodies `b1`, ..., `bn`, on a Pager whose
configured `Content-Type` header is absent or begins with `text/plain`,
`AllPages` returns a page from which `ExtractNames` extracts, without error,
exactly the names of `b1`, then those of `b2`, ..., then those of `bn`, where the
names of a body are what `ExtractNames` yields for a page holding that body alone
(its non-empty lines); these are also the names `ExtractNames` yields for the
single response that lists all of them, one on a line. -/
theorem names_of_aggregate (p : Pager) (tr : List Event) (pg : Page) (rest : List Page)
    (b0 : List UInt8) (bs : List (List UInt8)) (fuel : Nat)
    (extractInto : PageData → List Container × Option Error)
    (hErr : p.Err = none)
    (hChain : ServesChain p tr p.initialURL (pg :: rest))
    (hMulti : pg.pageType.hasSinglePageBase = false)
    (hFirst : pg.GetBody = .bytes b0)
    (hBodies : ((pg :: rest).filter Page.nonEmpty).map Page.GetBody = bs.map Any.bytes)
    (hText : Header.Get (buildHeader p.Headers) "Content-Type" = "" ∨
      strings.HasPrefix (Header.Get (buildHeader p.Headers) "Content-Type") "text/plain" = true)
    (hFuel : rest.length < fuel) :
    ∃ page tr2, p.AllPages fuel tr = some (.ret (some page, none), tr2) ∧
      ExtractNames extractInto ⟨page.data⟩ = .ret ((bs.map textNames).flatten, none) ∧
      (∀ b status extra,
        ExtractNames extractInto ⟨⟨⟨.bytes b, buildHeader p.Headers, status⟩, extra⟩⟩
          = .ret (textNames b, none)) ∧
      ExtractNames extractInto
          ⟨⟨⟨.bytes (renderNames (bs.map textNames).flatten), buildHeader p.Headers, 200⟩,
            Any.nil⟩⟩
        = .ret ((bs.map textNames).flatten, none) := by
  obtain ⟨tr2, h⟩ := bytes_branch_chain p tr pg rest b0 bs fuel hErr hChain hMulti hFirst
    hBodies hFuel
  have hone : ∀ b status extra, ExtractNames extractInto
      ⟨⟨⟨.bytes b, buildHeader p.Headers, status⟩, extra⟩⟩ = .ret (textNames b, none) :=
    fun b status extra => ExtractNames_text extractInto _ b rfl hText
  refine ⟨_, tr2, h, ?_, hone, ?_⟩
  · rw [← textNames_joinNewline bs]
    exact ExtractNames_text extractInto _ (joinNewline bs) rfl hText
  · rw [hone]
    congr 2
    apply textNames_renderNames
    intro name hname
    obtain ⟨l, hl, hn⟩ := List.mem_flatten.1 hname
    obtain ⟨b, -, rfl⟩ := List.mem_map.1 hl
    exact textNames_spec b name hn

/-- C20, at the two-page listing `name1`, `name2`: the aggregate yields the two
names, as each page alone yields its own. -/
theorem names_of_aggregate_witness :
    ∃ page tr2, namesPager.AllPages 2 [] = some (.ret (some page, none), tr2) ∧
      ExtractNames (fun _ => ([], none)) ⟨page.data⟩
        = .ret ([ascii "name1", ascii "name2"], none) := by
  obtain ⟨page, tr2, h1, h2, -, -⟩ := names_of_aggregate namesPager []
    (examplePage (exampleResult (.bytes (ascii "name1\n")) "/c?marker=name1"))
    [examplePage (exampleResult (.bytes (ascii "name2\n")) "")] (ascii "name1\n")
    [ascii "name1\n", ascii "name2\n"] 2 (fun _ => ([], none)) rfl
    ⟨rfl, rfl, "/c?marker=name1", rfl, by decide, rfl, Or.inr ⟨rfl, rfl⟩⟩ rfl rfl rfl
    (Or.inl rfl) (by decide)
  have e : ([ascii "name1\n", ascii "name2\n"].map textNames).flatten
      = [ascii "name1", ascii "name2"] := by decide
  exact ⟨page, tr2, h1, by rw [h2, e]⟩

/-! ## The headers of the aggregate page -/

theorem headerValues_headerAppend (key k v : String) :
    ∀ h : Header, headerValues key (headerAppend k v h)
      = if k = key then headerValues key h ++ [v] else headerValues key h := by
  intro h
  induction h with
  | nil => by_cases e : k = key <;> simp [headerAppend, headerValues, e]
  | cons kv h ih =>
    obtain ⟨k0, vs⟩ := kv
    by_cases e0 : k0 = k
    · subst e0
      by_cases e : k0 = key <;> simp [headerAppend, headerValues, e]
    · by_cases e : k = key
      · subst e
        simp [headerAppend, headerValues, e0, ih]
      · by_cases e1 : k0 = key
        · subst e1
          simp [headerAppend, headerValues, e0, e]
        · simp [headerAppend, headerValues, e0, e, e1, ih]

theorem keys_headerAppend (k v : String) :
    ∀ h : Header, (headerAppend k v h).map Prod.fst
      = if k ∈ h.map Prod.fst then h.map Prod.fst else h.map Prod.fst ++ [k] := by
  intro h
  induction h with
  | nil => simp [headerAppend]
  | cons kv h ih =>
    obtain ⟨k0, vs⟩ := kv
    by_cases e0 : k0 = k
    · subst e0
      simp [headerAppend]
    · have e1 : ¬ k = k0 := fun e => e0 e.symm
      simp only [headerAppend, e0, if_false, List.map_cons, ih, List.mem_cons, e1, false_or]
      by_cases hm : k ∈ h.map Prod.fst <;> simp [hm]

theorem nodup_headerAppend (k v : String) (h : Header) (hn : (h.map Prod.fst).Nodup) :
    ((headerAppend k v h).map Prod.fst).Nodup := by
  rw [keys_headerAppend]
  by_cases hm : k ∈ h.map Prod.fst
  · simpa [hm] using hn
  · simp only [hm, if_false]
    exact List.Nodup.append hn (List.nodup_singleton k) (by simpa using hm)

theorem values_headerAppend (k v : String) :
    ∀ h : Header, (∀ kv ∈ h, kv.2 ≠ []) → ∀ kv ∈ headerAppend k v h, kv.2 ≠ [] := by
  intro h
  induction h with
  | nil => intro _ kv hkv; simp [headerAppend] at hkv; simp [hkv]
  | cons kv0 h ih =>
    obtain ⟨k0, vs⟩ := kv0
    intro hall kv hkv
    by_cases e0 : k0 = k
    · simp only [headerAppend, e0, if_true, List.mem_cons] at hkv
      rcases hkv with rfl | hkv
      · simp
      · exact hall kv (List.mem_cons_of_mem _ hkv)
    · simp only [headerAppend, e0, if_false, List.mem_cons] at hkv
      rcases hkv with rfl | hkv
      · exact hall _ (List.mem_cons_self _ _)
      · exact ih (fun x hx => hall x (List.mem_cons_of_mem _ hx)) kv hkv

/-- The header map built from the configured headers `headers` on top of `h0`. -/
theorem foldl_headerAdd (headers : List (String × String)) :
    ∀ h0 : Header, (h0.map Prod.fst).Nodup → (∀ kv ∈ h0, kv.2 ≠ []) →
      (∀ key, headerValues key (headers.foldl (fun h kv => Header.Add h kv.1 kv.2) h0)
        = headerValues key h0
          ++ (headers.filter (fun kv => CanonicalMIMEHeaderKey kv.1 = key)).map Prod.snd) ∧
      ((headers.foldl (fun h kv => Header.Add h kv.1 kv.2) h0).map Prod.fst).Nodup ∧
      ∀ kv ∈ headers.foldl (fun h kv => Header.Add h kv.1 kv.2) h0, kv.2 ≠ [] := by
  induction headers with
  | nil => intro h0 hn hv; exact ⟨fun key => by simp, hn, hv⟩
  | cons kv headers ih =>
    intro h0 hn hv
    obtain ⟨i1, i2, i3⟩ := ih (Header.Add h0 kv.1 kv.2) (nodup_headerAppend _ _ h0 hn)
      (values_headerAppend _ _ h0 hv)
    refine ⟨fun key => ?_, i2, i3⟩
    rw [List.foldl_cons, i1 key]
    simp only [Header.Add, headerValues_headerAppend]
    by_cases e : CanonicalMIMEHeaderKey kv.1 = key <;> simp [List.filter_cons, e]

/-- Among configured headers with distinct names, the one name whose canonical
form is `k` selects its own value. -/
theorem filter_canonical_single (k v : String) :
    ∀ headers : List (String × String), (headers.map Prod.fst).Nodup → (k, v) ∈ headers →
      (∀ kv ∈ headers, CanonicalMIMEHeaderKey kv.1 = k ↔ kv.1 = k) →
      (headers.filter (fun kv => CanonicalMIMEHeaderKey kv.1 = k)).map Prod.snd = [v] := by
  intro headers
  induction headers with
  | nil => intro _ hm _; simp at hm
  | cons kv headers ih =>
    intro hn hm hc
    simp only [List.map_cons, List.nodup_cons] at hn
    simp only [List.mem_cons] at hm
    have hrest : ∀ x ∈ headers, CanonicalMIMEHeaderKey x.1 = k ↔ x.1 = k :=
      fun x hx => hc x (List.mem_cons_of_mem _ hx)
    rcases hm with rfl | hm
    · have h0 : CanonicalMIMEHeaderKey k = k := (hc (k, v) (List.mem_cons_self _ _)).2 rfl
      have hnone : headers.filter (fun kv => CanonicalMIMEHeaderKey kv.1 = k) = [] := by
        rw [List.filter_eq_nil_iff]
        intro x hx hp
        simp only [decide_eq_true_eq] at hp
        exact hn.1 (List.mem_map.2 ⟨x, hx, (hrest x hx).1 hp⟩)
      simp [List.filter_cons, h0, hnone]
    · have hne : ¬ CanonicalMIMEHeaderKey kv.1 = k := by
        intro hp
        have e : kv.1 = k := (hc kv (List.mem_cons_self _ _)).1 hp
        exact hn.1 (List.mem_map.2 ⟨(k, v), hm, e.symm⟩)
      simp only [List.filter_cons, hne, decide_False, Bool.false_eq_true, if_false]
      exact ih hn.2 hm hrest

/-- C12, as amended: when `AllPages` on a Pager without sticky error, whose
first page is not of a single-page type, returns a page, the header map of that
page is determined by the Pager's configured extra headers alone: under every key
it stores exactly the configured values of the headers whose name has that key as
its canonical MIME form, in the order the headers are ranged over; no key occurs
twice and no key has an empty list; so a configured header whose name is
canonical and is the canonical form of no other configured name is stored under
its own name with its one configured value, no header of a fetched page is kept,
and with no extra headers configured the header map is empty. -/
theorem aggregate_headers_from_pager (p : Pager) (tr tr2 : List Event) (pg page : Page)
    (fuel : Nat)
    (hErr : p.Err = none)
    (hFetch : (p.fetchNextPage p.initialURL tr).1 = .ok pg)
    (hMulti : pg.pageType.hasSinglePageBase = false)
    (hRun : p.AllPages fuel tr = some (.ret (some page, none), tr2)) :
    (∀ key, headerValues key page.data.PageResult.Header
        = (p.Headers.filter (fun kv => CanonicalMIMEHeaderKey kv.1 = key)).map Prod.snd) ∧
      (page.data.PageResult.Header.map Prod.fst).Nodup ∧
      (∀ kv ∈ page.data.PageResult.Header, kv.2 ≠ []) ∧
      (∀ k v, (p.Headers.map Prod.fst).Nodup → (k, v) ∈ p.Headers →
        (∀ kv ∈ p.Headers, CanonicalMIMEHeaderKey kv.1 = k ↔ kv.1 = k) →
        headerValues k page.data.PageResult.Header = [v]) ∧
      (p.Headers = [] → page.data.PageResult.Header = []) := by
  have hH : page.data.PageResult.Header = buildHeader p.Headers := by
    rcases AllPages_result_cases p tr tr2 fuel (some page) none hErr hRun with ⟨h, -⟩ |
      ⟨pg2, hf, -, ⟨hs, -⟩ | ⟨-, body, hb⟩⟩
    · cases h
    · rw [hFetch] at hf
      cases hf
      rw [hMulti] at hs
      cases hs
    · cases hb
      rfl
  obtain ⟨i1, i2, i3⟩ := foldl_headerAdd p.Headers [] (by simp) (by simp)
  rw [hH]
  refine ⟨fun key => by simpa [headerValues] using i1 key, i2, i3, ?_, ?_⟩
  · intro k v hn hm hc
    have := i1 k
    simp only [headerValues, List.nil_append] at this
    exact this.trans (filter_canonical_single k v p.Headers hn hm hc)
  · intro h
    rw [h]
    rfl

/-- C12, as amended, at the listing walked with an `Accept` header configured:
the aggregate page carries that header and not the `Next` header of the fetched
pages. -/
theorem aggregate_headers_from_pager_witness :
    ∃ page tr2, acceptPager.AllPages 2 [] = some (.ret (some page, none), tr2) ∧
      headerValues "Accept" page.data.PageResult.Header = ["text/plain"] ∧
      headerValues "Next" page.data.PageResult.Header = [] := by
  have e : acceptPager.AllPages 2 []
      = some (.ret (some (newPage examplePageType (.bytes (ascii "name1\n\nname2\n"))
          [("Accept", "text/plain")]), none),
          [Event.fetch "/c",
            Event.visit (examplePage (exampleResult (.bytes (ascii "name1\n")) "/c?marker=name1")),
            Event.fetch "/c?marker=name1",
            Event.visit (examplePage (exampleResult (.bytes (ascii "name2\n")) ""))]) := rfl
  obtain ⟨h1, -, -, -, -⟩ := aggregate_headers_from_pager acceptPager [] _
    (examplePage (exampleResult (.bytes (ascii "name1\n")) "/c?marker=name1")) _ 2 rfl rfl rfl e
  exact ⟨_, _, e, by rw [h1]; decide, by rw [h1]; decide⟩

/-- C12 as stated fails: with the two configured headers `content-type` and
`Content-Type` the header map of the aggregate page has the single key
`Content-Type`, which carries both values; the configured key `content-type` is
not in the map. -/
theorem aggregate_headers_are_canonicalized :
    ∃ page tr2, mixedCasePager.AllPages 2 [] = some (.ret (some page, none), tr2) ∧
      page.data.PageResult.Header = [("Content-Type", ["text/plain", "application/json"])] ∧
      headerValues "content-type" page.data.PageResult.Header = [] ∧
      headerValues "Content-Type" page.data.PageResult.Header ≠ ["application/json"] := by
  refine ⟨_, _, rfl, by decide, by decide, by decide⟩

/-! ## The shape of the aggregate body -/

/-- C21, the keyed-object branch evaluated: the first page of the example
listing is a `map[string]any` and selects the first case of the type switch,
the body `AllPages` returns for it is a `map[string][]any`, which selects the
`default` case; the comment in the source announces a `map[string]any`. -/
theorem keyed_object_aggregate_changes_type :
    ∃ pg page tr2, (itemsPager.fetchNextPage "/items" []).1 = .ok pg ∧
      pg.GetBody.shape? = some Shape.object ∧
      itemsPager.AllPages 3 [] = some (.ret (some page, none), tr2) ∧
      page.GetBody = .objectOfSlices [("items", [.string "a", .string "b", .string "c"])] ∧
      page.GetBody.typeName = "map[string][]interface \x7b\x7d" ∧
      page.GetBody.shape? = none :=
  ⟨_, _, _, rfl, rfl, rfl, rfl, rfl, rfl⟩

/-! ## The next-page URL is computed after the visit -/

/-- C25, as amended: on a fresh Pager without sticky error, when the pages
`pre` have been served and visited (the visitor continuing on each), the page
`pg` fetched next is non-empty, the visitor continues on it and its
`NextPageURL` returns the error `e`, `EachPage` returns exactly `e`; the page has
been handed to the visitor before, as the last one, and nothing is fetched after
it. -/
theorem next_url_error_after_visit (p : Pager) (handler : Handler σ) (w : World σ)
    (pre : List Page) (pg : Page) (url : String) (e : Error) (fuel : Nat)
    (hErr : p.Err = none) (hFresh : p.firstPage = none)
    (hServed : ServesThen p w.trace p.initialURL pre (.ok pg))
    (hCont : ContinuesOn handler pre w.st)
    (hNonEmpty : pg.IsEmpty = .ret (false, none))
    (hVisit : (handler pg (feed handler pre w.st)).1 = .ret (true, none))
    (hNext : pg.NextPageURL = .ret (url, some e))
    (hFuel : pre.length < fuel) :
    ∃ w2 : World σ, p.EachPage fuel handler w = some (.ret (some e), w2) ∧
      visits w2.trace = visits w.trace ++ pre ++ [pg] ∧
      fetches w2.trace = fetches w.trace ++ p.initialURL :: pre.map Page.nextURL ∧
      w2.st = feed handler (pre ++ [pg]) w.st := by
  obtain ⟨n, h1, h2⟩ := EachPage_arrive p handler w pre _ fuel hErr hFresh hServed hCont hFuel
  refine ⟨⟨w.trace ++ walkEvents p.initialURL pre ++ [Event.fetch (lastURL p.initialURL pre)]
    ++ [Event.visit pg], (handler pg (feed handler pre w.st)).2⟩, ?_, ?_, ?_, ?_⟩
  · rw [h1, loop_fetch_ok p handler _ _ "" _ pg h2,
      loop_next_error p handler n _ url _ pg e hNonEmpty hVisit hNext]
  · simp [visits_append, visits, visits_walkEvents]
  · rw [fetches_append, fetches_after_walk]
    simp [fetches]
  · rw [feed_append]
    rfl

/-- C25, as amended, at the listing with malformed links: the error comes back
and the visitor has counted one page. -/
theorem next_url_error_after_visit_witness :
    ∃ w2 : World Nat,
      malformedLinksPager.EachPage 1 countingHandler ⟨[], 0⟩
        = some (.ret (some (.errorString "malformed links")), w2) ∧
      (visits w2.trace).length = 1 ∧ fetches w2.trace = ["/servers"] ∧ w2.st = 1 := by
  obtain ⟨w2, h1, h2, h3, h4⟩ := next_url_error_after_visit malformedLinksPager
    countingHandler ⟨[], 0⟩ []
    ⟨malformedLinksPageType, ⟨exampleResult (.slice [.string "s1"]) "", Any.nil⟩⟩ ""
    (.errorString "malformed links") 1 rfl rfl rfl trivial rfl rfl rfl (by decide)
  exact ⟨w2, h1, by rw [h2]; rfl, h3, h4⟩

/-- C25 as stated fails: the non-empty page whose `NextPageURL` fails is handed
to the visitor, which has run once when `EachPage` returns the error. -/
theorem page_with_failing_next_url_is_visited :
    malformedLinksPager.EachPage 1 countingHandler ⟨[], 0⟩
      = some (.ret (some (.errorString "malformed links")),
          ⟨[Event.fetch "/servers",
            Event.visit ⟨malformedLinksPageType,
              ⟨exampleResult (.slice [.string "s1"]) "", Any.nil⟩⟩], 1⟩) ∧
      visits [Event.fetch "/servers",
          Event.visit ⟨malformedLinksPageType,
            ⟨exampleResult (.slice [.string "s1"]) "", Any.nil⟩⟩] ≠ [] :=
  ⟨rfl, by simp [visits]⟩

/-! ## `WithPageCreator` -/

/-- C26: `p.WithPageCreator f` has the client and the initial URL of `p` and the
page-construction function `f`, and every page it fetches is built by `f` from
the decoded response of `p`'s client. The method has a value receiver and is a
function of `p`: `p` is not changed. -/
theorem withPageCreator_keeps_client_and_url (p : Pager) (f : PageResult → Page) :
    (p.WithPageCreator f).client = p.client ∧
      (p.WithPageCreator f).initialURL = p.initialURL ∧
      (p.WithPageCreator f).createPage = f ∧
      ∀ url tr, ((p.WithPageCreator f).fetchNextPage url tr).1
        = ((Request p.client tr [] url).bind PageResultFrom).map f := by
  refine ⟨rfl, rfl, rfl, ?_⟩
  intro url tr
  simp only [Pager.fetchNextPage, Pager.WithPageCreator]
  cases h : Request p.client tr [] url with
  | error e => rfl
  | ok resp => cases h2 : PageResultFrom resp <;> simp [Except.bind, Except.map, h2]

/-- C26, at the three-page listing given the single-page constructor: same
client and URL, pages built by the new function. -/
theorem withPageCreator_keeps_client_and_url_witness :
    (lettersPager.WithPageCreator exampleSinglePage).initialURL = "/p1" ∧
      ((lettersPager.WithPageCreator exampleSinglePage).fetchNextPage "/p1" []).1
        = .ok (exampleSinglePage (exampleResult (.slice [.string "a"]) "/p2")) := by
  obtain ⟨-, h2, -, h4⟩ := withPageCreator_keeps_client_and_url lettersPager exampleSinglePage
  exact ⟨h2, by rw [h4]; rfl⟩

/-- C27, evaluated: the Pager that `WithPageCreator` makes of a Pager whose
sticky error is set has no sticky error; `EachPage` on it walks the listing with
three fetches and returns `nil`, and `AllPages` returns a page. -/
theorem withPageCreator_drops_sticky_error :
    failedPager.Err = some (.errorString "bad URL") ∧
      (failedPager.WithPageCreator examplePage).Err = none ∧
      (∃ w2 : World Nat,
        (failedPager.WithPageCreator examplePage).EachPage 3 countingHandler ⟨[], 0⟩
          = some (.ret none, w2) ∧ fetches w2.trace = ["/p1", "/p2", "/p3"]) ∧
      ∃ page tr2, (failedPager.WithPageCreator examplePage).AllPages 3 []
        = some (.ret (some page, none), tr2) ∧ fetches tr2 = ["/p1", "/p2", "/p3"] :=
  ⟨rfl, rfl, ⟨_, rfl, rfl⟩, _, _, rfl, rfl⟩

/-- The shape of the body of a page `AllPages` has aggregated, branch by branch:
the `[]byte` and `[]any` branches give back their own shape, the
`map[string]any` branch gives a body the type switch does not recognize. -/
theorem aggregate_shape_by_branch (p : Pager) (tr tr2 : List Event) (pg page : Page)
    (sh : Shape) (fuel : Nat)
    (hErr : p.Err = none)
    (hFetch : (p.fetchNextPage p.initialURL tr).1 = .ok pg)
    (hMulti : pg.pageType.hasSinglePageBase = false)
    (hShape : pg.GetBody.shape? = some sh)
    (hRun : p.AllPages fuel tr = some (.ret (some page, none), tr2)) :
    page.GetBody.shape? = match sh with
      | .object => none
      | .bytes => some Shape.bytes
      | .slice => some Shape.slice := by
  rw [AllPages_eq_afterWalk p tr pg sh fuel hErr hFetch hMulti hShape] at hRun
  unfold afterWalk at hRun
  split at hRun
  · simp at hRun
  · simp at hRun
  · simp at hRun
  · split at hRun
    · simp only [Option.some.injEq, Prod.mk.injEq, Outcome.ret.injEq, and_true] at hRun
      rw [← hRun.1]
      rfl
    · split at hRun
      · simp at hRun
      · simp only [Option.some.injEq, Prod.mk.injEq, Outcome.ret.injEq, and_true] at hRun
        rw [← hRun.1]
        rfl
    · split at hRun
      · simp at hRun
      · simp only [Option.some.injEq, Prod.mk.injEq, Outcome.ret.injEq, and_true] at hRun
        rw [← hRun.1]
        rfl

/-! ## `ContainerPage`: emptiness, marker, names -/

/-- A body holds no name exactly when all its bytes are newlines. -/
theorem textNames_eq_nil_iff (body : List UInt8) :
    textNames body = [] ↔ ∀ c ∈ body, c = 10 := by
  have key : ∀ s : List UInt8,
      (∀ seg ∈ strings.Split 10 s, seg = []) ↔ ∀ c ∈ s, c = 10 := by
    intro s
    induction s with
    | nil => simp [strings.Split]
    | cons c cs ih =>
      by_cases h : c = 10
      · simp [strings.Split, h, ih]
      · have hne := Split_ne_nil 10 cs
        cases hs : strings.Split 10 cs with
        | nil => exact absurd hs hne
        | cons seg segs => simp [strings.Split, h, hs]
  rw [← key body]
  simp only [textNames, List.filter_eq_nil_iff, decide_eq_true_eq]
  constructor
  · intro h seg hseg
    have := h seg hseg
    cases seg with
    | nil => rfl
    | cons a l => simp at this
  · intro h seg hseg
    simp [h seg hseg]

/-- C22, as amended: for a `ContainerPage` with a byte-stream body, a
`Content-Type` that is absent or begins with `text/plain` and a status code other
than 204, `IsEmpty` returns without error, and it returns `true` exactly when the
body holds no name, that is when every byte of the body is a newline; a body of
length zero is such a body. -/
theorem container_page_empty_iff_no_name
    (extractInto : PageData → List Container × Option Error) (r : ContainerPage)
    (body : List UInt8)
    (hBody : r.MarkerPageBase.PageResult.Body = .bytes body)
    (hText : Header.Get r.MarkerPageBase.PageResult.Header "Content-Type" = "" ∨
      strings.HasPrefix (Header.Get r.MarkerPageBase.PageResult.Header "Content-Type")
        "text/plain" = true)
    (hStatus : r.MarkerPageBase.PageResult.StatusCode ≠ 204) :
    ∃ b, ContainerPage.IsEmpty extractInto r = .ret (b, none) ∧
      (b = true ↔ ∀ c ∈ body, c = 10) ∧ (body.length = 0 → b = true) := by
  have hn := ExtractNames_text extractInto r body hBody hText
  refine ⟨(textNames body).length == 0, ?_, ?_, ?_⟩
  · simp [ContainerPage.IsEmpty, hStatus, hn]
  · rw [← textNames_eq_nil_iff]
    simp
  · intro h
    have hb : body = [] := List.length_eq_zero.1 h
    subst hb
    rfl

/-- C22, as amended, at a page holding two names and at a page of two bare
newlines. -/
theorem container_page_empty_iff_no_name_witness :
    (∃ b, ContainerPage.IsEmpty (fun _ => ([], none))
        ⟨⟨⟨.bytes (ascii "name1\nname2\n"), [("Content-Type", ["text/plain"])], 200⟩,
          Any.nil⟩⟩ = .ret (b, none) ∧
      (b = true ↔ ∀ c ∈ ascii "name1\nname2\n", c = 10)) ∧
    ContainerPage.IsEmpty (fun _ => ([], none))
        ⟨⟨⟨.bytes [10, 10], [("Content-Type", ["text/plain"])], 200⟩, Any.nil⟩⟩
      = .ret (true, none) := by
  obtain ⟨b, h1, h2, -⟩ := container_page_empty_iff_no_name (fun _ => ([], none))
    ⟨⟨⟨.bytes (ascii "name1\nname2\n"), [("Content-Type", ["text/plain"])], 200⟩, Any.nil⟩⟩
    (ascii "name1\nname2\n") rfl (Or.inr (by decide)) (by decide)
  exact ⟨⟨b, h1, h2⟩, rfl⟩

/-- C22 as stated fails: the body of this text page is one newline byte, its
length is not zero, and `IsEmpty` returns `true`. -/
theorem newline_only_page_is_empty :
    ContainerPage.IsEmpty (fun _ => ([], none)) ⟨⟨⟨.bytes [10], [], 200⟩, Any.nil⟩⟩
        = .ret (true, none) ∧
      ¬ ([10] : List UInt8).length = 0 :=
  ⟨rfl, by decide⟩

/-- C23: for a `ContainerPage` whose status code is 204, `IsEmpty` returns
`(true, nil)`, whatever the body and the headers are; `ExtractNames` is not
consulted. -/
theorem no_content_page_is_empty (extractInto : PageData → List Container × Option Error)
    (r : ContainerPage) (hStatus : r.MarkerPageBase.PageResult.StatusCode = 204) :
    ContainerPage.IsEmpty extractInto r = .ret (true, none) := by
  simp [ContainerPage.IsEmpty, hStatus]

/-- C23, at a page with status 204 whose content type `ExtractNames` rejects
and whose body is not a byte stream. -/
theorem no_content_page_is_empty_witness :
    ContainerPage.IsEmpty (fun _ => ([], none))
        ⟨⟨⟨.string "x", [("Content-Type", ["image/png"])], 204⟩, Any.nil⟩⟩ = .ret (true, none) ∧
      ExtractNames (fun _ => ([], none))
        ⟨⟨⟨.string "x", [("Content-Type", ["image/png"])], 204⟩, Any.nil⟩⟩
        = .ret ([], some (.errorString
            "cannot extract names from response with content-type: [image/png]")) :=
  ⟨no_content_page_is_empty _ _ rfl, rfl⟩

/-- C24: `LastMarker` of a `ContainerPage` returns, without error, the last
element of the list of names `ExtractNames` yields for the page; the empty
string and no error when that list is empty; the empty string and the error of
`ExtractNames` when the extraction fails. -/
theorem last_marker_is_last_name (extractInto : PageData → List Container × Option Error)
    (r : ContainerPage) :
    (∀ init last, ExtractNames extractInto r = .ret (init ++ [last], none) →
        ContainerPage.LastMarker extractInto r = .ret (last, none)) ∧
      (ExtractNames extractInto r = .ret ([], none) →
        ContainerPage.LastMarker extractInto r = .ret ([], none)) ∧
      (∀ names e, ExtractNames extractInto r = .ret (names, some e) →
        ContainerPage.LastMarker extractInto r = .ret ([], some e)) := by
  refine ⟨?_, ?_, ?_⟩
  · intro init last h
    simp [ContainerPage.LastMarker, h]
  · intro h
    simp [ContainerPage.LastMarker, h]
  · intro names e h
    simp [ContainerPage.LastMarker, h]

/-- C24, at a text page with two names, at a page without names and at a page
of a content type `ExtractNames` rejects. -/
theorem last_marker_is_last_name_witness :
    ContainerPage.LastMarker (fun _ => ([], none))
        ⟨⟨⟨.bytes (ascii "name1\nname2\n"), [], 200⟩, Any.nil⟩⟩ = .ret (ascii "name2", none) ∧
      ContainerPage.LastMarker (fun _ => ([], none)) ⟨⟨⟨.bytes [], [], 200⟩, Any.nil⟩⟩
        = .ret ([], none) ∧
      ContainerPage.LastMarker (fun _ => ([], none))
        ⟨⟨⟨.bytes [], [("Content-Type", ["image/png"])], 200⟩, Any.nil⟩⟩
        = .ret ([], some (.errorString
            "cannot extract names from response with content-type: [image/png]")) :=
  ⟨(last_marker_is_last_name _ _).1 [ascii "name1"] (ascii "name2") rfl,
    (last_marker_is_last_name _ _).2.1 rfl,
    (last_marker_is_last_name _ _).2.2 [] _ rfl⟩

theorem textNames_single (name : List UInt8) (hne : name ≠ []) (hnl : (10 : UInt8) ∉ name) :
    textNames name = [name] := by
  simp only [textNames, Split_of_not_mem 10 name hnl]
  cases name with
  | nil => exact absurd rfl hne
  | cons c cs => simp

theorem flatten_textNames_names :
    ∀ names : List (List UInt8), (∀ name ∈ names, name ≠ [] ∧ (10 : UInt8) ∉ name) →
      (names.map textNames).flatten = names := by
  intro names
  induction names with
  | nil => intro _; rfl
  | cons n names ih =>
    intro h
    obtain ⟨hne, hnl⟩ := h n (List.mem_cons_self _ _)
    simp [textNames_single n hne hnl, ih (fun m hm => h m (List.mem_cons_of_mem _ hm))]

/-- C28: for a `ContainerPage` with a byte-stream body whose `Content-Type` is
empty or begins with `text/plain`, `ExtractNames` returns without error exactly
the non-empty segments of the body split at the newline byte, in the order of the
split; no name of the result is empty, and `ExtractNames` on the same page with
the body replaced by the names joined with newlines returns the same list. -/
theorem text_names_are_the_nonempty_lines
    (extractInto : PageData → List Container × Option Error) (page : ContainerPage)
    (body : List UInt8)
    (hBody : page.MarkerPageBase.PageResult.Body = .bytes body)
    (hText : Header.Get page.MarkerPageBase.PageResult.Header "Content-Type" = "" ∨
      strings.HasPrefix (Header.Get page.MarkerPageBase.PageResult.Header "Content-Type")
        "text/plain" = true) :
    ∃ names, ExtractNames extractInto page = .ret (names, none) ∧
      names = (strings.Split 10 body).filter (fun seg => decide (seg ≠ [])) ∧
      [] ∉ names ∧
      ExtractNames extractInto
          ⟨⟨⟨.bytes (joinNewline names), page.MarkerPageBase.PageResult.Header,
            page.MarkerPageBase.PageResult.StatusCode⟩, page.MarkerPageBase.extra⟩⟩
        = .ret (names, none) := by
  refine ⟨textNames body, ExtractNames_text extractInto page body hBody hText, ?_, ?_, ?_⟩
  · simp only [textNames]
    apply List.filter_congr
    intro seg _
    cases seg <;> simp
  · intro h
    exact (textNames_spec body [] h).1 rfl
  · rw [ExtractNames_text extractInto
        ⟨⟨⟨.bytes (joinNewline (textNames body)), page.MarkerPageBase.PageResult.Header,
          page.MarkerPageBase.PageResult.StatusCode⟩, page.MarkerPageBase.extra⟩⟩
        (joinNewline (textNames body)) rfl hText,
      textNames_joinNewline,
      flatten_textNames_names _ (fun name hn => textNames_spec body name hn)]

/-- C28, at a text page with an empty line between two names. -/
theorem text_names_are_the_nonempty_lines_witness :
    ∃ names, ExtractNames (fun _ => ([], none))
        ⟨⟨⟨.bytes (ascii "name1\n\nname2\n"), [("Content-Type", ["text/plain; charset=utf-8"])],
          200⟩, Any.nil⟩⟩ = .ret (names, none) ∧
      names = [ascii "name1", ascii "name2"] ∧ [] ∉ names := by
  obtain ⟨names, h1, h2, h3, -⟩ := text_names_are_the_nonempty_lines (fun _ => ([], none))
    ⟨⟨⟨.bytes (ascii "name1\n\nname2\n"), [("Content-Type", ["text/plain; charset=utf-8"])],
      200⟩, Any.nil⟩⟩ (ascii "name1\n\nname2\n") rfl (Or.inr (by decide))
  exact ⟨names, h1, by rw [h2]; decide, h3⟩

/-- C29: for a `ContainerPage` whose `Content-Type` header `ct` is not empty and
begins with neither `application/json` nor `text/plain`, `ExtractNames` returns
no names and the error `cannot extract names from response with content-type:
[ct]`; for a page whose `Content-Type` is empty it returns no error at all. -/
theorem unknown_content_type_is_rejected
    (extractInto : PageData → List Container × Option Error) (page : ContainerPage) :
    (Header.Get page.MarkerPageBase.PageResult.Header "Content-Type" ≠ "" →
        strings.HasPrefix (Header.Get page.MarkerPageBase.PageResult.Header "Content-Type")
          "application/json" = false →
        strings.HasPrefix (Header.Get page.MarkerPageBase.PageResult.Header "Content-Type")
          "text/plain" = false →
        ExtractNames extractInto page
          = .ret ([], some (.errorString
              ("cannot extract names from response with content-type: ["
                ++ Header.Get page.MarkerPageBase.PageResult.Header "Content-Type" ++ "]")))) ∧
      (Header.Get page.MarkerPageBase.PageResult.Header "Content-Type" = "" →
        ∀ names e, ExtractNames extractInto page ≠ .ret (names, some e)) := by
  refine ⟨?_, ?_⟩
  · intro hne hj ht
    simp [ExtractNames, hj, ht, hne]
  · intro h names e
    have hj : strings.HasPrefix "" "application/json" = false := rfl
    unfold ExtractNames
    simp only [h, hj, Bool.false_eq_true, if_false, Bool.or_true, decide_True, if_true]
    cases page.MarkerPageBase.PageResult.Body <;> simp

/-- C29, at a page of content type `image/png` and at a page without content
type. -/
theorem unknown_content_type_is_rejected_witness :
    ExtractNames (fun _ => ([], none))
        ⟨⟨⟨.bytes (ascii "name1\n"), [("Content-Type", ["image/png"])], 200⟩, Any.nil⟩⟩
        = .ret ([], some (.errorString
            "cannot extract names from response with content-type: [image/png]")) ∧
      ExtractNames (fun _ => ([], none)) ⟨⟨⟨.bytes (ascii "name1\n"), [], 200⟩, Any.nil⟩⟩
        = .ret ([ascii "name1"], none) :=
  ⟨(unknown_content_type_is_rejected _ _).1 (by decide) (by decide) (by decide), rfl⟩

/-! ## `GetResult.ExtractMetadata` -/

theorem mapSet_of_not_mem (key value : String) :
    ∀ m : List (String × String), key ∉ m.map Prod.fst →
      mapSet key value m = m ++ [(key, value)] := by
  intro m
  induction m with
  | nil => intro _; rfl
  | cons kv m ih =>
    intro h
    simp only [List.map_cons, List.mem_cons, not_or] at h
    have hne : ¬ kv.1 = key := fun e => h.1 e.symm
    obtain ⟨k, v⟩ := kv
    simp only [mapSet, hne, if_false, ih h.2, List.cons_append]

/-- A name that begins with `start` is `start` followed by what `TrimPrefix`
leaves. -/
theorem append_trimPrefix (s start : String) (h : strings.HasPrefix s start = true) :
    start ++ strings.TrimPrefix s start = s := by
  have hp : start.data <+: s.data := List.isPrefixOf_iff_prefix.1 h
  obtain ⟨t, ht⟩ := hp
  apply String.ext
  simp only [strings.TrimPrefix, h, if_true, String.data_append]
  rw [← ht]
  simp

theorem hasPrefix_append (start s : String) : strings.HasPrefix (start ++ s) start = true := by
  simp [strings.HasPrefix, String.data_append, List.isPrefixOf_iff_prefix]

theorem trimPrefix_append (start s : String) : strings.TrimPrefix (start ++ s) start = s := by
  apply String.ext
  simp [strings.TrimPrefix, hasPrefix_append, String.data_append]

theorem collectMetadata_eq :
    ∀ (h : Header) (acc : List (String × String)), (∀ kv ∈ h, kv.2 ≠ []) →
      ((acc ++ metadataEntries h).map Prod.fst).Nodup →
      collectMetadata h acc = .ret (acc ++ metadataEntries h) := by
  intro h
  induction h with
  | nil => intro acc _ _; simp [collectMetadata, metadataEntries]
  | cons kv h ih =>
    intro acc hv hn
    obtain ⟨k, v⟩ := kv
    have hv2 : ∀ x ∈ h, x.2 ≠ [] := fun x hx => hv x (List.mem_cons_of_mem _ hx)
    by_cases hp : strings.HasPrefix k "X-Container-Meta-" = true
    · cases v with
      | nil => exact absurd rfl (hv (k, []) (List.mem_cons_self _ _))
      | cons v0 vs =>
        have he : metadataEntries ((k, v0 :: vs) :: h)
            = (strings.TrimPrefix k "X-Container-Meta-", v0) :: metadataEntries h := by
          simp [metadataEntries, List.filter_cons, hp]
        rw [he] at hn ⊢
        have hnot : strings.TrimPrefix k "X-Container-Meta-" ∉ acc.map Prod.fst := by
          intro hm
          rw [List.map_append, List.nodup_append] at hn
          exact hn.2.2 hm (by simp)
        simp only [collectMetadata, hp, if_true, mapSet_of_not_mem _ _ acc hnot]
        rw [ih _ hv2 (by simpa [List.append_assoc] using hn)]
        simp [List.append_assoc]
    · have he : metadataEntries ((k, v) :: h) = metadataEntries h := by
        simp [metadataEntries, List.filter_cons, hp]
      rw [he] at hn ⊢
      simp only [collectMetadata, hp, Bool.false_eq_true, if_false]
      exact ih _ hv2 hn

theorem nodup_metadataEntries (h : Header) (hn : (h.map Prod.fst).Nodup) :
    ((metadataEntries h).map Prod.fst).Nodup := by
  induction h with
  | nil => simp [metadataEntries]
  | cons kv h ih =>
    simp only [List.map_cons, List.nodup_cons] at hn
    by_cases hp : strings.HasPrefix kv.1 "X-Container-Meta-" = true
    · have he : metadataEntries (kv :: h)
          = (strings.TrimPrefix kv.1 "X-Container-Meta-", kv.2.headD "") :: metadataEntries h := by
        simp [metadataEntries, List.filter_cons, hp]
      rw [he, List.map_cons, List.nodup_cons]
      refine ⟨?_, ih hn.2⟩
      intro hm
      simp only [metadataEntries, List.map_map, List.mem_map, List.mem_filter,
        Function.comp_apply] at hm
      obtain ⟨x, ⟨hx, hxp⟩, hxe⟩ := hm
      have e1 := append_trimPrefix x.1 "X-Container-Meta-" hxp
      have e2 := append_trimPrefix kv.1 "X-Container-Meta-" hp
      rw [hxe, e2] at e1
      exact hn.1 (List.mem_map.2 ⟨x, hx, e1.symm⟩)
    · have he : metadataEntries (kv :: h) = metadataEntries h := by
        simp [metadataEntries, List.filter_cons, hp]
      rw [he]
      exact ih hn.2

/-- C30: for a `GetResult` without error whose header map (a map: every name
once) gives every header at least one value, `ExtractMetadata` returns without
error a map that holds the entry `s` to `v` exactly for the headers named
`X-Container-Meta-` followed by `s` whose first value is `v`; no name occurs
twice in it and it has as many entries as there are headers whose name begins
with `X-Container-Meta-`. For a `GetResult` whose `Err` is `e` it returns no map
and exactly `e`. -/
theorem metadata_from_prefixed_headers (r : GetResult) :
    (r.Err = none → (r.Header.map Prod.fst).Nodup → (∀ kv ∈ r.Header, kv.2 ≠ []) →
        ∃ m, r.ExtractMetadata = .ret (some m, none) ∧
          (∀ s v, (s, v) ∈ m ↔ ∃ vs, ("X-Container-Meta-" ++ s, v :: vs) ∈ r.Header) ∧
          (m.map Prod.fst).Nodup ∧
          m.length
            = (r.Header.filter (fun kv => strings.HasPrefix kv.1 "X-Container-Meta-")).length) ∧
      (∀ e, r.Err = some e → r.ExtractMetadata = .ret (none, some e)) := by
  refine ⟨?_, ?_⟩
  · intro hErr hn hv
    have hnd := nodup_metadataEntries r.Header hn
    have hc := collectMetadata_eq r.Header [] hv (by simpa using hnd)
    refine ⟨metadataEntries r.Header, ?_, ?_, hnd, ?_⟩
    · simp only [GetResult.ExtractMetadata, hErr, hc, List.nil_append]
    · intro s v
      simp only [metadataEntries, List.mem_map, List.mem_filter, Prod.mk.injEq]
      constructor
      · rintro ⟨kv, ⟨hkv, hp⟩, hs, hv0⟩
        obtain ⟨k, vals⟩ := kv
        cases vals with
        | nil => exact absurd rfl (hv _ hkv)
        | cons v0 vs =>
          simp only [List.headD_cons] at hv0
          refine ⟨vs, ?_⟩
          have e := append_trimPrefix k "X-Container-Meta-" hp
          simp only at hs
          rw [hs] at e
          rw [e, ← hv0]
          exact hkv
      · rintro ⟨vs, hmem⟩
        exact ⟨_, ⟨hmem, hasPrefix_append _ _⟩, trimPrefix_append _ _, rfl⟩
    · simp [metadataEntries]
  · intro e h
    simp [GetResult.ExtractMetadata, h]

/-- C30, at the headers of a container with two metadata items, and at a result
whose error is set. -/
theorem metadata_from_prefixed_headers_witness :
    (∃ m, GetResult.ExtractMetadata
        ⟨[("Content-Type", ["text/plain"]), ("X-Container-Meta-Color", ["blue", "red"]),
          ("X-Container-Meta-Owner", ["ada"])], none⟩ = .ret (some m, none) ∧
        ("Color", "blue") ∈ m ∧ ("Owner", "ada") ∈ m ∧ m.length = 2) ∧
      GetResult.ExtractMetadata
        ⟨[("X-Container-Meta-Color", ["blue"])], some (.errorString "not found")⟩
        = .ret (none, some (.errorString "not found")) := by
  obtain ⟨m, h1, h2, -, h4⟩ := (metadata_from_prefixed_headers
    ⟨[("Content-Type", ["text/plain"]), ("X-Container-Meta-Color", ["blue", "red"]),
      ("X-Container-Meta-Owner", ["ada"])], none⟩).1 rfl (by decide) (by decide)
  refine ⟨⟨m, h1, (h2 "Color" "blue").2 ⟨["red"], by decide⟩,
    (h2 "Owner" "ada").2 ⟨[], by decide⟩, by rw [h4]; decide⟩, ?_⟩
  exact (metadata_from_prefixed_headers
    ⟨[("X-Container-Meta-Color", ["blue"])], some (.errorString "not found")⟩).2 _ rfl

/-! ## Further edge cases of the walk and of the merge -/

/-- C32: on a fresh Pager without sticky error, when the pages `pre` have been
served and visited (the visitor continuing on each) and `IsEmpty` of the page
fetched next returns the error `e`, `EachPage` returns exactly `e`; the visitor
has been invoked on the pages of `pre` only, the fetch of the failing page is the
last one, and nothing is assumed of `NextPageURL` of that page: the result is the
same whatever it would return. -/
theorem isEmpty_error_propagates (p : Pager) (handler : Handler σ) (w : World σ)
    (pre : List Page) (pg : Page) (b : Bool) (e : Error) (fuel : Nat)
    (hErr : p.Err = none) (hFresh : p.firstPage = none)
    (hServed : ServesThen p w.trace p.initialURL pre (.ok pg))
    (hCont : ContinuesOn handler pre w.st)
    (hFails : pg.IsEmpty = .ret (b, some e))
    (hFuel : pre.length < fuel) :
    ∃ w2 : World σ, p.EachPage fuel handler w = some (.ret (some e), w2) ∧
      visits w2.trace = visits w.trace ++ pre ∧
      fetches w2.trace = fetches w.trace ++ p.initialURL :: pre.map Page.nextURL ∧
      w2.st = feed handler pre w.st := by
  obtain ⟨n, h1, h2⟩ := EachPage_arrive p handler w pre _ fuel hErr hFresh hServed hCont hFuel
  refine ⟨⟨w.trace ++ walkEvents p.initialURL pre ++ [Event.fetch (lastURL p.initialURL pre)],
    feed handler pre w.st⟩, ?_, ?_, fetches_after_walk w.trace p.initialURL pre, rfl⟩
  · rw [h1, loop_fetch_ok p handler _ _ "" _ pg h2,
      loop_isEmpty_error p handler n _ _ pg b e hFails]
  · simp [visits_append, visits, visits_walkEvents]

/-- C32, at a listing whose first page cannot be decoded and whose
`NextPageURL` would panic: the error of `IsEmpty` comes back after one fetch and
no invocation. -/
theorem isEmpty_error_propagates_witness :
    ∃ w2 : World Nat,
      undecodablePager.EachPage 1 countingHandler ⟨[], 0⟩
        = some (.ret (some (.errorString "json: cannot unmarshal")), w2) ∧
      visits w2.trace = [] ∧ fetches w2.trace = ["/servers"] ∧ w2.st = 0 := by
  obtain ⟨w2, h1, h2, h3, h4⟩ := isEmpty_error_propagates undecodablePager countingHandler
    ⟨[], 0⟩ []
    ⟨undecodablePageType, ⟨exampleResult (.object [("servers", .string "x")]) "", Any.nil⟩⟩
    true (.errorString "json: cannot unmarshal") 1 rfl rfl rfl trivial rfl (by decide)
  exact ⟨w2, h1, h2, h3, h4⟩

/-- The walk behind `AllPages` when the first page is empty. -/
theorem AllPages_empty_first (p : Pager) (tr : List Event) (pg : Page) (sh : Shape)
    (fuel : Nat)
    (hErr : p.Err = none)
    (hFetch : (p.fetchNextPage p.initialURL tr).1 = .ok pg)
    (hMulti : pg.pageType.hasSinglePageBase = false)
    (hShape : pg.GetBody.shape? = some sh)
    (hEmpty : pg.IsEmpty = .ret (true, none))
    (hFuel : 0 < fuel) :
    p.AllPages fuel tr
      = afterWalk sh pg.pageType p.Headers
          (some (.ret none, ⟨tr ++ [Event.fetch p.initialURL], ⟨"", []⟩⟩)) := by
  obtain ⟨n, rfl⟩ : ∃ n, fuel = n + 1 := ⟨fuel - 1, by omega⟩
  rw [AllPages_eq_afterWalk p tr pg sh _ hErr hFetch hMulti hShape,
    loop_fetch_ok p sh.handler _ _ "" _ pg hFetch, loop_empty p sh.handler n _ _ pg hEmpty]

/-- C33: for a keyed-object listing of a non-single-page type whose first page
is empty, on a Pager without sticky error, `AllPages` issues exactly one fetch,
does not run the visitor and returns without error a page whose body is the
one-entry mapping from the empty string to the empty list. -/
theorem empty_keyed_object_listing (p : Pager) (tr : List Event) (pg : Page)
    (kvs : List (String × Any)) (fuel : Nat)
    (hErr : p.Err = none)
    (hFetch : (p.fetchNextPage p.initialURL tr).1 = .ok pg)
    (hMulti : pg.pageType.hasSinglePageBase = false)
    (hBody : pg.GetBody = .object kvs)
    (hEmpty : pg.IsEmpty = .ret (true, none))
    (hFuel : 0 < fuel) :
    ∃ page, p.AllPages fuel tr
        = some (.ret (some page, none), tr ++ [Event.fetch p.initialURL]) ∧
      page.GetBody = .objectOfSlices [("", [])] := by
  refine ⟨newPage pg.pageType (.objectOfSlices [("", [])]) p.Headers, ?_, rfl⟩
  rw [AllPages_empty_first p tr pg Shape.object fuel hErr hFetch hMulti
    (by rw [hBody]; rfl) hEmpty hFuel]
  rfl

/-- C33, at the keyed-object listing whose first page is `items: []`. -/
theorem empty_keyed_object_listing_witness :
    ∃ page, noItemsPager.AllPages 1 [] = some (.ret (some page, none), [Event.fetch "/items"]) ∧
      page.GetBody = .objectOfSlices [("", [])] :=
  empty_keyed_object_listing noItemsPager []
    (examplePage (exampleResult (.object [("items", .slice [])]) "")) _ 1 rfl rfl rfl rfl rfl
    (by decide)

/-- C38: for a byte-stream listing of a non-single-page type whose first page
is empty, on a Pager without sticky error, `AllPages` returns without error a
page whose body is the empty byte sequence: the accumulator is empty, so the
guarded strip of the last separator does nothing. -/
theorem empty_byte_stream_listing (p : Pager) (tr : List Event) (pg : Page)
    (b0 : List UInt8) (fuel : Nat)
    (hErr : p.Err = none)
    (hFetch : (p.fetchNextPage p.initialURL tr).1 = .ok pg)
    (hMulti : pg.pageType.hasSinglePageBase = false)
    (hBody : pg.GetBody = .bytes b0)
    (hEmpty : pg.IsEmpty = .ret (true, none))
    (hFuel : 0 < fuel) :
    ∃ page, p.AllPages fuel tr
        = some (.ret (some page, none), tr ++ [Event.fetch p.initialURL]) ∧
      page.GetBody = .bytes [] := by
  refine ⟨newPage pg.pageType (.bytes []) p.Headers, ?_, rfl⟩
  rw [AllPages_empty_first p tr pg Shape.bytes fuel hErr hFetch hMulti
    (by rw [hBody]; rfl) hEmpty hFuel]
  rfl

/-- C38, at the byte-stream listing whose first page has no bytes. -/
theorem empty_byte_stream_listing_witness :
    ∃ page, noNamesPager.AllPages 1 [] = some (.ret (some page, none), [Event.fetch "/c"]) ∧
      page.GetBody = .bytes [] :=
  empty_byte_stream_listing noNamesPager [] (examplePage (exampleResult (.bytes []) "")) _ 1
    rfl rfl rfl rfl rfl (by decide)

/-- C34: on a Pager without sticky error whose first fetched page is of a
single-page type, `AllPages` returns that page and no error after the one fetch,
whatever its body is; it returns no unexpected-type error: the body is not
looked at. -/
theorem single_page_shortcut_precedes_switch (p : Pager) (tr : List Event) (pg : Page)
    (fuel : Nat)
    (hErr : p.Err = none)
    (hFetch : (p.fetchNextPage p.initialURL tr).1 = .ok pg)
    (hSingle : pg.pageType.hasSinglePageBase = true) :
    p.AllPages fuel tr = some (.ret (some pg, none), tr ++ [Event.fetch p.initialURL]) ∧
      ∀ expected actual tr2,
        p.AllPages fuel tr ≠ some (.ret (none, some (.ErrUnexpectedType expected actual)), tr2) := by
  have h : p.AllPages fuel tr
      = some (.ret (some pg, none), tr ++ [Event.fetch p.initialURL]) := by
    simp [Pager.AllPages, hErr, fetchNextPage_eq p _ tr _ hFetch, hSingle]
  refine ⟨h, ?_⟩
  intro expected actual tr2 h2
  rw [h] at h2
  simp at h2

/-- C34, at a single-page listing whose body is a JSON string, a body for which
a multi-page type gets the unexpected-type error. -/
theorem single_page_shortcut_precedes_switch_witness :
    versionPager.AllPages 0 []
      = some (.ret (some (exampleSinglePage (exampleResult (.string "v2.1") "")), none),
          [Event.fetch "/v"]) :=
  (single_page_shortcut_precedes_switch versionPager []
    (exampleSinglePage (exampleResult (.string "v2.1") "")) 0 rfl rfl rfl).1

/-! ## The page `AllPages` builds, and markers of text pages -/

/-- C36: when `AllPages` on a Pager without sticky error whose first page is not
of a single-page type returns a page, that page has the type of the first page,
some aggregate body, the header built from the Pager's headers, the status code 0
and nothing in its other fields, whatever the fetched pages held; so `IsEmpty` of
a `ContainerPage` returned by aggregation is decided by the names extracted from
it, not by the status-204 shortcut. -/
theorem synthetic_page_is_zero_elsewhere
    (extractInto : PageData → List Container × Option Error)
    (p : Pager) (tr tr2 : List Event) (pg page : Page) (fuel : Nat)
    (hErr : p.Err = none)
    (hFetch : (p.fetchNextPage p.initialURL tr).1 = .ok pg)
    (hMulti : pg.pageType.hasSinglePageBase = false)
    (hRun : p.AllPages fuel tr = some (.ret (some page, none), tr2)) :
    (∃ body, page = ⟨pg.pageType, ⟨⟨body, buildHeader p.Headers, 0⟩, Any.nil⟩⟩) ∧
      page.data.PageResult.StatusCode = 0 ∧
      ContainerPage.IsEmpty extractInto ⟨page.data⟩
        = (match ExtractNames extractInto ⟨page.data⟩ with
          | .panic msg => .panic msg
          | .ret (names, err) => .ret (names.length == 0, err)) := by
  have hbody : ∃ body, page = newPage pg.pageType body p.Headers := by
    rcases AllPages_result_cases p tr tr2 fuel (some page) none hErr hRun with
      ⟨h, -⟩ | ⟨pg2, h1, -, h2⟩
    · simp at h
    · rw [hFetch] at h1
      cases h1
      rcases h2 with ⟨hs, -⟩ | ⟨-, body, hb⟩
      · rw [hMulti] at hs; simp at hs
      · exact ⟨body, Option.some.inj hb⟩
  obtain ⟨body, rfl⟩ := hbody
  refine ⟨⟨body, rfl⟩, rfl, ?_⟩
  simp [ContainerPage.IsEmpty, newPage]

/-- C36, at a container listing whose two pages were answered with status 200:
the aggregate has status 0. -/
theorem synthetic_page_is_zero_elsewhere_witness :
    ∃ page tr2, containersPager.AllPages 2 [] = some (.ret (some page, none), tr2) ∧
      page.data.PageResult.StatusCode = 0 ∧ page.data.extra = Any.nil ∧
      page.data.PageResult.Header = [] ∧
      ContainerPage.IsEmpty (fun _ => ([], none)) ⟨page.data⟩ = .ret (false, none) := by
  have hRun : containersPager.AllPages 2 []
      = some (.ret (some ⟨containerPageType (fun _ => ([], none))
          (fun d => .ret (headerFirst "Next" d.PageResult.Header, none)),
          ⟨⟨.bytes (ascii "c1\n\nc2\n"), [], 0⟩, Any.nil⟩⟩, none),
        [Event.fetch "/v1/acct",
          Event.visit ⟨containerPageType (fun _ => ([], none))
            (fun d => .ret (headerFirst "Next" d.PageResult.Header, none)),
            ⟨exampleResult (.bytes (ascii "c1\n")) "/v1/acct?marker=c1", Any.nil⟩⟩,
          Event.fetch "/v1/acct?marker=c1",
          Event.visit ⟨containerPageType (fun _ => ([], none))
            (fun d => .ret (headerFirst "Next" d.PageResult.Header, none)),
            ⟨exampleResult (.bytes (ascii "c2\n")) "", Any.nil⟩⟩]) := rfl
  have h := synthetic_page_is_zero_elsewhere (fun _ => ([], none)) containersPager [] _
    ⟨containerPageType (fun _ => ([], none))
      (fun d => .ret (headerFirst "Next" d.PageResult.Header, none)),
      ⟨exampleResult (.bytes (ascii "c1\n")) "/v1/acct?marker=c1", Any.nil⟩⟩ _ 2 rfl rfl rfl hRun
  exact ⟨_, _, hRun, h.2.1, rfl, rfl, rfl⟩

/-- C39: for a `ContainerPage` with a byte-stream body, a `Content-Type` that is
absent or begins with `text/plain`, and a status code other than 204: if
`IsEmpty` returns `false` without error, then the body has a last non-empty line
and `LastMarker` returns it without error; it is not the empty string. -/
theorem nonempty_text_page_has_marker
    (extractInto : PageData → List Container × Option Error) (r : ContainerPage)
    (body : List UInt8)
    (hBody : r.MarkerPageBase.PageResult.Body = .bytes body)
    (hText : Header.Get r.MarkerPageBase.PageResult.Header "Content-Type" = "" ∨
      strings.HasPrefix (Header.Get r.MarkerPageBase.PageResult.Header "Content-Type")
        "text/plain" = true)
    (hStatus : r.MarkerPageBase.PageResult.StatusCode ≠ 204)
    (hNonEmpty : ContainerPage.IsEmpty extractInto r = .ret (false, none)) :
    ∃ init last,
      (strings.Split 10 body).filter (fun line => decide (line ≠ [])) = init ++ [last] ∧
      last ≠ [] ∧
      ContainerPage.LastMarker extractInto r = .ret (last, none) := by
  have hN := ExtractNames_text extractInto r body hBody hText
  have hne : textNames body ≠ [] := by
    intro h0
    simp [ContainerPage.IsEmpty, hStatus, hN, h0] at hNonEmpty
  have hsplit : textNames body
      = (textNames body).dropLast ++ [(textNames body).getLast hne] :=
    (List.dropLast_append_getLast hne).symm
  have hfilter : (strings.Split 10 body).filter (fun line => decide (line ≠ []))
      = textNames body := by
    unfold textNames
    congr 1
    funext line
    cases line <;> simp
  refine ⟨(textNames body).dropLast, (textNames body).getLast hne, ?_, ?_, ?_⟩
  · rw [hfilter]; exact hsplit
  · have hp : decide (((textNames body).getLast hne).length > 0) = true :=
      (List.mem_filter.mp (List.getLast_mem hne)).2
    intro h0
    rw [h0] at hp
    simp at hp
  · unfold ContainerPage.LastMarker
    rw [hN]
    generalize textNames body = names at hne
    cases names with
    | nil => exact absurd rfl hne
    | cons a l =>
      simp only [List.length_cons, Nat.add_one_ne_zero, if_false, List.getLastD_cons,
        List.getLast_eq_getLastD]

/-- C39, at a text page with two names and status 200: the marker is the second
name. -/
theorem nonempty_text_page_has_marker_witness :
    ∃ init last,
      (strings.Split 10 (ascii "name1\nname2\n")).filter (fun line => decide (line ≠ []))
        = init ++ [last] ∧
      last ≠ [] ∧
      ContainerPage.LastMarker (fun _ => ([], none))
        ⟨⟨⟨.bytes (ascii "name1\nname2\n"), [], 200⟩, Any.nil⟩⟩ = .ret (last, none) :=
  nonempty_text_page_has_marker (fun _ => ([], none))
    ⟨⟨⟨.bytes (ascii "name1\nname2\n"), [], 200⟩, Any.nil⟩⟩ (ascii "name1\nname2\n") rfl
    (Or.inl rfl) (by decide) rfl

/-! ## Keyed-object listings whose pages name their list field differently -/

/-- The accumulator after the visitor of the keyed-object branch has seen two
pages with one list field each. -/
theorem feed_objectHandler_two (pg1 pg2 : Page) (k1 k2 : String) (l1 l2 : List Any)
    (h1 : pg1.GetBody.listFields = [(k1, l1)]) (h2 : pg2.GetBody.listFields = [(k2, l2)])
    (st : AggState) :
    feed objectHandler [pg1, pg2] st = ⟨k2, st.pagesSlice ++ l1 ++ l2⟩ := by
  have e1 := feed_objectHandler k1 [pg1] st
    (fun q hq => by rw [List.mem_singleton] at hq; subst hq; exact ⟨l1, h1⟩) (by simp)
  have e2 := feed_objectHandler k2 [pg2] ⟨k1, st.pagesSlice ++ l1⟩
    (fun q hq => by rw [List.mem_singleton] at hq; subst hq; exact ⟨l2, h2⟩) (by simp)
  have i1 : pg1.items = l1 := by simp [Page.items, h1]
  have i2 : pg2.items = l2 := by simp [Page.items, h2]
  simp only [feed, List.map_cons, List.map_nil, List.flatten_cons, List.flatten_nil,
    List.append_nil, i1, i2] at e1 e2 ⊢
  rw [e1, e2]

/-- C31, as amended: for a served two-page keyed-object listing of a
non-single-page type, both pages non-empty, in which page 1 has the single list
field `k1` with list `l1` and page 2 the single list field `k2` with list `l2`
(neither name ending in `links`; `k1` and `k2` may differ), `AllPages` returns
without error a page whose body is the one-entry mapping from `k2` to
`l1 ++ l2`. -/
theorem last_field_name_is_the_key (p : Pager) (tr : List Event) (pg1 pg2 : Page)
    (k1 k2 : String) (l1 l2 : List Any) (fuel : Nat)
    (hErr : p.Err = none)
    (hChain : ServesChain p tr p.initialURL [pg1, pg2])
    (hMulti : pg1.pageType.hasSinglePageBase = false)
    (hNonEmpty : pg2.nonEmpty = true)
    (hField1 : pg1.GetBody.listFields = [(k1, l1)])
    (hField2 : pg2.GetBody.listFields = [(k2, l2)])
    (hFuel : 2 ≤ fuel) :
    ∃ page tr2, p.AllPages fuel tr = some (.ret (some page, none), tr2) ∧
      page.GetBody = .objectOfSlices [(k2, l1 ++ l2)] := by
  have hn1 : pg1.nonEmpty = true := nonEmpty_of_isEmpty_false pg1 hChain.2.1
  have hall : [pg1, pg2].filter Page.nonEmpty = [pg1, pg2] := by
    simp [List.filter_cons, hn1, hNonEmpty]
  obtain ⟨w2, h1, -, -, h4⟩ := aggregate_walk p tr pg1 [pg2] fuel objectHandler hChain
    (fun q hq s => by
      rw [hall] at hq
      simp only [List.mem_cons, List.mem_singleton, List.not_mem_nil, or_false] at hq
      rcases hq with rfl | rfl
      · exact objectHandler_continues k1 _ l1 hField1 s
      · exact objectHandler_continues k2 _ l2 hField2 s) (by simpa using hFuel)
  rw [hall, feed_objectHandler_two pg1 pg2 k1 k2 l1 l2 hField1 hField2] at h4
  obtain ⟨kvs, hb⟩ : ∃ kvs, pg1.GetBody = .object kvs := by
    cases hb : pg1.GetBody with
    | object kvs => exact ⟨kvs, rfl⟩
    | _ => rw [hb] at hField1; simp [Any.listFields] at hField1
  refine ⟨newPage pg1.pageType (.objectOfSlices [(k2, l1 ++ l2)]) p.Headers, w2.trace, ?_, rfl⟩
  simp only [Pager.AllPages, hErr, fetchNextPage_eq p p.initialURL tr _ hChain.1, hMulti, hb]
  simp only [h1, h4]
  simp

/-- C31, as amended, at a listing whose first page names its list `servers` and
whose second page names it `instances`. -/
theorem last_field_name_is_the_key_witness :
    ∃ page tr2, renamedFieldPager.AllPages 2 [] = some (.ret (some page, none), tr2) ∧
      page.GetBody = .objectOfSlices [("instances", [.string "a"] ++ [.string "b"])] :=
  last_field_name_is_the_key renamedFieldPager []
    (examplePage (exampleResult (.object [("servers", .slice [.string "a"])]) "/r?2"))
    (examplePage (exampleResult (.object [("instances", .slice [.string "b"])]) ""))
    "servers" "instances" [.string "a"] [.string "b"] 2 rfl
    ⟨rfl, rfl, "/r?2", rfl, by decide, rfl, Or.inr ⟨rfl, rfl⟩⟩ rfl rfl rfl rfl (Nat.le_refl 2)

/-- C31 as stated fails when the second page is empty: the listing is served in
two pages, page 1 with the single list field `servers` holding `a` and page 2
with the single list field `instances` holding nothing; the walk ends at the
empty page without visiting it, and the body `AllPages` returns maps `servers`,
not `instances`, to the one element. -/
theorem empty_second_page_keeps_first_key :
    ServesChain renamedEmptyPager [] renamedEmptyPager.initialURL
        [examplePage (exampleResult (.object [("servers", .slice [.string "a"])]) "/r?2"),
         examplePage (exampleResult (.object [("instances", .slice [])]) "")] ∧
      (examplePage (exampleResult (.object [("servers", .slice [.string "a"])])
          "/r?2")).GetBody.listFields = [("servers", [.string "a"])] ∧
      (examplePage (exampleResult (.object [("instances", .slice [])]) "")).GetBody.listFields
        = [("instances", [])] ∧
      ∃ page tr2, renamedEmptyPager.AllPages 2 [] = some (.ret (some page, none), tr2) ∧
        page.GetBody = .objectOfSlices [("servers", [.string "a"])] ∧
        page.GetBody ≠ .objectOfSlices [("instances", [.string "a"] ++ [])] := by
  refine ⟨⟨rfl, rfl, "/r?2", rfl, by decide, rfl, Or.inl rfl⟩, rfl, rfl, _, _, rfl, rfl, ?_⟩
  intro h
  have h2 : Any.objectOfSlices [("servers", [Any.string "a"])]
      = Any.objectOfSlices [("instances", [Any.string "a"] ++ [])] := h
  simp at h2

/-! ## The type assertions of the three visitors -/

/-- The visitor panics: the loop ends with that panic after the invocation. -/
theorem loop_visit_panic (p : Pager) (handler : Handler σ) (fuel : Nat) (url : String)
    (w : World σ) (pg : Page) (msg : String) (h : pg.IsEmpty = .ret (false, none))
    (hh : (handler pg w.st).1 = .panic msg) :
    p.eachPageLoop handler (fuel + 1) (some pg) url w
      = some (.panic msg, ⟨w.trace ++ [Event.visit pg], (handler pg w.st).2⟩) := by
  have e2 : handler pg w.st = (.panic msg, (handler pg w.st).2) := by rw [← hh]
  simp only [Pager.eachPageLoop, h]
  rw [e2]

/-- On a page of another shape the type assertion of a visitor fails with the
run-time message that names the dynamic type of the body and the asserted type,
whatever has been accumulated, and the accumulator is left as it was. -/
theorem shape_handler_panics (sh : Shape) (q : Page) (h : q.GetBody.shape? ≠ some sh)
    (s : AggState) :
    sh.handler q s = (.panic (assertionFailure q.GetBody sh.asserted), s) := by
  cases sh <;> cases hb : q.GetBody <;> rw [hb] at h <;> simp [Any.shape?] at h <;>
    simp only [Shape.handler, Shape.asserted, objectHandler, bytesHandler, sliceHandler, hb]

/-- C37: on a Pager without sticky error, in the branch of shape `sh` of
`AllPages`: (1) the type assertion of the visitor succeeds on every page of that
shape; (2) it fails on every page of another shape, with the run-time message
that names the dynamic type of the body and the asserted type; (3) for a served
chain whose first page has shape `sh` and is not of a single-page type and whose
visited pages all have shape `sh`, `AllPages` comes to an end after the visits:
it returns a page and no error, unless the pages are bare arrays and a visited
one holds a nil element, in which case it panics in `reflect.Value.Set`, a
failure that is no type assertion; (4) when a served prefix of pages of shape
`sh` is followed by a non-empty page `bad` of another shape, `AllPages` panics
with the failed assertion of the visitor of `sh` on `bad`, right after the
invocation on `bad`. -/
theorem same_shape_assertions_hold (p : Pager) (tr : List Event) (sh : Shape) (fuel : Nat)
    (hErr : p.Err = none) :
    (∀ (q : Page) (s : AggState), q.GetBody.shape? = some sh →
        (sh.handler q s).1 = .ret (true, none)) ∧
      (∀ (q : Page) (s : AggState), q.GetBody.shape? ≠ some sh →
        sh.handler q s = (.panic (assertionFailure q.GetBody sh.asserted), s)) ∧
      (∀ (pg : Page) (rest : List Page),
        ServesChain p tr p.initialURL (pg :: rest) →
        pg.pageType.hasSinglePageBase = false →
        pg.GetBody.shape? = some sh →
        (∀ q ∈ (pg :: rest).filter Page.nonEmpty, q.GetBody.shape? = some sh) →
        rest.length < fuel →
        ∃ out tr2, p.AllPages fuel tr = some (out, tr2) ∧
          visits tr2 = visits tr ++ (pg :: rest).filter Page.nonEmpty ∧
          (¬ HoldsNil sh ((pg :: rest).filter Page.nonEmpty) →
            ∃ page, out = .ret (some page, none)) ∧
          (HoldsNil sh ((pg :: rest).filter Page.nonEmpty) →
            out = .panic "reflect: call of reflect.Value.Set on zero Value")) ∧
      (∀ (first : Page) (pre : List Page) (bad : Page),
        ServesThen p tr p.initialURL (first :: pre) (.ok bad) →
        first.pageType.hasSinglePageBase = false →
        (∀ q ∈ first :: pre, q.GetBody.shape? = some sh) →
        bad.IsEmpty = .ret (false, none) →
        bad.GetBody.shape? ≠ some sh →
        pre.length + 1 < fuel →
        ∃ tr2, p.AllPages fuel tr
            = some (.panic (assertionFailure bad.GetBody sh.asserted), tr2) ∧
          visits tr2 = visits tr ++ (first :: pre) ++ [bad]) := by
  refine ⟨fun q s h => shape_handler_continues sh q h s,
    fun q s h => shape_handler_panics sh q h s, ?_, ?_⟩
  · intro pg rest hChain hMulti hFirst hVis hFuel
    obtain ⟨w2, h1, h2, -, h4⟩ := loop_walk p sh.handler rest pg
      ⟨tr ++ [Event.fetch p.initialURL], ⟨"", []⟩⟩ fuel p.initialURL hChain.2
      (fun q hq s => shape_handler_continues sh q (hVis q hq) s) hFuel
    have hw : w2 = ⟨w2.trace, feed sh.handler ((pg :: rest).filter Page.nonEmpty) ⟨"", []⟩⟩ := by
      cases w2
      simp only [World.mk.injEq, true_and]
      exact h4
    have hrun : p.AllPages fuel tr
        = afterWalk sh pg.pageType p.Headers (some (.ret none,
            ⟨w2.trace, feed sh.handler ((pg :: rest).filter Page.nonEmpty) ⟨"", []⟩⟩)) := by
      rw [AllPages_eq_afterWalk p tr pg sh fuel hErr hChain.1 hMulti hFirst,
        loop_fetch_ok p sh.handler fuel _ p.initialURL ⟨tr, ⟨"", []⟩⟩ pg hChain.1, h1, ← hw]
    have hv : visits w2.trace = visits tr ++ (pg :: rest).filter Page.nonEmpty := by
      rw [h2]
      simp [visits_append, visits]
    by_cases hN : HoldsNil sh ((pg :: rest).filter Page.nonEmpty)
    · refine ⟨_, w2.trace, ?_, hv, fun h => absurd hN h, fun _ => rfl⟩
      rw [hrun]
      exact afterWalk_holds_nil sh _ p.Headers _ _ hVis hN
    · obtain ⟨page, hpage⟩ := afterWalk_of_pages sh pg.pageType p.Headers
        ((pg :: rest).filter Page.nonEmpty) w2.trace hVis hN
      refine ⟨_, w2.trace, ?_, hv, fun _ => ⟨page, rfl⟩, fun h => absurd h hN⟩
      rw [hrun]
      exact hpage
  · intro first pre bad hServed hMulti hShape hNonEmpty hBad hFuel
    have hmsg := shape_handler_panics sh bad hBad
    have hc : ContinuesOn sh.handler (first :: pre) (⟨"", []⟩ : AggState) :=
      continuesOn_of_forall _ _ _ (fun q hq t => shape_handler_continues sh q (hShape q hq) t)
    obtain ⟨h1, h2⟩ :=
      loop_advance p sh.handler _ (first :: pre) p.initialURL ⟨tr, ⟨"", []⟩⟩ hServed hc
    have e : fuel = (fuel - (first :: pre).length - 1 + 1) + (first :: pre).length := by
      simp only [List.length_cons]
      omega
    refine ⟨tr ++ walkEvents p.initialURL (first :: pre)
      ++ [Event.fetch (lastURL p.initialURL (first :: pre))] ++ [Event.visit bad], ?_, ?_⟩
    · rw [AllPages_eq_afterWalk p tr first sh fuel hErr hServed.1 hMulti
        (hShape first (List.mem_cons_self _ _))]
      conv_lhs => rw [e]
      rw [h1, loop_fetch_ok p sh.handler _ _ "" _ bad h2,
        loop_visit_panic p sh.handler _ _ _ bad _ hNonEmpty (by rw [hmsg])]
      rfl
    · simp [visits_append, visits, visits_walkEvents]

/-- C37, at a listing of three bare-array pages, which aggregates; at a listing
whose second page is a byte stream behind a bare array, where the assertion of
the bare-array visitor fails on the second page; and at the bare-array page
`[1, null]`, where no assertion fails and `AllPages` panics all the same. -/
theorem same_shape_assertions_hold_witness :
    (∃ page tr2, lettersPager.AllPages 3 [] = some (.ret (some page, none), tr2) ∧
        (visits tr2).length = 3) ∧
      (∃ tr2, mixedShapePager.AllPages 2 []
          = some (.panic
              "interface conversion: interface \x7b\x7d is []uint8, not []interface \x7b\x7d",
              tr2) ∧
        visits tr2 = [examplePage (exampleResult (.slice [.string "a"]) "/m?2"),
          examplePage (exampleResult (.bytes (ascii "b\n")) "")]) ∧
      ∃ tr2, nullElementPager.AllPages 1 []
          = some (.panic "reflect: call of reflect.Value.Set on zero Value", tr2) ∧
        visits tr2 = [examplePage (exampleResult (.slice [.float64 1, .nil]) "")] := by
  refine ⟨?_, ?_, ?_⟩
  · obtain ⟨out, tr2, h1, h2, h3, -⟩ :=
      (same_shape_assertions_hold lettersPager [] Shape.slice 3 rfl).2.2.1
        (examplePage (exampleResult (.slice [.string "a"]) "/p2"))
        [examplePage (exampleResult (.slice [.string "b"]) "/p3"),
         examplePage (exampleResult (.slice [.string "c"]) "")]
        ⟨rfl, rfl, "/p2", rfl, by decide, rfl, rfl, "/p3", rfl, by decide, rfl,
          Or.inr ⟨rfl, rfl⟩⟩ rfl rfl
        (by
          intro q hq
          have hq2 : q ∈ [examplePage (exampleResult (.slice [.string "a"]) "/p2"),
              examplePage (exampleResult (.slice [.string "b"]) "/p3"),
              examplePage (exampleResult (.slice [.string "c"]) "")] := List.mem_of_mem_filter hq
          simp only [List.mem_cons, List.mem_singleton, List.not_mem_nil, or_false] at hq2
          rcases hq2 with rfl | rfl | rfl <;> rfl)
        (by decide)
    obtain ⟨page, rfl⟩ := h3 (by
      rintro ⟨-, q, hq, hm⟩
      have hq2 := List.mem_of_mem_filter hq
      simp only [List.mem_cons, List.mem_singleton, List.not_mem_nil, or_false] at hq2
      rcases hq2 with rfl | rfl | rfl <;>
        simp [Page.GetBody, examplePage, exampleResult, Any.elements] at hm)
    exact ⟨page, tr2, h1, by rw [h2]; rfl⟩
  · exact (same_shape_assertions_hold mixedShapePager [] Shape.slice 2 rfl).2.2.2
      (examplePage (exampleResult (.slice [.string "a"]) "/m?2")) []
      (examplePage (exampleResult (.bytes (ascii "b\n")) ""))
      ⟨rfl, rfl, "/m?2", rfl, by decide, rfl⟩ rfl
      (by
        intro q hq
        simp only [List.mem_singleton] at hq
        subst hq
        rfl)
      rfl (by simp [Any.shape?, Page.GetBody, examplePage, exampleResult]) (by decide)
  · obtain ⟨out, tr2, h1, h2, -, h4⟩ :=
      (same_shape_assertions_hold nullElementPager [] Shape.slice 1 rfl).2.2.1
        (examplePage (exampleResult (.slice [.float64 1, .nil]) "")) []
        ⟨rfl, Or.inr ⟨rfl, rfl⟩⟩ rfl rfl
        (by
          intro q hq
          have hq2 := List.mem_of_mem_filter hq
          simp only [List.mem_singleton] at hq2
          subst hq2
          rfl)
        (by decide)
    have hN : HoldsNil Shape.slice
        ([examplePage (exampleResult (.slice [.float64 1, .nil]) "")].filter Page.nonEmpty) :=
      ⟨rfl, examplePage (exampleResult (.slice [.float64 1, .nil]) ""),
        by
          have hne : (examplePage (exampleResult (.slice [.float64 1, .nil]) "")).nonEmpty
              = true := rfl
          simp [List.filter_cons, hne],
        by simp [Page.GetBody, examplePage, exampleResult, Any.elements]⟩
    rw [h4 hN] at h1
    exact ⟨tr2, h1, by rw [h2]; rfl⟩

/-! ## A second call on the same Pager -/

theorem sameEntries_refl (x : Any) : SameEntries x x := by
  cases x <;> simp [SameEntries]

theorem sameValue_refl (q : Page) : SameValue q q :=
  ⟨rfl, sameEntries_refl _, fun _ => rfl, rfl, rfl⟩

theorem samePage_refl (q : Page) : SamePage q q :=
  ⟨sameValue_refl q, rfl, rfl⟩

theorem fetchRel_refl (r : Except Error Page) : FetchRel SamePage r r := by
  cases r with
  | error e => rfl
  | ok q => exact samePage_refl q

/-- The type switch, the `%T` name and the message of a failed assertion do not
depend on the order of the entries. -/
theorem sameEntries_shape (x y : Any) (h : SameEntries x y) :
    x.shape? = y.shape? ∧ x.typeName = y.typeName ∧
      ∀ t, assertionFailure x t = assertionFailure y t := by
  cases x <;> simp only [SameEntries] at h <;> first
    | (subst h; exact ⟨rfl, rfl, fun _ => rfl⟩)
    | (obtain ⟨b, rfl, -⟩ := h; exact ⟨rfl, rfl, fun _ => rfl⟩)

theorem perm_eq_of_length_le_one {α : Type} (l1 l2 : List α) (h : l1.Perm l2)
    (hl : l1.length ≤ 1) : l1 = l2 := by
  match l1, hl with
  | [], _ => exact (List.Perm.nil_eq h)
  | [a], _ => exact List.singleton_perm.1 h

/-- With at most one list field the fields the visitor collects do not depend on
the order of the entries. -/
theorem sameEntries_listFields (x y : Any) (h : SameEntries x y)
    (hl : x.listFields.length ≤ 1) : x.listFields = y.listFields := by
  cases x <;> simp only [SameEntries] at h <;> first
    | (subst h; rfl)
    | (obtain ⟨b, rfl, hp⟩ := h
       exact perm_eq_of_length_le_one _ _ (hp.filterMap _) hl)

/-- The visitors of `AllPages` look at the body of the page only. -/
theorem shape_handler_congr (sh : Shape) (q1 q2 : Page) (h : q1.GetBody = q2.GetBody)
    (s : AggState) : sh.handler q1 s = sh.handler q2 s := by
  cases sh <;> simp only [Shape.handler, objectHandler, bytesHandler, sliceHandler, h]

/-- Whether a visitor of `AllPages` continues or panics, and with which message,
depends neither on the order of the entries nor on what has been accumulated. -/
theorem shape_handler_outcome (sh : Shape) (q1 q2 : Page)
    (h : SameEntries q1.GetBody q2.GetBody) (s1 s2 : AggState) :
    (sh.handler q1 s1).1 = (sh.handler q2 s2).1 := by
  obtain ⟨h1, -, h3⟩ := sameEntries_shape _ _ h
  by_cases hs : q1.GetBody.shape? = some sh
  · rw [shape_handler_continues sh q1 hs s1, shape_handler_continues sh q2 (h1 ▸ hs) s2]
  · rw [shape_handler_panics sh q1 hs s1, shape_handler_panics sh q2 (h1 ▸ hs) s2, h3]

/-- On a page with at most one list field the visitors of `AllPages` accumulate
the same whatever the order of the entries. -/
theorem shape_handler_same (sh : Shape) (q1 q2 : Page)
    (h : SameEntries q1.GetBody q2.GetBody) (hl : q1.GetBody.listFields.length ≤ 1)
    (s : AggState) : sh.handler q1 s = sh.handler q2 s := by
  have hf := sameEntries_listFields _ _ h hl
  cases hb : q1.GetBody with
  | object a =>
    rw [hb] at h hf
    obtain ⟨b, hb2, -⟩ := h
    rw [hb2] at hf
    cases sh with
    | object =>
      simp only [Shape.handler, objectHandler, hb, hb2, foldl_collectField, hf]
    | bytes => simp only [Shape.handler, bytesHandler, hb, hb2]; rfl
    | slice => simp only [Shape.handler, sliceHandler, hb, hb2]; rfl
  | _ =>
    rw [hb] at h
    simp only [SameEntries] at h
    exact shape_handler_congr sh q1 q2 (by rw [hb, h]) s

/-- `IsEmpty` panics: the loop ends with that panic before the visitor is
called. -/
theorem loop_isEmpty_panic (p : Pager) (handler : Handler σ) (fuel : Nat) (url : String)
    (w : World σ) (pg : Page) (msg : String) (h : pg.IsEmpty = .panic msg) :
    p.eachPageLoop handler (fuel + 1) (some pg) url w = some (.panic msg, w) := by
  simp only [Pager.eachPageLoop, h]

/-- `NextPageURL` panics: the loop ends with that panic after the visitor has
seen the page. -/
theorem loop_next_panic (p : Pager) (handler : Handler σ) (fuel : Nat) (url : String)
    (w : World σ) (pg : Page) (msg : String) (h : pg.IsEmpty = .ret (false, none))
    (hh : (handler pg w.st).1 = .ret (true, none)) (hn : pg.NextPageURL = .panic msg) :
    p.eachPageLoop handler (fuel + 1) (some pg) url w
      = some (.panic msg, ⟨w.trace ++ [Event.visit pg], (handler pg w.st).2⟩) := by
  have e2 : handler pg w.st = (.ret (true, none), (handler pg w.st).2) := by rw [← hh]
  simp only [Pager.eachPageLoop, h]
  rw [e2]
  simp [hn]

theorem simRun_done (S : Page → Page → Prop) (R : σ → σ → Prop) (w1 w2 : World σ)
    (res : Outcome (Option Error)) (ext1 ext2 : List Event) (s1 s2 : σ) (hR : R s1 s2)
    (hf : fetches ext1 = fetches ext2) (hv : List.Forall₂ S (visits ext1) (visits ext2)) :
    SimRun S R w1 w2 (some (res, ⟨w1.trace ++ ext1, s1⟩)) (some (res, ⟨w2.trace ++ ext2, s2⟩)) :=
  Or.inr ⟨res, ext1, ext2, s1, s2, rfl, rfl, hR, hf, hv⟩

theorem simRun_here (S : Page → Page → Prop) (R : σ → σ → Prop) (w1 w2 : World σ)
    (res : Outcome (Option Error)) (hR : R w1.st w2.st) :
    SimRun S R w1 w2 (some (res, w1)) (some (res, w2)) := by
  have h := simRun_done S R w1 w2 res [] [] w1.st w2.st hR rfl List.Forall₂.nil
  simpa using h

theorem simRun_shift (S : Page → Page → Prop) (R : σ → σ → Prop) (w1 w2 : World σ)
    (pre1 pre2 : List Event) (s1 s2 : σ)
    (run1 run2 : Option (Outcome (Option Error) × World σ))
    (hf : fetches pre1 = fetches pre2) (hv : List.Forall₂ S (visits pre1) (visits pre2))
    (h : SimRun S R ⟨w1.trace ++ pre1, s1⟩ ⟨w2.trace ++ pre2, s2⟩ run1 run2) :
    SimRun S R w1 w2 run1 run2 := by
  rcases h with h | ⟨res, ext1, ext2, t1, t2, h1, h2, hR, hf2, hv2⟩
  · exact Or.inl h
  · refine Or.inr ⟨res, pre1 ++ ext1, pre2 ++ ext2, t1, t2, ?_, ?_, hR, ?_, ?_⟩
    · simpa [List.append_assoc] using h1
    · simpa [List.append_assoc] using h2
    · rw [fetches_append, fetches_append, hf, hf2]
    · rw [visits_append, visits_append]
      exact List.rel_append hv hv2

/-- One round of the two loops with related pages in hand and related visitor
states, given that shorter runs from a fetch agree. -/
theorem loop_sim_some (p1 p2 : Pager) (h1 h2 : Handler σ) (S : Page → Page → Prop)
    (R : σ → σ → Prop)
    (hMethods : ∀ q1 q2, S q1 q2 → q1.IsEmpty = q2.IsEmpty ∧ q1.NextPageURL = q2.NextPageURL)
    (hHandler : ∀ q1 q2 s1 s2, S q1 q2 → R s1 s2 →
      (h1 q1 s1).1 = (h2 q2 s2).1 ∧ R (h1 q1 s1).2 (h2 q2 s2).2)
    (n : Nat)
    (ih : ∀ (url : String) (w1 w2 : World σ), R w1.st w2.st →
      SimRun S R w1 w2 (p1.eachPageLoop h1 n none url w1) (p2.eachPageLoop h2 n none url w2))
    (q1 q2 : Page) (hq : S q1 q2) (url1 url2 : String) (w1 w2 : World σ)
    (hst : R w1.st w2.st) :
    SimRun S R w1 w2 (p1.eachPageLoop h1 (n + 1) (some q1) url1 w1)
      (p2.eachPageLoop h2 (n + 1) (some q2) url2 w2) := by
  obtain ⟨hI, hN⟩ := hMethods q1 q2 hq
  obtain ⟨hO, hR⟩ := hHandler q1 q2 w1.st w2.st hq hst
  have hv : List.Forall₂ S (visits [Event.visit q1]) (visits [Event.visit q2]) :=
    List.Forall₂.cons hq List.Forall₂.nil
  cases hi : q1.IsEmpty with
  | panic msg =>
    rw [loop_isEmpty_panic p1 h1 n url1 w1 q1 msg hi,
      loop_isEmpty_panic p2 h2 n url2 w2 q2 msg (by rw [← hI, hi])]
    exact simRun_here S R w1 w2 _ hst
  | ret r =>
    obtain ⟨b, oe⟩ := r
    cases oe with
    | some e =>
      rw [loop_isEmpty_error p1 h1 n url1 w1 q1 b e hi,
        loop_isEmpty_error p2 h2 n url2 w2 q2 b e (by rw [← hI, hi])]
      exact simRun_here S R w1 w2 _ hst
    | none =>
      cases b with
      | true =>
        rw [loop_empty p1 h1 n url1 w1 q1 hi, loop_empty p2 h2 n url2 w2 q2 (by rw [← hI, hi])]
        exact simRun_here S R w1 w2 _ hst
      | false =>
        have hi2 : q2.IsEmpty = .ret (false, none) := by rw [← hI, hi]
        cases ho : (h1 q1 w1.st).1 with
        | panic msg =>
          rw [loop_visit_panic p1 h1 n url1 w1 q1 msg hi ho,
            loop_visit_panic p2 h2 n url2 w2 q2 msg hi2 (by rw [← hO, ho])]
          exact simRun_done S R w1 w2 _ _ _ _ _ hR rfl hv
        | ret r2 =>
          obtain ⟨c, oe2⟩ := r2
          cases oe2 with
          | some e =>
            rw [loop_visit_error p1 h1 n url1 w1 q1 c e hi ho,
              loop_visit_error p2 h2 n url2 w2 q2 c e hi2 (by rw [← hO, ho])]
            exact simRun_done S R w1 w2 _ _ _ _ _ hR rfl hv
          | none =>
            cases c with
            | false =>
              rw [loop_stop p1 h1 n url1 w1 q1 hi ho,
                loop_stop p2 h2 n url2 w2 q2 hi2 (by rw [← hO, ho])]
              exact simRun_done S R w1 w2 _ _ _ _ _ hR rfl hv
            | true =>
              have ho2 : (h2 q2 w2.st).1 = .ret (true, none) := by rw [← hO, ho]
              cases hn : q1.NextPageURL with
              | panic msg =>
                rw [loop_next_panic p1 h1 n url1 w1 q1 msg hi ho hn,
                  loop_next_panic p2 h2 n url2 w2 q2 msg hi2 ho2 (by rw [← hN, hn])]
                exact simRun_done S R w1 w2 _ _ _ _ _ hR rfl hv
              | ret r3 =>
                obtain ⟨next, oe3⟩ := r3
                cases oe3 with
                | some e =>
                  rw [loop_next_error p1 h1 n url1 next w1 q1 e hi ho hn,
                    loop_next_error p2 h2 n url2 next w2 q2 e hi2 ho2 (by rw [← hN, hn])]
                  exact simRun_done S R w1 w2 _ _ _ _ _ hR rfl hv
                | none =>
                  by_cases hne : next = ""
                  · subst hne
                    rw [loop_last p1 h1 n url1 w1 q1 hi ho hn,
                      loop_last p2 h2 n url2 w2 q2 hi2 ho2 (by rw [← hN, hn])]
                    exact simRun_done S R w1 w2 _ _ _ _ _ hR rfl hv
                  · rw [loop_next p1 h1 n url1 next w1 q1 hi ho hn hne,
                      loop_next p2 h2 n url2 next w2 q2 hi2 ho2 (by rw [← hN, hn]) hne]
                    exact simRun_shift S R w1 w2 [Event.visit q1] [Event.visit q2] _ _ _ _
                      rfl hv (ih next _ _ hR)

/-- Two runs of the loop over backends that answer alike up to `S`, with
visitors that act alike on pages related by `S`, agree. -/
theorem loop_sim (p1 p2 : Pager) (h1 h2 : Handler σ) (S : Page → Page → Prop)
    (R : σ → σ → Prop)
    (hFetch : ∀ tr1 tr2 url,
      FetchRel S (p1.fetchNextPage url tr1).1 (p2.fetchNextPage url tr2).1)
    (hMethods : ∀ q1 q2, S q1 q2 → q1.IsEmpty = q2.IsEmpty ∧ q1.NextPageURL = q2.NextPageURL)
    (hHandler : ∀ q1 q2 s1 s2, S q1 q2 → R s1 s2 →
      (h1 q1 s1).1 = (h2 q2 s2).1 ∧ R (h1 q1 s1).2 (h2 q2 s2).2) :
    ∀ (fuel : Nat) (url : String) (w1 w2 : World σ), R w1.st w2.st →
      SimRun S R w1 w2 (p1.eachPageLoop h1 fuel none url w1)
        (p2.eachPageLoop h2 fuel none url w2) := by
  intro fuel
  induction fuel with
  | zero => intro url w1 w2 _; exact Or.inl ⟨rfl, rfl⟩
  | succ n ih =>
    intro url w1 w2 hst
    have hf := hFetch w1.trace w2.trace url
    cases hf1 : (p1.fetchNextPage url w1.trace).1 with
    | error e1 =>
      cases hf2 : (p2.fetchNextPage url w2.trace).1 with
      | error e2 =>
        rw [hf1, hf2] at hf
        simp only [FetchRel] at hf
        subst hf
        rw [loop_fetch_error p1 h1 n url w1 e1 hf1, loop_fetch_error p2 h2 n url w2 e1 hf2]
        exact simRun_done S R w1 w2 _ _ _ _ _ hst rfl List.Forall₂.nil
      | ok q2 =>
        rw [hf1, hf2] at hf
        exact absurd hf (by simp [FetchRel])
    | ok q1 =>
      cases hf2 : (p2.fetchNextPage url w2.trace).1 with
      | error e2 =>
        rw [hf1, hf2] at hf
        exact absurd hf (by simp [FetchRel])
      | ok q2 =>
        rw [hf1, hf2] at hf
        simp only [FetchRel] at hf
        rw [loop_fetch_ok p1 h1 (n + 1) url url w1 q1 hf1,
          loop_fetch_ok p2 h2 (n + 1) url url w2 q2 hf2]
        exact simRun_shift S R w1 w2 [Event.fetch url] [Event.fetch url] _ _ _ _ rfl
          List.Forall₂.nil
          (loop_sim_some p1 p2 h1 h2 S R hMethods hHandler n ih q1 q2 hf url url _ _ hst)

/-- A run of the loop that starts without a page in hand begins by fetching the
current URL. -/
theorem loop_starts_with_fetch (p : Pager) (handler : Handler σ) (fuel : Nat) (url : String)
    (w w1 : World σ) (res : Outcome (Option Error))
    (h : p.eachPageLoop handler fuel none url w = some (res, w1)) :
    ∃ rest, w1.trace = w.trace ++ Event.fetch url :: rest := by
  cases fuel with
  | zero => simp [Pager.eachPageLoop] at h
  | succ n =>
    cases hf : (p.fetchNextPage url w.trace).1 with
    | error e =>
      rw [loop_fetch_error p handler n url w e hf] at h
      simp only [Option.some.injEq, Prod.mk.injEq] at h
      exact ⟨[], by rw [← h.2]⟩
    | ok pg =>
      rw [loop_fetch_ok p handler (n + 1) url url w pg hf] at h
      obtain ⟨ext, h1, -⟩ :=
        loop_some_alternates p handler n (loop_alternates p handler n) pg url _ res w1 h
      exact ⟨ext, by rw [h1]; simp⟩

/-- The merge that follows the walk hands the trace through. -/
theorem afterWalk_some (sh : Shape) (pageType : PageType) (headers : List (String × String))
    (res : Outcome (Option Error)) (w : World AggState) :
    ∃ out, afterWalk sh pageType headers (some (res, w)) = some (out, w.trace) := by
  cases res with
  | panic msg => exact ⟨_, rfl⟩
  | ret r =>
    cases r with
    | some e => exact ⟨_, rfl⟩
    | none =>
      cases sh with
      | object => exact ⟨_, rfl⟩
      | slice =>
        simp only [afterWalk]
        cases setElements w.st.pagesSlice with
        | panic msg => exact ⟨_, rfl⟩
        | ret body => exact ⟨_, rfl⟩
      | bytes =>
        simp only [afterWalk]
        cases combineBytes
            (if w.st.pagesSlice.length > 0
              then w.st.pagesSlice.take (w.st.pagesSlice.length - 1)
              else w.st.pagesSlice) [] with
        | panic msg => exact ⟨_, rfl⟩
        | ret b => exact ⟨_, rfl⟩

theorem sameValue_newPage (pageType : PageType) (body : Any)
    (hs1 hs2 : List (String × String))
    (hdr : ∀ key, headerValues key (buildHeader hs1) = headerValues key (buildHeader hs2)) :
    SameValue (newPage pageType body hs1) (newPage pageType body hs2) :=
  ⟨rfl, sameEntries_refl _, hdr, rfl, rfl⟩

/-- From the same accumulator the merge builds the same page value, whatever the
order in which the headers of the Pager are listed, provided the two header maps
built from them store the same values. -/
theorem afterWalk_sameResult (sh : Shape) (pageType : PageType)
    (hs1 hs2 : List (String × String)) (res : Outcome (Option Error)) (s : AggState)
    (t1 t2 : List Event)
    (out1 out2 : Outcome (Option Page × Option Error))
    (hdr : ∀ key, headerValues key (buildHeader hs1) = headerValues key (buildHeader hs2))
    (h1 : afterWalk sh pageType hs1 (some (res, ⟨t1, s⟩)) = some (out1, t1))
    (h2 : afterWalk sh pageType hs2 (some (res, ⟨t2, s⟩)) = some (out2, t2)) :
    SameResult out1 out2 := by
  have key : ∃ o1 o2, afterWalk sh pageType hs1 (some (res, ⟨t1, s⟩)) = some (o1, t1) ∧
      afterWalk sh pageType hs2 (some (res, ⟨t2, s⟩)) = some (o2, t2) ∧ SameResult o1 o2 := by
    cases res with
    | panic msg => exact ⟨_, _, rfl, rfl, rfl⟩
    | ret r =>
      cases r with
      | some e => exact ⟨_, _, rfl, rfl, rfl⟩
      | none =>
        cases sh with
        | object => exact ⟨_, _, rfl, rfl, sameValue_newPage _ _ _ _ hdr, rfl⟩
        | slice =>
          simp only [afterWalk]
          cases setElements s.pagesSlice with
          | panic msg => exact ⟨_, _, rfl, rfl, rfl⟩
          | ret body => exact ⟨_, _, rfl, rfl, sameValue_newPage _ _ _ _ hdr, rfl⟩
        | bytes =>
          simp only [afterWalk]
          cases combineBytes
              (if s.pagesSlice.length > 0 then s.pagesSlice.take (s.pagesSlice.length - 1)
               else s.pagesSlice) [] with
          | panic msg => exact ⟨_, _, rfl, rfl, rfl⟩
          | ret b => exact ⟨_, _, rfl, rfl, sameValue_newPage _ _ _ _ hdr, rfl⟩
  obtain ⟨o1, o2, k1, k2, k3⟩ := key
  rw [k1] at h1
  rw [k2] at h2
  simp only [Option.some.injEq, Prod.mk.injEq, and_true] at h1 h2
  rw [← h1, ← h2]
  exact k3

/-- A returning call of `AllPages` on a Pager without sticky error begins with
the fetch of the initial URL. -/
theorem AllPages_starts_with_fetch (p : Pager) (fuel : Nat) (tr tr2 : List Event)
    (res : Outcome (Option Page × Option Error)) (hErr : p.Err = none)
    (h : p.AllPages fuel tr = some (res, tr2)) :
    ∃ rest, tr2 = tr ++ Event.fetch p.initialURL :: rest := by
  cases hf : (p.fetchNextPage p.initialURL tr).1 with
  | error e =>
    simp only [Pager.AllPages, hErr, fetchNextPage_eq p p.initialURL tr _ hf, Option.some.injEq,
      Prod.mk.injEq] at h
    exact ⟨[], h.2.symm⟩
  | ok pg =>
    cases hs : pg.pageType.hasSinglePageBase with
    | true =>
      simp only [Pager.AllPages, hErr, fetchNextPage_eq p p.initialURL tr _ hf, hs, if_true,
        Option.some.injEq, Prod.mk.injEq] at h
      exact ⟨[], h.2.symm⟩
    | false =>
      cases hsh : pg.GetBody.shape? with
      | none =>
        rw [AllPages_unrecognized p tr pg fuel hErr hf hs hsh] at h
        simp only [Option.some.injEq, Prod.mk.injEq] at h
        exact ⟨[], h.2.symm⟩
      | some sh =>
        rw [AllPages_eq_afterWalk p tr pg sh fuel hErr hf hs hsh] at h
        cases hl : p.eachPageLoop sh.handler fuel none p.initialURL ⟨tr, ⟨"", []⟩⟩ with
        | none => rw [hl] at h; simp [afterWalk] at h
        | some r =>
          obtain ⟨res1, w1⟩ := r
          obtain ⟨rest, hrest⟩ := loop_starts_with_fetch p sh.handler fuel p.initialURL _ _ _ hl
          obtain ⟨out, hout⟩ := afterWalk_some sh pg.pageType p.Headers res1 w1
          rw [hl, hout] at h
          simp only [Option.some.injEq, Prod.mk.injEq] at h
          exact ⟨rest, by rw [← h.2, hrest]⟩

theorem length_le_one_of_nodup_of_all_eq (a : String) :
    ∀ l : List String, l.Nodup → (∀ x ∈ l, x = a) → l.length ≤ 1
  | [], _, _ => by simp
  | [_], _, _ => by simp
  | x :: y :: l, hn, h => by
    have hx : x = a := h x (by simp)
    have hy : y = a := h y (by simp)
    subst hx hy
    simp at hn

/-- Listed in another order, headers whose names have pairwise different
canonical forms build a header map that stores the same values under every
key. -/
theorem buildHeader_perm (hs1 hs2 : List (String × String)) (hp : hs1.Perm hs2)
    (hn : (hs1.map (fun kv => CanonicalMIMEHeaderKey kv.1)).Nodup) :
    ∀ key, headerValues key (buildHeader hs1) = headerValues key (buildHeader hs2) := by
  intro key
  obtain ⟨e1, -, -⟩ := foldl_headerAdd hs1 [] (by simp) (by simp)
  obtain ⟨e2, -, -⟩ := foldl_headerAdd hs2 [] (by simp) (by simp)
  unfold buildHeader
  rw [e1 key, e2 key]
  have hl : (hs1.filter (fun kv => CanonicalMIMEHeaderKey kv.1 = key)).length ≤ 1 := by
    have h1 : ((hs1.filter (fun kv => CanonicalMIMEHeaderKey kv.1 = key)).map
        (fun kv => CanonicalMIMEHeaderKey kv.1)).length ≤ 1 := by
      apply length_le_one_of_nodup_of_all_eq key
      · exact hn.sublist (List.Sublist.map _ (List.filter_sublist _))
      · intro x hx
        obtain ⟨kv, hkv, rfl⟩ := List.mem_map.1 hx
        simpa using (List.mem_filter.1 hkv).2
    simpa using h1
  rw [perm_eq_of_length_le_one _ _ (hp.filter _) hl]

/-- Two calls of `AllPages`, on two copies of one Pager, against a backend that
answers every request with the same page whatever has happened before, the maps
listed in possibly another order: both use up their iterations, or both come to
an end after the same fetches; when no served page has more than one list field
and the two header maps built from the headers store the same values, they end
alike. -/
theorem AllPages_sim (p q : Pager) (hSame : SamePager p q)
    (hBackend : ∀ tr1 tr2 url,
      FetchRel SamePage (p.fetchNextPage url tr1).1 (q.fetchNextPage url tr2).1)
    (fuel : Nat) (tr1 tr2 : List Event) :
    (p.AllPages fuel tr1 = none ∧ q.AllPages fuel tr2 = none) ∨
      ∃ res1 res2 ext1 ext2, p.AllPages fuel tr1 = some (res1, tr1 ++ ext1) ∧
        q.AllPages fuel tr2 = some (res2, tr2 ++ ext2) ∧ fetches ext1 = fetches ext2 ∧
        ((∀ tr0 url pg, (p.fetchNextPage url tr0).1 = .ok pg →
            pg.GetBody.listFields.length ≤ 1) →
          (∀ key, headerValues key (buildHeader p.Headers)
            = headerValues key (buildHeader q.Headers)) →
          SameResult res1 res2) := by
  obtain ⟨-, hURL, -, -, hErrEq, -⟩ := hSame
  cases hE : p.Err with
  | some e =>
    have hE2 : q.Err = some e := by rw [← hErrEq, hE]
    refine Or.inr ⟨.ret (none, some e), .ret (none, some e), [], [], ?_, ?_, rfl,
      fun _ _ => rfl⟩ <;> simp [Pager.AllPages, hE, hE2]
  | none =>
    have hE2 : q.Err = none := by rw [← hErrEq, hE]
    have hf := hBackend tr1 tr2 p.initialURL
    cases hf1 : (p.fetchNextPage p.initialURL tr1).1 with
    | error e1 =>
      cases hf2 : (q.fetchNextPage p.initialURL tr2).1 with
      | ok q2 =>
        rw [hf1, hf2] at hf
        exact absurd hf (by simp [FetchRel])
      | error e2 =>
        rw [hf1, hf2] at hf
        simp only [FetchRel] at hf
        subst hf
        rw [hURL] at hf2
        refine Or.inr ⟨.ret (none, some e1), .ret (none, some e1), [Event.fetch p.initialURL],
          [Event.fetch p.initialURL], ?_, ?_, rfl, fun _ _ => rfl⟩
        · simp [Pager.AllPages, hE, fetchNextPage_eq p _ tr1 _ hf1]
        · simp [Pager.AllPages, hE2, fetchNextPage_eq q _ tr2 _ hf2, hURL]
    | ok pg1 =>
      cases hf2 : (q.fetchNextPage p.initialURL tr2).1 with
      | error e2 =>
        rw [hf1, hf2] at hf
        exact absurd hf (by simp [FetchRel])
      | ok pg2 =>
        rw [hf1, hf2] at hf
        simp only [FetchRel] at hf
        have hV : SameValue pg1 pg2 := hf.1
        obtain ⟨hT, hB, -, -, -⟩ := hf.1
        obtain ⟨hShape, hName, -⟩ := sameEntries_shape _ _ hB
        rw [hURL] at hf2
        cases hs : pg1.pageType.hasSinglePageBase with
        | true =>
          have hs2 : pg2.pageType.hasSinglePageBase = true := by rw [← hT, hs]
          refine Or.inr ⟨.ret (some pg1, none), .ret (some pg2, none),
            [Event.fetch p.initialURL], [Event.fetch p.initialURL], ?_, ?_, rfl,
            fun _ _ => ⟨hV, rfl⟩⟩
          · simp [Pager.AllPages, hE, fetchNextPage_eq p _ tr1 _ hf1, hs]
          · simp [Pager.AllPages, hE2, fetchNextPage_eq q _ tr2 _ hf2, hs2, hURL]
        | false =>
          have hs2 : pg2.pageType.hasSinglePageBase = false := by rw [← hT, hs]
          cases hsh : pg1.GetBody.shape? with
          | none =>
            have hsh2 : pg2.GetBody.shape? = none := by rw [← hShape, hsh]
            refine Or.inr ⟨.ret (none, some (.ErrUnexpectedType "map[string]any/[]byte/[]any"
                pg1.GetBody.typeName)),
              .ret (none, some (.ErrUnexpectedType "map[string]any/[]byte/[]any"
                pg2.GetBody.typeName)),
              [Event.fetch p.initialURL], [Event.fetch p.initialURL],
              AllPages_unrecognized p tr1 pg1 fuel hE hf1 hs hsh, ?_, rfl, fun _ _ => ?_⟩
            · rw [AllPages_unrecognized q tr2 pg2 fuel hE2 hf2 hs2 hsh2, hURL]
            · simp only [SameResult, hName]
          | some sh =>
            have hsh2 : pg2.GetBody.shape? = some sh := by rw [← hShape, hsh]
            rw [AllPages_eq_afterWalk p tr1 pg1 sh fuel hE hf1 hs hsh,
              AllPages_eq_afterWalk q tr2 pg2 sh fuel hE2 hf2 hs2 hsh2, ← hURL, ← hT]
            rcases loop_sim p q sh.handler sh.handler
              (fun q1 q2 => SamePage q1 q2 ∧
                ((∀ tr0 url pg, (p.fetchNextPage url tr0).1 = .ok pg →
                  pg.GetBody.listFields.length ≤ 1) → q1.GetBody.listFields.length ≤ 1))
              (fun s1 s2 => (∀ tr0 url pg, (p.fetchNextPage url tr0).1 = .ok pg →
                  pg.GetBody.listFields.length ≤ 1) → s1 = s2)
              (by
                intro a b url
                have hb := hBackend a b url
                cases h1 : (p.fetchNextPage url a).1 with
                | error e1 =>
                  cases h2 : (q.fetchNextPage url b).1 with
                  | error e2 => rw [h1, h2] at hb; exact hb
                  | ok q2 => rw [h1, h2] at hb; exact absurd hb (by simp [FetchRel])
                | ok q1 =>
                  cases h2 : (q.fetchNextPage url b).1 with
                  | error e2 => rw [h1, h2] at hb; exact absurd hb (by simp [FetchRel])
                  | ok q2 =>
                    rw [h1, h2] at hb
                    exact ⟨hb, fun H => H a url q1 h1⟩)
              (fun q1 q2 hS => hS.1.2)
              (by
                intro q1 q2 s1 s2 hS hR
                refine ⟨shape_handler_outcome sh q1 q2 hS.1.1.2.1 s1 s2, fun H => ?_⟩
                rw [hR H, shape_handler_same sh q1 q2 hS.1.1.2.1 (hS.2 H) s2])
              fuel p.initialURL ⟨tr1, ⟨"", []⟩⟩ ⟨tr2, ⟨"", []⟩⟩ (fun _ => rfl) with
              ⟨h1, h2⟩ | ⟨res, ext1, ext2, s1, s2, h1, h2, hR, hfe, -⟩
            · rw [h1, h2]
              exact Or.inl ⟨rfl, rfl⟩
            · rw [h1, h2]
              obtain ⟨out1, o1⟩ := afterWalk_some sh pg1.pageType p.Headers res
                ⟨tr1 ++ ext1, s1⟩
              obtain ⟨out2, o2⟩ := afterWalk_some sh pg1.pageType q.Headers res
                ⟨tr2 ++ ext2, s2⟩
              refine Or.inr ⟨out1, out2, ext1, ext2, o1, o2, hfe, fun H hdr => ?_⟩
              have hst := hR H
              subst hst
              exact afterWalk_sameResult sh pg1.pageType p.Headers q.Headers res s1 _ _ _ _ hdr
                o1 o2

/-- C35, as amended: `EachPage` and `AllPages` take their Pager by value, so a
second call gets a copy `q` of the Pager the caller still holds: the same client,
initial URL, page-construction function, sticky error and empty first-page cache
as in the first call, and the same headers, which the second call may range over
in another order. Against a backend that answers every request, whatever has
happened before, with the same error or the same page (its body map possibly
ranged over in another order the second time):
when a call of `EachPage` returns, a second call with a visitor that does not
tell such pages apart, started in the same state, returns the same result,
leaves the visitor in the same state, issues the same fetches in the same order
and visits the same pages; when a call of `AllPages` comes to an end, so does a
second call, after the same fetches in the same order, and it ends alike (same
panic, same error, or the same page value) when no page of the listing has more
than one list-valued field whose name does not end in `links` and no two header
names of the Pager have the same canonical form. Unless the Pager carries a
sticky error, the second call begins with the fetch of the initial URL. -/
theorem second_call_repeats_the_first (p q : Pager) (handler : Handler σ) (fuel : Nat)
    (hSame : SamePager p q)
    (hFresh : p.firstPage = none)
    (hBackend : ∀ tr1 tr2 url,
      FetchRel SamePage (p.fetchNextPage url tr1).1 (q.fetchNextPage url tr2).1)
    (hVisitor : ∀ q1 q2 s, SamePage q1 q2 → handler q1 s = handler q2 s) :
    (∀ (w w1 : World σ) (res : Outcome (Option Error)),
        p.EachPage fuel handler w = some (res, w1) →
        ∃ ext1 ext2, w1.trace = w.trace ++ ext1 ∧
          q.EachPage fuel handler ⟨w1.trace, w.st⟩ = some (res, ⟨w1.trace ++ ext2, w1.st⟩) ∧
          fetches ext2 = fetches ext1 ∧
          List.Forall₂ SamePage (visits ext1) (visits ext2) ∧
          (p.Err = none → ∃ rest, ext2 = Event.fetch p.initialURL :: rest)) ∧
      (∀ (tr tr1 : List Event) (res : Outcome (Option Page × Option Error)),
        p.AllPages fuel tr = some (res, tr1) →
        ∃ ext1 res2 ext2, tr1 = tr ++ ext1 ∧
          q.AllPages fuel tr1 = some (res2, tr1 ++ ext2) ∧
          fetches ext2 = fetches ext1 ∧
          (p.Err = none → ∃ rest, ext2 = Event.fetch p.initialURL :: rest) ∧
          ((∀ tr0 url pg, (p.fetchNextPage url tr0).1 = .ok pg →
              pg.GetBody.listFields.length ≤ 1) →
            (p.Headers.map (fun kv => CanonicalMIMEHeaderKey kv.1)).Nodup →
            SameResult res res2)) := by
  obtain ⟨hClient, hURL, hCreate, hCache, hErrEq, hHeaders⟩ := hSame
  constructor
  · intro w w1 res h
    cases hE : p.Err with
    | some e =>
      have hE2 : q.Err = some e := by rw [← hErrEq, hE]
      simp only [Pager.EachPage, hE, hE2, Option.some.injEq, Prod.mk.injEq] at h ⊢
      obtain ⟨h1, h2⟩ := h
      subst h2
      exact ⟨[], [], by simp, ⟨h1, by simp⟩, rfl, List.Forall₂.nil, fun h => by simp at h⟩
    | none =>
      have hE2 : q.Err = none := by rw [← hErrEq, hE]
      have hFresh2 : q.firstPage = none := by rw [← hCache, hFresh]
      simp only [Pager.EachPage, hE, hE2, hFresh, hFresh2, ← hURL] at h ⊢
      rcases loop_sim p q handler handler SamePage Eq hBackend (fun _ _ hS => hS.2)
        (fun q1 q2 s1 s2 hS hR => by
          subst hR
          rw [hVisitor q1 q2 s1 hS]
          exact ⟨rfl, rfl⟩)
        fuel p.initialURL w ⟨w1.trace, w.st⟩ rfl with
        ⟨h1, -⟩ | ⟨res2, ext1, ext2, s1, s2, h1, h2, hR, hf, hv⟩
      · rw [h] at h1
        simp at h1
      · obtain ⟨rest, hrest⟩ := loop_starts_with_fetch q handler fuel p.initialURL _ _ res2 h2
        rw [h] at h1
        simp only [Option.some.injEq, Prod.mk.injEq] at h1
        obtain ⟨h3, h4⟩ := h1
        subst h3 h4 hR
        exact ⟨ext1, ext2, rfl, h2, hf.symm, hv, fun _ => ⟨rest, List.append_cancel_left hrest⟩⟩
  · intro tr tr1 res h
    rcases AllPages_sim p q ⟨hClient, hURL, hCreate, hCache, hErrEq, hHeaders⟩ hBackend fuel tr
      tr1 with ⟨h1, -⟩ | ⟨res1, res2, ext1, ext2, h1, h2, hf, hres⟩
    · rw [h] at h1
      simp at h1
    · rw [h] at h1
      simp only [Option.some.injEq, Prod.mk.injEq] at h1
      obtain ⟨h3, h4⟩ := h1
      subst h3 h4
      refine ⟨ext1, res2, ext2, rfl, h2, hf.symm, ?_, ?_⟩
      · intro hE
        obtain ⟨rest, hrest⟩ := AllPages_starts_with_fetch q fuel _ _ res2
          (by rw [← hErrEq, hE]) h2
        exact ⟨rest, by rw [hURL]; exact List.append_cancel_left hrest⟩
      · intro hOne hKeys
        exact hres hOne (buildHeader_perm p.Headers q.Headers hHeaders hKeys)

/-- What the example backend that lists a map in two orders serves. -/
theorem reordering_fetch (url : String) (kvs : List (String × Any)) (u : String)
    (tr : List Event) :
    ((NewPager (reorderingClient url kvs) url examplePage).fetchNextPage u tr).1
      = if u = url then
          .ok (examplePage
            (exampleResult (.object (if tr.isEmpty then kvs else kvs.reverse)) ""))
        else .error (.errorString "404") := by
  by_cases hu : u = url
  · simp [Pager.fetchNextPage, Request, NewPager, reorderingClient, PageResultFrom, hu]
  · simp [Pager.fetchNextPage, Request, NewPager, reorderingClient, PageResultFrom, hu]

/-- Two example pages whose keyed-object bodies list the same entries hold the
same value, when the example page type counts the same items in both. -/
theorem samePage_example (a b : List (String × Any)) (hp : a.Perm b)
    (he : exampleIsEmpty (.object a) = exampleIsEmpty (.object b)) :
    SamePage (examplePage (exampleResult (.object a) ""))
      (examplePage (exampleResult (.object b) "")) :=
  ⟨⟨rfl, ⟨b, rfl, hp⟩, fun _ => rfl, rfl, rfl⟩,
    congrArg (fun e => Outcome.ret (e, (none : Option Error))) he, rfl⟩

/-- The example backend answers every request with the same error or the same
page, whatever has happened before. -/
theorem reordering_backend (url : String) (kvs : List (String × Any)) (tr1 tr2 : List Event)
    (u : String) :
    FetchRel SamePage
      ((NewPager (reorderingClient url kvs) url examplePage).fetchNextPage u tr1).1
      ((NewPager (reorderingClient url kvs) url examplePage).fetchNextPage u tr2).1 := by
  have hall : ∀ l : List (String × Any),
      exampleIsEmpty (.object l.reverse) = exampleIsEmpty (.object l) := by
    intro l
    simp [exampleIsEmpty, List.all_reverse]
  rw [reordering_fetch, reordering_fetch]
  by_cases hu : u = url
  · simp only [hu, if_true, FetchRel]
    cases tr1.isEmpty <;> cases tr2.isEmpty <;> simp only [Bool.false_eq_true, if_false, if_true]
    · exact samePage_refl _
    · exact samePage_example _ _ (List.reverse_perm kvs) (hall kvs)
    · exact samePage_example _ _ (List.reverse_perm kvs).symm (hall kvs).symm
    · exact samePage_refl _
  · simp only [hu, if_false, FetchRel]

theorem sameResult_page (a : Page) (res2 : Outcome (Option Page × Option Error))
    (h : SameResult (.ret (some a, none)) res2) :
    ∃ b, res2 = .ret (some b, none) ∧ SameValue a b := by
  cases res2 with
  | panic msg => simp [SameResult] at h
  | ret r =>
    obtain ⟨op, oe⟩ := r
    cases op with
    | none => simp [SameResult] at h
    | some b =>
      simp only [SameResult] at h
      exact ⟨b, by rw [← h.2], h.1⟩

/-- C35, as amended, at a listing of one page with the list field `servers` and
the number field `count`, which the second call ranges over in the other order:
both calls of `AllPages` fetch once and return the same page value. -/
theorem second_call_repeats_the_first_witness :
    ∃ page1 page2 tr1 ext2,
      countedPager.AllPages 1 [] = some (.ret (some page1, none), tr1) ∧
      countedPager.AllPages 1 tr1 = some (.ret (some page2, none), tr1 ++ ext2) ∧
      fetches ext2 = ["/s"] ∧ SameValue page1 page2 ∧
      page1.GetBody = .objectOfSlices [("servers", [.string "a"])] := by
  have e1 : countedPager.AllPages 1 []
      = some (.ret (some (newPage examplePageType
          (.objectOfSlices [("servers", [.string "a"])]) []), none),
        [Event.fetch "/s", Event.visit (examplePage (exampleResult
          (.object [("servers", .slice [.string "a"]), ("count", .float64 1)]) ""))]) := rfl
  obtain ⟨ext1, res2, ext2, h1, h2, h3, -, h5⟩ :=
    (second_call_repeats_the_first countedPager countedPager countingHandler 1
      ⟨rfl, rfl, rfl, rfl, rfl, List.Perm.refl _⟩ rfl (reordering_backend "/s" _)
      (fun _ _ _ _ => rfl)).2 _ _ _ e1
  have hOne : ∀ tr0 url pg, (countedPager.fetchNextPage url tr0).1 = .ok pg →
      pg.GetBody.listFields.length ≤ 1 := by
    intro tr0 url pg h
    unfold countedPager at h
    rw [reordering_fetch] at h
    by_cases hu : url = "/s"
    · simp only [hu, if_true, Except.ok.injEq] at h
      subst h
      cases tr0.isEmpty <;> decide
    · simp [hu] at h
  obtain ⟨page2, hp2, hv⟩ := sameResult_page _ _ (h5 hOne (by simp [countedPager, NewPager]))
  subst hp2
  simp only [List.nil_append] at h1
  exact ⟨_, page2, _, ext2, e1, h2, by rw [h3, ← h1]; rfl, hv, rfl⟩

/-- C35 as stated fails for `AllPages` on a listing whose page has two list
fields, `volumes` holding `1` and `snapshots` holding `2`: the backend answers
the fetch of both calls with the same page, the first call ranges over its body
in the order `volumes`, `snapshots` and returns the body `snapshots: [1, 2]`, the
second call on the same Pager ranges over it in the other order and returns the
body `volumes: [2, 1]`. -/
theorem second_call_aggregates_in_another_order :
    ∃ page1 page2 tr1 ext2 pgA pgB,
      (twoListsPager.fetchNextPage "/s" []).1 = .ok pgA ∧
      (twoListsPager.fetchNextPage "/s" tr1).1 = .ok pgB ∧ SamePage pgA pgB ∧
      twoListsPager.AllPages 1 [] = some (.ret (some page1, none), tr1) ∧
      twoListsPager.AllPages 1 tr1 = some (.ret (some page2, none), tr1 ++ ext2) ∧
      fetches tr1 = ["/s"] ∧ fetches ext2 = ["/s"] ∧
      page1.GetBody = .objectOfSlices [("snapshots", [.float64 1, .float64 2])] ∧
      page2.GetBody = .objectOfSlices [("volumes", [.float64 2, .float64 1])] ∧
      ¬ SameResult (.ret (some page1, none)) (.ret (some page2, none)) := by
  refine ⟨
    newPage examplePageType (.objectOfSlices [("snapshots", [.float64 1, .float64 2])]) [],
    newPage examplePageType (.objectOfSlices [("volumes", [.float64 2, .float64 1])]) [],
    [Event.fetch "/s", Event.visit (examplePage (exampleResult
      (.object [("volumes", .slice [.float64 1]), ("snapshots", .slice [.float64 2])]) ""))],
    [Event.fetch "/s", Event.visit (examplePage (exampleResult
      (.object [("snapshots", .slice [.float64 2]), ("volumes", .slice [.float64 1])]) ""))],
    examplePage (exampleResult
      (.object [("volumes", .slice [.float64 1]), ("snapshots", .slice [.float64 2])]) ""),
    examplePage (exampleResult
      (.object [("snapshots", .slice [.float64 2]), ("volumes", .slice [.float64 1])]) ""),
    rfl, rfl, samePage_example _ _ (List.Perm.swap _ _ _) rfl, rfl, rfl, rfl, rfl, rfl, rfl, ?_⟩
  intro h
  have hb := h.1.2.1
  simp [SameEntries, newPage, Page.GetBody] at hb

end pagination
